import Mathlib

/-!
# neolib: the cookie jar (handle registry), its reference handle, the timer, the event,
string utilities and the zip directory

Shallow embedding of `include/neolib/cookie_jar.hpp`, `src/timer.cpp`, `src/event.cpp`,
and of `tokens`, `wildcard_match`, `append_utf8` and `utf8_to_utf32` of
`include/neolib/string_utils.hpp` and `parse` and `extract` of `src/zip.cpp`.

* `std::vector` values are lists in vector order (`push_back` appends at the end,
  `back` is the last element).
* `neolib::cookie` is `uint32_t`: cookies are natural numbers below `2 ^ 32` and the
  arithmetic on them is reduced modulo `2 ^ 32` where the source can overflow.
* A member function that can throw or run into undefined behaviour (an unchecked
  `operator[]` past the end of a vector, `pop_back` on an empty vector) returns an
  `outcome`, which records the exception and the state the call leaves behind.
* The mutex only serialises calls; one call is one atomic step of the model.
* A `cookie_auto_ref` operation yields the handles it leaves and the list of calls it
  makes on the consumer, in order; a program is run against a counting consumer.
* A `timer` carries its flags and its `boost::asio::deadline_timer`, of which the
  pending waits and the posted completions are kept; the user's `ready()` is a
  parameter, and the pump loop of `cancel` runs for a given number of rounds.
* An `event` is the state its mutex guards; a member that blocks on the condition
  variable is given the states the waiter finds when it holds the mutex again.
* A range of iterators is a list and an iterator is its distance from the start; a
  string is the list of its bytes; a pointer into the zip buffer is its offset.
-/

set_option autoImplicit false

namespace neolib

/-! ## Constants and the item contract -/

/-- The constant `no_cookie = cookie{}`. -/
def no_cookie : Nat := 0

/-- The constant `INVALID_COOKIE = cookie{ ~0ul }`, the largest 32-bit value. -/
def INVALID_COOKIE : Nat := 4294967295

/-- The constant `INVALID_REVERSE_INDEX = reverse_index_t{ ~0ul }`. The header is
written for a platform where `unsigned long` has 32 bits (the braced
`cookie{ ~0ul }` would otherwise narrow a constant that does not fit `uint32_t`), so
`~0ul` is `0xFFFFFFFF` here as well. -/
def INVALID_REVERSE_INDEX : Nat := 4294967295

/-- The interface `i_cookie_jar_item`: a stored value reports its own cookie, a
`uint32_t`. -/
class i_cookie_jar_item (T : Type) where
  /-- The member `cookie()`. -/
  cookie : T → Nat
  /-- The result type is `uint32_t`. -/
  cookie_lt : ∀ a, cookie a < 4294967296

/-- The free function `item_cookie(const i_cookie_jar_item&)`. -/
def item_cookie {T : Type} [i_cookie_jar_item T] (aItem : T) : Nat :=
  i_cookie_jar_item.cookie aItem

/-- The exceptions declared by `cookie_jar`. -/
inductive failure where
  | invalid_cookie
  | cookie_already_added
  | cookies_exhausted
  deriving DecidableEq, Repr

/-- What a `const` member function does: return a value, throw, or run into
undefined behaviour. -/
inductive result (α : Type) where
  | returns (value : α)
  | throws (e : failure)
  | undefined
  deriving DecidableEq, Repr

/-- What a mutating member function does: return a value, or throw, in both cases
leaving a state behind; or run into undefined behaviour. -/
inductive outcome (σ α : Type) where
  | returns (value : α) (state : σ)
  | throws (e : failure) (state : σ)
  | undefined
  deriving DecidableEq, Repr

/-- The state an outcome leaves behind, if it is defined. -/
def outcome.state? {σ α : Type} : outcome σ α → Option σ
  | .returns _ s => some s
  | .throws _ s => some s
  | .undefined => none

/-- The call `std::vector::resize(n, x)`. -/
def resize {α : Type} (v : List α) (n : Nat) (x : α) : List α :=
  v.take n ++ List.replicate (n - v.length) x

/-! ## The registry -/

/-- The data members of `cookie_jar<T>` (the mutex apart). -/
structure cookie_jar (T : Type) where
  iNextAvailableCookie : Nat
  iFreeCookies : List Nat
  iJar : List T
  iReverseIndices : List Nat
  deriving DecidableEq, Repr

namespace cookie_jar

variable {T : Type} [i_cookie_jar_item T]

/-- The constructor `cookie_jar()`: counter zero, all three vectors empty. -/
def constructed : cookie_jar T :=
  { iNextAvailableCookie := 0, iFreeCookies := [], iJar := [], iReverseIndices := [] }

/-- The member `contains`: `aCookie < reverse_indices().size() &&
reverse_indices()[aCookie] != INVALID_REVERSE_INDEX`. -/
def contains (s : cookie_jar T) (aCookie : Nat) : Bool :=
  match s.iReverseIndices[aCookie]? with
  | none => false
  | some reverseIndex => reverseIndex != INVALID_REVERSE_INDEX

/-- The member `operator[]`. The final `jar()[reverseIndex]` is an unchecked vector
subscript. -/
def operator_subscript (s : cookie_jar T) (aCookie : Nat) : result T :=
  match s.iReverseIndices[aCookie]? with
  | none => .throws .invalid_cookie
  | some reverseIndex =>
    if reverseIndex = INVALID_REVERSE_INDEX then .throws .invalid_cookie
    else
      match s.iJar[reverseIndex]? with
      | some item => .returns item
      | none => .undefined

/-- The member `add`. `cookie + 1` is computed in `uint32_t`. The value returned is
the position of the iterator returned by the source. -/
def add (s : cookie_jar T) (aItem : T) : outcome (cookie_jar T) Nat :=
  let cookie := item_cookie aItem
  let indices :=
    if s.iReverseIndices.length ≤ cookie then
      resize s.iReverseIndices ((cookie + 1) % 4294967296) INVALID_REVERSE_INDEX
    else s.iReverseIndices
  match indices[cookie]? with
  | none => .undefined
  | some reverseIndex =>
    if reverseIndex ≠ INVALID_REVERSE_INDEX then
      .throws .cookie_already_added { s with iReverseIndices := indices }
    else
      let jar := s.iJar ++ [aItem]
      .returns (jar.length - 1)
        { s with iJar := jar, iReverseIndices := indices.set cookie (jar.length - 1) }

/-- The member `return_cookie`: `free_cookies().push_back(aCookie)`. -/
def return_cookie (s : cookie_jar T) (aCookie : Nat) : cookie_jar T :=
  { s with iFreeCookies := s.iFreeCookies ++ [aCookie] }

/-- The member `remove(neolib::cookie)`. The first subscript
`reverse_indices()[aCookie]` is unchecked. With an empty jar `jar().size() - 1`
wraps and the call ends in `jar()[reverseIndex]` or `pop_back()` on an empty vector.
The value returned is the position of the iterator returned by the source. -/
def remove (s : cookie_jar T) (aCookie : Nat) : outcome (cookie_jar T) Nat :=
  match s.iReverseIndices[aCookie]? with
  | none => .undefined
  | some reverseIndex =>
    if reverseIndex = INVALID_REVERSE_INDEX then .throws .invalid_cookie s
    else
      match s.iJar.getLast? with
      | none => .undefined
      | some back =>
        if reverseIndex < s.iJar.length - 1 then
          -- swap(item, jar().back()); the slot now holds the former last element
          if item_cookie back < s.iReverseIndices.length then
            .returns reverseIndex (return_cookie
              { s with
                iJar := (s.iJar.set reverseIndex back).dropLast
                iReverseIndices :=
                  (s.iReverseIndices.set (item_cookie back) reverseIndex).set aCookie
                    INVALID_REVERSE_INDEX } aCookie)
          else .undefined
        else
          .returns reverseIndex (return_cookie
            { s with
              iJar := s.iJar.dropLast
              iReverseIndices := s.iReverseIndices.set aCookie INVALID_REVERSE_INDEX }
            aCookie)

/-- The member `next_cookie`. The pre-increment of the `uint32_t` counter wraps and
is kept when the call throws. -/
def next_cookie (s : cookie_jar T) : outcome (cookie_jar T) Nat :=
  match s.iFreeCookies.getLast? with
  | some nextCookie => .returns nextCookie { s with iFreeCookies := s.iFreeCookies.dropLast }
  | none =>
    let nextCookie := (s.iNextAvailableCookie + 1) % 4294967296
    if nextCookie = INVALID_COOKIE then
      .throws .cookies_exhausted { s with iNextAvailableCookie := nextCookie }
    else .returns nextCookie { s with iNextAvailableCookie := nextCookie }

/-- The member `clear`. -/
def clear (_s : cookie_jar T) : cookie_jar T :=
  { iNextAvailableCookie := 0, iFreeCookies := [], iJar := [], iReverseIndices := [] }

end cookie_jar

/-! ## Sequences of calls -/

/-- The public operations of a registry. -/
inductive operation (T : Type) where
  | next_cookie
  | add (aItem : T)
  | remove (aCookie : Nat)
  | return_cookie (aCookie : Nat)
  | clear
  deriving DecidableEq, Repr

variable {T : Type} [i_cookie_jar_item T]

/-- The state after one call, whether it returned or threw; `none` when the call has
undefined behaviour. -/
def operation.apply (s : cookie_jar T) : operation T → Option (cookie_jar T)
  | .next_cookie => s.next_cookie.state?
  | .add aItem => (s.add aItem).state?
  | .remove aCookie => (s.remove aCookie).state?
  | .return_cookie aCookie => some (s.return_cookie aCookie)
  | .clear => some s.clear

/-- The state after a sequence of calls, executed from left to right. -/
def run (s : cookie_jar T) : List (operation T) → Option (cookie_jar T)
  | [] => some s
  | op :: ops =>
    match op.apply s with
    | none => none
    | some s1 => run s1 ops

/-- An item for the examples: a cookie and a payload. -/
structure labelled where
  id : Nat
  payload : Nat
  deriving DecidableEq, Repr

instance : i_cookie_jar_item labelled where
  cookie a := a.id % 4294967296
  cookie_lt _ := Nat.mod_lt _ (by decide)

/-! ## The registry invariant -/

/-- Number of entries of a reverse-index table that are not the invalid sentinel,
that is the number of live cookies. -/
def live_count (indices : List Nat) : Nat :=
  indices.countP (fun r => r != INVALID_REVERSE_INDEX)

/-- The reverse-index table after the conditional `resize(cookie + 1, ...)` of `add`,
when `cookie + 1` does not wrap. -/
def grow (indices : List Nat) (cookie : Nat) : List Nat :=
  indices ++ List.replicate (cookie + 1 - indices.length) INVALID_REVERSE_INDEX

/-- The invariant of the data model: every live reverse-index entry is a position of
the jar whose item reports that cookie, every jar item is found through its own
cookie, the jar has as many items as there are live cookies, and the table never
reaches the reserved cookie. -/
structure invariant (s : cookie_jar T) : Prop where
  table_bound : s.iReverseIndices.length ≤ INVALID_COOKIE
  position_valid : ∀ c r, s.iReverseIndices[c]? = some r → r ≠ INVALID_REVERSE_INDEX →
    ∃ x, s.iJar[r]? = some x ∧ item_cookie x = c
  item_indexed : ∀ i x, s.iJar[i]? = some x → s.iReverseIndices[item_cookie x]? = some i
  size_eq : s.iJar.length = live_count s.iReverseIndices

/-! ## Reference model: the registry as a finite map -/

/-- Reference model of one call on a finite map from cookie to item: `add` binds
the item's cookie unless it is bound already, `remove` unbinds, `clear` unbinds
everything, and the cookie allocator does not touch the map. -/
def map_step (m : Nat → Option T) : operation T → Nat → Option T
  | .add aItem =>
    if (m (item_cookie aItem)).isSome then m
    else Function.update m (item_cookie aItem) (some aItem)
  | .remove aCookie => Function.update m aCookie none
  | .clear => fun _ => none
  | .next_cookie => m
  | .return_cookie _ => m

/-- Reference model of a sequence of calls: the item most recently added under each
cookie and not removed since. -/
def map_after (m : Nat → Option T) : List (operation T) → Nat → Option T
  | [] => m
  | op :: ops => map_after (map_step m op) ops

/-- A registry represents a finite map when every lookup answers as the map does. -/
def represents (s : cookie_jar T) (m : Nat → Option T) : Prop :=
  ∀ c, s.operator_subscript c =
    match m c with
    | some x => .returns x
    | none => .throws .invalid_cookie

/-- The number of live cookies of a registry, counted over the reverse-index table. -/
def live_cookies (s : cookie_jar T) : Nat :=
  ((List.range s.iReverseIndices.length).filter (fun c => s.contains c)).length

/-- A call that keeps the reserved values out of the registry: no added item
carries `no_cookie` or `INVALID_COOKIE`, and neither is handed to `return_cookie`. -/
def operation.unreserved : operation T → Prop
  | .add aItem => item_cookie aItem ≠ no_cookie ∧ item_cookie aItem ≠ INVALID_COOKIE
  | .return_cookie aCookie => aCookie ≠ no_cookie ∧ aCookie ≠ INVALID_COOKIE
  | .remove _ => True
  | .next_cookie => True
  | .clear => True

/-- The part of the state that decides whether `next_cookie` can hand out a reserved
value: the counter is a `uint32_t`, no reserved value is on the free list, and
`no_cookie` is not live (so `remove` cannot push it). -/
structure unreserved_state (s : cookie_jar T) : Prop where
  counter_lt : s.iNextAvailableCookie < 4294967296
  free_unreserved : ∀ x ∈ s.iFreeCookies, x ≠ no_cookie ∧ x ≠ INVALID_COOKIE
  zero_not_live : s.contains no_cookie = false

instance (op : operation T) : Decidable op.unreserved := by
  cases op <;> unfold operation.unreserved <;> infer_instance

/-- Calls of the scenario of the spec: two cookies are issued and an item is added
under each. -/
def sample_calls : List (operation labelled) :=
  [.next_cookie, .next_cookie, .add ⟨1, 10⟩, .add ⟨2, 20⟩]

/-- The registry after `sample_calls`. -/
def sample_registry : cookie_jar labelled :=
  { iNextAvailableCookie := 2
    iFreeCookies := []
    iJar := [⟨1, 10⟩, ⟨2, 20⟩]
    iReverseIndices := [4294967295, 0, 1] }

/-! ## Reference handles (`cookie_auto_ref`) -/

/-- The data members of `cookie_auto_ref`: `iConsumer` points to a consumer (`none`
is `nullptr`; consumers are told apart by their address, a number here) and
`iCookie` is the cookie. -/
structure cookie_auto_ref where
  iConsumer : Option Nat
  iCookie : Nat
  deriving DecidableEq, Repr

/-- A call that a handle makes on a consumer through `i_cookie_consumer`. -/
inductive consumer_call where
  | add_ref (consumer : Nat) (aCookie : Nat)
  | release (consumer : Nat) (aCookie : Nat)
  deriving DecidableEq, Repr

/-- The handles involved in a move construction, after it, and the consumer calls it
made, in order. -/
structure moved where
  created : cookie_auto_ref
  source : cookie_auto_ref
  calls : List consumer_call
  deriving DecidableEq, Repr

/-- The handles involved in an assignment between two distinct objects, after it,
and the consumer calls it made, in order. -/
structure assigned where
  target : cookie_auto_ref
  source : cookie_auto_ref
  calls : List consumer_call
  deriving DecidableEq, Repr

namespace cookie_auto_ref

/-- The member `have_consumer`: `iConsumer != nullptr`. -/
def have_consumer (h : cookie_auto_ref) : Bool := h.iConsumer.isSome

/-- The member `have_cookie`: `iCookie != no_cookie`. -/
def have_cookie (h : cookie_auto_ref) : Bool := h.iCookie != no_cookie

/-- The member `valid`. -/
def valid (h : cookie_auto_ref) : Bool := h.have_consumer && h.have_cookie

/-- The member `expired`. -/
def expired (h : cookie_auto_ref) : Bool := !h.valid

/-- The private member `add_ref`: nothing when the handle is not valid, else one
`add_ref(cookie())` on the consumer. -/
def add_ref (h : cookie_auto_ref) : List consumer_call :=
  if !h.valid then []
  else
    match h.iConsumer with
    | some consumer => [.add_ref consumer h.iCookie]
    | none => []

/-- The private member `release`: nothing when the handle is not valid, else one
`release(cookie())` on the consumer, after which both members are reset. -/
def release (h : cookie_auto_ref) : cookie_auto_ref × List consumer_call :=
  if !h.valid then (h, [])
  else
    match h.iConsumer with
    | some consumer => ({ iConsumer := none, iCookie := no_cookie }, [.release consumer h.iCookie])
    | none => (h, [])

/-- The default constructor. -/
def default_constructed : cookie_auto_ref := { iConsumer := none, iCookie := no_cookie }

/-- The constructor from `(consumer, cookie)`: the new handle and the calls made. -/
def constructed (aConsumer : Nat) (aCookie : Nat) : cookie_auto_ref × List consumer_call :=
  let created : cookie_auto_ref := { iConsumer := some aConsumer, iCookie := aCookie }
  (created, created.add_ref)

/-- The destructor: the calls made. -/
def destructor (h : cookie_auto_ref) : List consumer_call := h.release.2

/-- The copy constructor: the new handle and the calls made. -/
def copy_constructed (aOther : cookie_auto_ref) : cookie_auto_ref × List consumer_call :=
  let created : cookie_auto_ref := { iConsumer := aOther.iConsumer, iCookie := aOther.iCookie }
  (created, created.add_ref)

/-- The move constructor: `add_ref()` on the new handle, then `aOther.release()`. -/
def move_constructed (aOther : cookie_auto_ref) : moved :=
  let created : cookie_auto_ref := { iConsumer := aOther.iConsumer, iCookie := aOther.iCookie }
  let released := aOther.release
  { created := created, source := released.1, calls := created.add_ref ++ released.2 }

/-- The copy assignment `this = aOther` between two distinct objects: `temp` is move
constructed from `*this`, the members are copied, `add_ref()` is called, and `temp`
is destroyed when the function returns. -/
def copy_assign (this aOther : cookie_auto_ref) : assigned :=
  let temp := move_constructed this
  let target : cookie_auto_ref := { iConsumer := aOther.iConsumer, iCookie := aOther.iCookie }
  { target := target
    source := aOther
    calls := temp.calls ++ target.add_ref ++ temp.created.destructor }

/-- The move assignment `this = std::move(aOther)` between two distinct objects: as
the copy assignment, with `aOther.release()` after `add_ref()`. -/
def move_assign (this aOther : cookie_auto_ref) : assigned :=
  let temp := move_constructed this
  let target : cookie_auto_ref := { iConsumer := aOther.iConsumer, iCookie := aOther.iCookie }
  let released := aOther.release
  { target := target
    source := released.1
    calls := temp.calls ++ target.add_ref ++ released.2 ++ temp.created.destructor }

end cookie_auto_ref

/-- Modelled from the spec: an implementation of `i_cookie_consumer` (the header
only declares the interface) that keeps one count per consumer and cookie;
`add_ref` adds one, `release` fails with `invalid_release` (`none`) when the count
would go negative and takes one off otherwise, `use_count` reads the count. -/
def counting_consumer (counts : Nat × Nat → Nat) : consumer_call → Option (Nat × Nat → Nat)
  | .add_ref consumer aCookie =>
    some (Function.update counts (consumer, aCookie) (counts (consumer, aCookie) + 1))
  | .release consumer aCookie =>
    if counts (consumer, aCookie) = 0 then none
    else some (Function.update counts (consumer, aCookie) (counts (consumer, aCookie) - 1))

/-- The counts after a sequence of consumer calls, `none` when a `release` fails. -/
def count_calls (counts : Nat × Nat → Nat) : List consumer_call → Option (Nat × Nat → Nat)
  | [] => some counts
  | call :: calls =>
    match counting_consumer counts call with
    | none => none
    | some counts1 => count_calls counts1 calls

/-- The net effect of a sequence of consumer calls on the count of one consumer and
cookie: the `add_ref` calls minus the `release` calls. -/
def net_calls (key : Nat × Nat) : List consumer_call → Int
  | [] => 0
  | .add_ref consumer aCookie :: calls =>
    (if (consumer, aCookie) = key then 1 else 0) + net_calls key calls
  | .release consumer aCookie :: calls =>
    (if (consumer, aCookie) = key then -1 else 0) + net_calls key calls

/-- A program state: the handle objects created so far (`none` once destroyed) and
the counts of the consumers. -/
structure handle_world where
  handles : List (Option cookie_auto_ref)
  counts : Nat × Nat → Nat

/-- The operations of a program on its handles; handles are named by their position
in `handle_world.handles`. -/
inductive handle_op where
  | construct (aConsumer : Nat) (aCookie : Nat)
  | default_construct
  | copy_construct (aOther : Nat)
  | move_construct (aOther : Nat)
  | copy_assign (this : Nat) (aOther : Nat)
  | move_assign (this : Nat) (aOther : Nat)
  | destroy (this : Nat)
  deriving DecidableEq, Repr

/-- The handle object at a position, if it exists and has not been destroyed. -/
def handle_at (handles : List (Option cookie_auto_ref)) (i : Nat) : Option cookie_auto_ref :=
  match handles[i]? with
  | some (some h) => some h
  | _ => none

/-- The handles after an operation and the consumer calls it makes, in order; `none`
when the operation names an object that does not exist. The assignments start with
the test `&aOther == this`. -/
def handle_op.perform (handles : List (Option cookie_auto_ref)) :
    handle_op → Option (List (Option cookie_auto_ref) × List consumer_call)
  | .construct aConsumer aCookie =>
    let r := cookie_auto_ref.constructed aConsumer aCookie
    some (handles ++ [some r.1], r.2)
  | .default_construct => some (handles ++ [some cookie_auto_ref.default_constructed], [])
  | .copy_construct aOther =>
    match handle_at handles aOther with
    | none => none
    | some other =>
      let r := other.copy_constructed
      some (handles ++ [some r.1], r.2)
  | .move_construct aOther =>
    match handle_at handles aOther with
    | none => none
    | some other =>
      let r := other.move_constructed
      some (handles.set aOther (some r.source) ++ [some r.created], r.calls)
  | .copy_assign this aOther =>
    match handle_at handles this, handle_at handles aOther with
    | some target, some other =>
      if aOther = this then some (handles, [])
      else
        let r := target.copy_assign other
        some ((handles.set this (some r.target)).set aOther (some r.source), r.calls)
    | _, _ => none
  | .move_assign this aOther =>
    match handle_at handles this, handle_at handles aOther with
    | some target, some other =>
      if aOther = this then some (handles, [])
      else
        let r := target.move_assign other
        some ((handles.set this (some r.target)).set aOther (some r.source), r.calls)
    | _, _ => none
  | .destroy this =>
    match handle_at handles this with
    | none => none
    | some target => some (handles.set this none, target.destructor)

/-- What a program step does: it completes, or a `release` fails with
`invalid_release`, or the step names an object that does not exist. -/
inductive handle_outcome where
  | done (w : handle_world)
  | invalid_release
  | no_such_handle

/-- One operation against the counting consumer. -/
def handle_op.step (w : handle_world) (op : handle_op) : handle_outcome :=
  match op.perform w.handles with
  | none => .no_such_handle
  | some (handles, calls) =>
    match count_calls w.counts calls with
    | none => .invalid_release
    | some counts => .done { handles := handles, counts := counts }

/-- A sequence of operations against the counting consumer. -/
def run_handles (w : handle_world) : List handle_op → handle_outcome
  | [] => .done w
  | op :: ops =>
    match op.step w with
    | .done w1 => run_handles w1 ops
    | .invalid_release => .invalid_release
    | .no_such_handle => .no_such_handle

/-- The start of a program: no handle yet, every count zero. -/
def handle_world.start : handle_world := { handles := [], counts := fun _ => 0 }

/-- Whether a handle slot is a live valid handle on the given consumer and cookie. -/
def holds (key : Nat × Nat) : Option cookie_auto_ref → Bool
  | some h => h.valid && (h.iConsumer == some key.1 && h.iCookie == key.2)
  | none => false

/-- The number of live valid handles that hold the given consumer and cookie. -/
def holders (handles : List (Option cookie_auto_ref)) (key : Nat × Nat) : Nat :=
  handles.countP (holds key)

/-- One when the slot is a live valid handle on the given consumer and cookie, zero
otherwise. -/
def weight (key : Nat × Nat) (slot : Option cookie_auto_ref) : Nat :=
  if holds key slot = true then 1 else 0

/-- The use count of every consumer and cookie is the number of live valid handles
that hold them. -/
def counts_match (w : handle_world) : Prop :=
  ∀ key, w.counts key = holders w.handles key

/-- What is claimed of the outcome of a program: it never fails with
`invalid_release`, and when it completes the counts match the handles. -/
def handle_outcome.counted : handle_outcome → Prop
  | .done w => counts_match w
  | .invalid_release => False
  | .no_such_handle => True

/-- A program for the examples: two handles on consumer 0, for cookies 5 and 6. -/
def sample_program : List handle_op := [.construct 0 5, .construct 0 6]

/-- The program state after `sample_program`. -/
def sample_world : handle_world :=
  match run_handles handle_world.start sample_program with
  | .done w => w
  | _ => handle_world.start

/-! ## Timers (`timer.cpp`) -/

/-- The exceptions thrown by `timer`, and `callback_failed` for whatever exception
leaves the user's `ready()`. -/
inductive timer_failure where
  | already_waiting
  | already_enabled
  | already_disabled
  | in_cancel
  | timer_destroyed
  | callback_failed
  deriving DecidableEq, Repr

/-- The member `iTimerObject`, a `boost::asio::deadline_timer`, with the completions
of its waits that the io service of the owner thread has yet to run: `expiry` is the
duration given to the last `expires_from_now`, `pending` counts the asynchronous
waits that can still be cancelled, `posted` lists the completions queued for the
handler, oldest first, each with its error flag (`true` is `operation_aborted`). -/
structure deadline_timer where
  expiry : Option Nat
  pending : Nat
  posted : List Bool
  deriving DecidableEq, Repr

namespace deadline_timer

/-- The call `cancel()`: every pending wait completes with `operation_aborted`; the
value returned is the number of waits cancelled. -/
def cancel (o : deadline_timer) : Nat × deadline_timer :=
  (o.pending, { o with pending := 0, posted := o.posted ++ List.replicate o.pending true })

/-- The call `expires_from_now(duration)`: pending waits are cancelled and the expiry
is set. -/
def expires_from_now (o : deadline_timer) (aDuration_ms : Nat) : deadline_timer :=
  { o.cancel.2 with expiry := some aDuration_ms }

/-- The call `async_wait(handler)`. -/
def async_wait (o : deadline_timer) : deadline_timer :=
  { o with pending := o.pending + 1 }

/-- The expiry time is reached: every pending wait completes without error and can no
longer be cancelled. -/
def expire (o : deadline_timer) : deadline_timer :=
  { o with pending := 0, posted := o.posted ++ List.replicate o.pending false }

end deadline_timer

/-- The data members of `timer` (the owner thread apart). -/
structure timer where
  iTimerObject : deadline_timer
  iDuration_ms : Nat
  iEnabled : Bool
  iWaiting : Bool
  iCancelling : Bool
  iDestroying : Bool
  iInReady : Bool
  deriving DecidableEq, Repr

/-- What a call of the user's `ready()` does to the timer: it returns or throws,
leaving the timer in some state, or it destroys the timer and then returns or
throws. -/
inductive callback_outcome where
  | returns (t : timer)
  | throws (t : timer)
  | destroyed
  | destroyed_throws
  deriving DecidableEq, Repr

/-- What a member function of `timer` does: it returns or throws, leaving the timer
in some state; or it returns early because the timer was destroyed meanwhile; or its
loop has not ended within the number of rounds allowed; or it touches the timer
after its destruction. -/
inductive timer_outcome where
  | returns (t : timer)
  | throws (e : timer_failure) (t : timer)
  | destroyed
  | out_of_fuel
  | undefined
  deriving DecidableEq, Repr

/-- The outcome of a member function that may run completion handlers, with the
number of calls of `ready()` made on the way. -/
structure handled where
  ready_calls : Nat
  outcome : timer_outcome
  deriving DecidableEq, Repr

/-- What surrounds a call of `cancel`: whether `std::uncaught_exception()` holds, and
whether a handler of another object, run by `do_io`, destroys this timer. -/
structure surroundings where
  uncaught_exception : Bool
  destroyed_in_io : Bool
  deriving DecidableEq, Repr

namespace timer

/-- The member `again`. Its first statement `if (disabled()) enable(false)` only sets
`iEnabled`, since `enable(false)` on a disabled timer does no more. -/
def again (t : timer) : timer_outcome :=
  let t1 := if !t.iEnabled then { t with iEnabled := true } else t
  if t1.iWaiting then .throws .already_waiting t1
  else if t1.iCancelling then .throws .in_cancel t1
  else
    .returns
      { t1 with
        iTimerObject := (t1.iTimerObject.expires_from_now t1.iDuration_ms).async_wait
        iWaiting := true }

/-- The member `enable`. -/
def enable (t : timer) (aWait : Bool) : timer_outcome :=
  if t.iEnabled then .throws .already_enabled t
  else
    let t1 := { t with iEnabled := true }
    if aWait then t1.again else .returns t1

/-- The member `handler`, called with the error flag of a completion; `ready` is the
user's callback. -/
def handler (ready : timer → callback_outcome) (t : timer) (aError : Bool) : handled :=
  if t.iInReady then { ready_calls := 0, outcome := .returns t }
  else
    let t1 := { t with iWaiting := false }
    if !aError && t1.iEnabled && !t1.iCancelling then
      match ready { t1 with iInReady := true } with
      | .returns t2 => { ready_calls := 1, outcome := .returns { t2 with iInReady := false } }
      | .throws t2 =>
        { ready_calls := 1, outcome := .throws .callback_failed { t2 with iInReady := false } }
      | .destroyed => { ready_calls := 1, outcome := .destroyed }
      | .destroyed_throws => { ready_calls := 1, outcome := .undefined }
    else { ready_calls := 0, outcome := .returns t1 }

/-- The handler run on each of a list of completions in turn, as long as it
returns. -/
def deliver (ready : timer → callback_outcome) : List Bool → timer → handled
  | [], t => { ready_calls := 0, outcome := .returns t }
  | aError :: rest, t =>
    let first := t.handler ready aError
    match first.outcome with
    | .returns t1 =>
      let others := deliver ready rest t1
      { ready_calls := first.ready_calls + others.ready_calls, outcome := others.outcome }
    | o => { ready_calls := first.ready_calls, outcome := o }

/-- Modelled from the spec: `io_thread::timer_io_service().do_io(false)`, the
non-blocking drain of the owner thread's io driver (its source is not part of the
files at hand). It runs the completions of this timer that were posted when it is
called. -/
def do_io (ready : timer → callback_outcome) (t : timer) : handled :=
  deliver ready t.iTimerObject.posted
    { t with iTimerObject := { t.iTimerObject with posted := [] } }

/-- The loop `while (waiting()) { do_io(false); if (destroyed) return; }` of
`cancel`, for at most `fuel` rounds. -/
def cancel_loop (ready : timer → callback_outcome) (env : surroundings) :
    Nat → timer → handled
  | 0, t =>
    if t.iWaiting then { ready_calls := 0, outcome := .out_of_fuel }
    else { ready_calls := 0, outcome := .returns t }
  | fuel + 1, t =>
    if t.iWaiting then
      let round := t.do_io ready
      match round.outcome with
      | .returns t1 =>
        if env.destroyed_in_io then { ready_calls := round.ready_calls, outcome := .destroyed }
        else
          let others := cancel_loop ready env fuel t1
          { ready_calls := round.ready_calls + others.ready_calls, outcome := others.outcome }
      | o => { ready_calls := round.ready_calls, outcome := o }
    else { ready_calls := 0, outcome := .returns t }

/-- The member `cancel`. -/
def cancel (ready : timer → callback_outcome) (env : surroundings) (fuel : Nat)
    (t : timer) : handled :=
  if t.iCancelling then { ready_calls := 0, outcome := .returns t }
  else if !t.iWaiting then { ready_calls := 0, outcome := .returns t }
  else
    let cancelled := t.iTimerObject.cancel
    let t1 := { t with iCancelling := true, iTimerObject := cancelled.2 }
    if cancelled.1 = 0 then { ready_calls := 0, outcome := .returns { t1 with iCancelling := false } }
    else if t1.iDestroying && env.uncaught_exception then
      { ready_calls := 0, outcome := .returns t1 }
    else
      let pumped := t1.cancel_loop ready env fuel
      match pumped.outcome with
      | .returns t2 =>
        { ready_calls := pumped.ready_calls
          outcome := .returns (if !t2.iDestroying then { t2 with iCancelling := false } else t2) }
      | o => { ready_calls := pumped.ready_calls, outcome := o }

/-- The member `disable`. When `cancel` returns because the timer was destroyed, the
assignment `iEnabled = false` still follows. -/
def disable (ready : timer → callback_outcome) (env : surroundings) (fuel : Nat)
    (t : timer) : handled :=
  if !t.iEnabled then { ready_calls := 0, outcome := .throws .already_disabled t }
  else
    let cancelled :=
      if t.iWaiting then t.cancel ready env fuel else { ready_calls := 0, outcome := .returns t }
    match cancelled.outcome with
    | .returns t1 =>
      { ready_calls := cancelled.ready_calls, outcome := .returns { t1 with iEnabled := false } }
    | .destroyed => { ready_calls := cancelled.ready_calls, outcome := .undefined }
    | o => { ready_calls := cancelled.ready_calls, outcome := o }

end timer

/-- A timer as the constructor leaves it without an initial wait, for 50 ms. -/
def sample_timer : timer :=
  { iTimerObject := { expiry := none, pending := 0, posted := [] }
    iDuration_ms := 50
    iEnabled := true
    iWaiting := false
    iCancelling := false
    iDestroying := false
    iInReady := false }

/-- A callback that does nothing and returns. -/
def idle_callback : timer → callback_outcome := fun t => .returns t

/-- The sample timer after `again()`: waiting, with one wait pending for 50 ms. -/
def armed_timer : timer :=
  { sample_timer with iWaiting := true, iTimerObject := { expiry := some 50, pending := 1, posted := [] } }

namespace timer

/-- The member `again_if`. -/
def again_if (t : timer) : timer_outcome :=
  if !t.iWaiting then t.again else .returns t

/-- The member `reset`: `cancel()`, a return if the timer was destroyed meanwhile,
then `again()`. -/
def reset (ready : timer → callback_outcome) (env : surroundings) (fuel : Nat)
    (t : timer) : handled :=
  let cancelled := t.cancel ready env fuel
  match cancelled.outcome with
  | .returns t1 => { ready_calls := cancelled.ready_calls, outcome := t1.again }
  | o => { ready_calls := cancelled.ready_calls, outcome := o }

/-- The member `set_duration`. -/
def set_duration (ready : timer → callback_outcome) (env : surroundings) (fuel : Nat)
    (t : timer) (aDuration_ms : Nat) (aEffectiveImmediately : Bool) : handled :=
  let t1 := { t with iDuration_ms := aDuration_ms }
  if aEffectiveImmediately && t1.iWaiting then
    let cancelled := t1.cancel ready env fuel
    match cancelled.outcome with
    | .returns t2 => { ready_calls := cancelled.ready_calls, outcome := t2.again }
    | o => { ready_calls := cancelled.ready_calls, outcome := o }
  else { ready_calls := 0, outcome := .returns t1 }

/-- The copy constructor `timer(const timer&)`: a timer object of its own, the
duration and the enabled flag of the source, the other flags cleared, then `again()`
if the source is waiting. -/
def copy_constructed (aOther : timer) : timer_outcome :=
  let created : timer :=
    { iTimerObject := { expiry := none, pending := 0, posted := [] }
      iDuration_ms := aOther.iDuration_ms
      iEnabled := aOther.iEnabled
      iWaiting := false
      iCancelling := false
      iDestroying := false
      iInReady := false }
  if aOther.iWaiting then created.again else .returns created

end timer

/-- The timer an outcome leaves behind, when it returned or threw. -/
def timer_outcome.state? : timer_outcome → Option timer
  | .returns t => some t
  | .throws _ t => some t
  | _ => none

/-- The sample timer, armed, after its wait has expired and before the handler has
run: still waiting, nothing left to cancel, one completion posted. -/
def expired_timer : timer :=
  { armed_timer with iTimerObject := armed_timer.iTimerObject.expire }

/-- The second timer has the duration and the flags `iEnabled`, `iDestroying` and
`iInReady` of the first. -/
def timer.configured_as (t t1 : timer) : Prop :=
  t1.iDuration_ms = t.iDuration_ms ∧ t1.iEnabled = t.iEnabled ∧
    t1.iDestroying = t.iDestroying ∧ t1.iInReady = t.iInReady

/-! ## Events (`event.cpp`) -/

/-- The values of `iSignalType`. -/
inductive signal_type where
  | SignalOne
  | SignalAll
  deriving DecidableEq, Repr

/-- The data members of `event` (mutex and condition variable apart). Every member
function runs under the mutex; a waiter gives the mutex up only while it is blocked
in the condition variable. -/
structure event where
  iReady : Bool
  iSignalType : signal_type
  iTotalWaiting : Nat
  deriving DecidableEq, Repr

/-- How a `timed_wait` on the condition variable ends: `notified` is its result
(false when the time given was reached), `found` is the event as the waiter finds it
once it holds the mutex again, after whatever the other threads did meanwhile. -/
structure wake where
  notified : Bool
  found : event
  deriving DecidableEq, Repr

/-- What one round of a polling loop does: it ends the call with a result, or it
sleeps and the loop goes round again. -/
inductive polled where
  | returned (result : Bool) (e : event)
  | sleeps (e : event)
  deriving DecidableEq, Repr

namespace event

/-- The constructor: `iReady(false), iTotalWaiting(0)`; `iSignalType` is left
uninitialised, so it can be either value. -/
def constructed (aSignalType : signal_type) : event :=
  { iReady := false, iSignalType := aSignalType, iTotalWaiting := 0 }

/-- The member `signal_one`. -/
def signal_one (e : event) : event :=
  { e with iReady := true, iSignalType := .SignalOne }

/-- The member `signal_all`. -/
def signal_all (e : event) : event :=
  { e with iReady := true, iSignalType := .SignalAll }

/-- The member `reset`. -/
def reset (e : event) : event :=
  { e with iReady := false }

/-- The start of both `wait` members: `++iTotalWaiting` under the mutex. -/
def wait_enter (e : event) : event :=
  { e with iTotalWaiting := e.iTotalWaiting + 1 }

/-- The loop `while (!iReady) iCondVar.wait(lock)` of `wait()`: `founds` lists the
event as found at each wake-up in turn; `none` when the waiter is still blocked
after the last of them. -/
def wait_until_ready : event → List event → Option event
  | e, [] => if e.iReady then some e else none
  | e, found :: founds => if e.iReady then some e else wait_until_ready found founds

/-- The end of `wait()`: `--iTotalWaiting; if (iSignalType == SignalOne ||
iTotalWaiting == 0) iReady = false`. -/
def wait_leave (e : event) : event :=
  let e1 := { e with iTotalWaiting := e.iTotalWaiting - 1 }
  if e1.iSignalType = .SignalOne ∨ e1.iTotalWaiting = 0 then { e1 with iReady := false } else e1

/-- The member `wait()`: the event when the call returns, `none` when it is still
blocked. -/
def wait (e : event) (founds : List event) : Option event :=
  (wait_until_ready e.wait_enter founds).map wait_leave

/-- The member `wait(uint32_t)`: `timed_wait` is entered only when the event is not
ready, and `w` tells how it ends. In the last condition `&&` binds tighter than
`||`. -/
def wait_for (e : event) (w : wake) : Bool × event :=
  let e1 := e.wait_enter
  let waited : Bool × event := if !e1.iReady then (w.notified, w.found) else (true, e1)
  let e2 := { waited.2 with iTotalWaiting := waited.2.iTotalWaiting - 1 }
  if (waited.1 && e2.iSignalType == .SignalOne) || e2.iTotalWaiting == 0 then
    (waited.1, { e2 with iReady := false })
  else (waited.1, e2)

/-- One round of the loop of `msg_wait(queue)`: `wait(0)`, then `have_message()`,
then `thread::sleep(1)`. -/
def msg_poll (e : event) (w : wake) (have_message : Bool) : polled :=
  let waited := e.wait_for w
  if waited.1 then .returned true waited.2
  else if have_message then .returned false waited.2
  else .sleeps waited.2

/-- One round of the loop of `msg_wait(queue, timeout)`; `elapsed_ms` is the time
since the call started, read when the round gets to the test. -/
def msg_poll_timed (e : event) (w : wake) (have_message : Bool) (elapsed_ms aTimeout_ms : Nat) :
    polled :=
  let waited := e.wait_for w
  if waited.1 then .returned true waited.2
  else if have_message then .returned false waited.2
  else if elapsed_ms > aTimeout_ms then .returned false waited.2
  else .sleeps waited.2

end event

/-- What one round of a polling loop meets: what the other threads have done to the
event since the round before, how the `timed_wait` of `wait(0)` ends, whether the
queue has a message, and the time since the call started. -/
structure msg_round where
  others : event → event
  wake : wake
  have_message : Bool
  elapsed_ms : Nat

/-- The member `msg_wait(queue)` over the rounds given: the result and the event when
it returns, `none` when it is still polling after the last round. -/
def event.msg_wait (e : event) : List msg_round → Option (Bool × event)
  | [] => none
  | r :: rounds =>
    match (r.others e).msg_poll r.wake r.have_message with
    | .returned result e1 => some (result, e1)
    | .sleeps e1 => event.msg_wait e1 rounds

/-- The member `msg_wait(queue, timeout)` over the rounds given. -/
def event.msg_wait_timed (e : event) (aTimeout_ms : Nat) : List msg_round → Option (Bool × event)
  | [] => none
  | r :: rounds =>
    match (r.others e).msg_poll_timed r.wake r.have_message r.elapsed_ms aTimeout_ms with
    | .returned result e1 => some (result, e1)
    | .sleeps e1 => event.msg_wait_timed e1 aTimeout_ms rounds

/-! ## The event list (`event_list`) -/

/-- Modelled from the spec: the type `wait_result` of `event.hpp` (not part of the
files at hand), which tells which source became ready; the event is identified by
its position in the list. -/
inductive wait_result where
  | wait_result_event (index : Nat)
  | wait_result_message
  | wait_result_waitable
  deriving DecidableEq, Repr

/-- What one round of a polling loop of `event_list` does: it ends the call with a
result, or it sleeps and the loop goes round again; in both cases the events are
left in some state. -/
inductive list_polled where
  | returned (result : wait_result) (events : List event)
  | sleeps (events : List event)
  deriving DecidableEq, Repr

/-- The `timed_wait` of a `wait(0)` on an event that nobody else touches: the time is
reached and the waiter finds the event as it left it. -/
def wake.quiet (e : event) : wake :=
  { notified := false, found := e.wait_enter }

namespace event_list

/-- The inner loop `for (i = iEvents.begin(); ...) if ((**i).wait(0)) return ...`:
the position of the first event whose `wait(0)` returns true, if any, and the events
as the loop leaves them. `wakes` tells how the `timed_wait` on the event at each
position ends; the first argument is the position of the head of the list. -/
def poll_events (wakes : Nat → wake) : Nat → List event → Option Nat × List event
  | _, [] => (none, [])
  | i, e :: rest =>
    let waited := e.wait_for (wakes i)
    if waited.1 then (some i, waited.2 :: rest)
    else
      let later := poll_events wakes (i + 1) rest
      (later.1, waited.2 :: later.2)

/-- One round of the loop of `wait()`. -/
def wait_poll (wakes : Nat → wake) (iEvents : List event) : list_polled :=
  match poll_events wakes 0 iEvents with
  | (some i, events) => .returned (.wait_result_event i) events
  | (none, events) => .sleeps events

/-- One round of the loop of `wait(const waitable&)`. -/
def wait_poll_waitable (wakes : Nat → wake) (iEvents : List event) (waitable_ready : Bool) :
    list_polled :=
  match poll_events wakes 0 iEvents with
  | (some i, events) => .returned (.wait_result_event i) events
  | (none, events) =>
    if waitable_ready then .returned .wait_result_waitable events else .sleeps events

/-- One round of the loop of `msg_wait(const message_queue&)`. -/
def msg_poll (wakes : Nat → wake) (iEvents : List event) (have_message : Bool) : list_polled :=
  match poll_events wakes 0 iEvents with
  | (some i, events) => .returned (.wait_result_event i) events
  | (none, events) =>
    if have_message then .returned .wait_result_message events else .sleeps events

/-- One round of the loop of `msg_wait(const message_queue&, const waitable&)`. -/
def msg_poll_waitable (wakes : Nat → wake) (iEvents : List event)
    (have_message waitable_ready : Bool) : list_polled :=
  match poll_events wakes 0 iEvents with
  | (some i, events) => .returned (.wait_result_event i) events
  | (none, events) =>
    if have_message then .returned .wait_result_message events
    else if waitable_ready then .returned .wait_result_waitable events
    else .sleeps events

end event_list

/-- What one round of a polling loop of `event_list` meets: what the other threads
have done to the events since the round before, how the `timed_wait` of each
`wait(0)` ends, whether the queue has a message and whether the waitable is ready. -/
structure list_round where
  others : List event → List event
  wakes : Nat → wake
  have_message : Bool
  waitable_ready : Bool

namespace event_list

/-- The member `wait()` over the rounds given: the result and the events when it
returns, `none` when it is still polling after the last round. -/
def wait (iEvents : List event) : List list_round → Option (wait_result × List event)
  | [] => none
  | r :: rounds =>
    match wait_poll r.wakes (r.others iEvents) with
    | .returned result events => some (result, events)
    | .sleeps events => wait events rounds

/-- The member `wait(const waitable&)` over the rounds given. -/
def wait_waitable (iEvents : List event) : List list_round → Option (wait_result × List event)
  | [] => none
  | r :: rounds =>
    match wait_poll_waitable r.wakes (r.others iEvents) r.waitable_ready with
    | .returned result events => some (result, events)
    | .sleeps events => wait_waitable events rounds

/-- The member `msg_wait(const message_queue&)` over the rounds given. -/
def msg_wait (iEvents : List event) : List list_round → Option (wait_result × List event)
  | [] => none
  | r :: rounds =>
    match msg_poll r.wakes (r.others iEvents) r.have_message with
    | .returned result events => some (result, events)
    | .sleeps events => msg_wait events rounds

/-- The member `msg_wait(const message_queue&, const waitable&)` over the rounds
given. -/
def msg_wait_waitable (iEvents : List event) :
    List list_round → Option (wait_result × List event)
  | [] => none
  | r :: rounds =>
    match msg_poll_waitable r.wakes (r.others iEvents) r.have_message r.waitable_ready with
    | .returned result events => some (result, events)
    | .sleeps events => msg_wait_waitable events rounds

end event_list

/-! ## Threads blocked on one event -/

/-- Where a thread stands with respect to its call of `event::wait()`: it has not
called yet, it is blocked on the condition variable inside the loop, or it has
returned. -/
inductive waiter where
  | outside
  | blocked
  | returned
  deriving DecidableEq, Repr

/-- An event shared by threads, each of which calls `wait()` once. -/
structure waiters where
  shared : event
  threads : List waiter
  deriving DecidableEq, Repr

/-- The steps of the threads; each one is made with the mutex of the event held. -/
inductive waiters_step where
  | enter (i : Nat)
  | wake (i : Nat)
  | signal_one
  | signal_all
  deriving DecidableEq, Repr

namespace waiters

/-- Thread `i` calls `wait()`: it locks, counts itself in and tests the ready flag;
it goes through to the end of `wait()` if the event is ready and blocks on the
condition variable otherwise. -/
def enter (w : waiters) (i : Nat) : waiters :=
  match w.threads[i]? with
  | some .outside =>
    if w.shared.wait_enter.iReady then
      { shared := w.shared.wait_enter.wait_leave, threads := w.threads.set i .returned }
    else { shared := w.shared.wait_enter, threads := w.threads.set i .blocked }
  | _ => w

/-- Thread `i`, blocked in `iCondVar.wait(lock)`, wakes up (notified or not), holds
the mutex again and tests the loop condition `!iReady`: it goes through to the end
of `wait()` if the event is ready and blocks again otherwise. -/
def wake (w : waiters) (i : Nat) : waiters :=
  match w.threads[i]? with
  | some .blocked =>
    if w.shared.iReady then
      { shared := w.shared.wait_leave, threads := w.threads.set i .returned }
    else w
  | _ => w

/-- One step. -/
def step (w : waiters) : waiters_step → waiters
  | .enter i => w.enter i
  | .wake i => w.wake i
  | .signal_one => { w with shared := w.shared.signal_one }
  | .signal_all => { w with shared := w.shared.signal_all }

/-- The steps of a list, from left to right. -/
def steps (w : waiters) : List waiters_step → waiters
  | [] => w
  | s :: rest => steps (w.step s) rest

/-- Two threads about to wait on a freshly constructed event. -/
def start (aSignalType : signal_type) : waiters :=
  { shared := event.constructed aSignalType, threads := [.outside, .outside] }

end waiters

/-- Two waiters of a `SignalAll` event of which those flagged have returned. -/
def all_signalled (first second : Bool) : waiters :=
  { shared :=
      { iReady := !(first && second)
        iSignalType := .SignalAll
        iTotalWaiting := (if first then 0 else 1) + (if second then 0 else 1) }
    threads :=
      [if first then .returned else .blocked, if second then .returned else .blocked] }

/-! ## The zip archive (`basic_zip`) -/

/-- The value of a little-endian field. -/
def little_endian : List Nat → Nat
  | [] => 0
  | b :: rest => b + 256 * little_endian rest

/-- A field of `size` bytes read through a pointer into the buffer; the pointer is
its offset from `&iZipFile.front()`. `none` when the bytes are not all inside the
buffer. -/
def read_field (buffer : List Nat) (offset : Int) (size : Nat) : Option Nat :=
  if 0 ≤ offset ∧ offset + size ≤ buffer.length then
    some (little_endian ((buffer.drop offset.toNat).take size))
  else none

/-- The data members of `basic_zip` (the target directory apart): the buffer as
bytes, the pointers to the directory file headers as offsets into the buffer, the
file names as bytes, and the error flag. -/
structure basic_zip where
  iZipFile : List Nat
  iDirEntries : List Int
  iFiles : List (List Nat)
  iError : Bool
  deriving DecidableEq, Repr

/-- What `parse` does: it returns a value and leaves a state, or it reads outside the
buffer. -/
inductive parsed where
  | returns (result : Bool) (z : basic_zip)
  | undefined
  deriving DecidableEq, Repr

/-- What `extract` does: it returns a value and leaves a state, having subscripted
`iDirEntries` at the positions listed; or it subscripts a vector past its end. -/
inductive extracted where
  | returns (result : Bool) (z : basic_zip) (entries_read : List Nat)
  | undefined
  deriving DecidableEq, Repr

namespace basic_zip

/-- The loop of `parse` over the directory file headers: `count` entries are still to
be read, `dh` points to the directory header and `fh` to the next file header. With
`#pragma pack(1)` a `dir_file_header` has 46 bytes, `iFilenameLength`,
`iExtraLength` and `iCommentLength` at offsets 28, 30 and 32. The failure paths
assign `iError = false`, as the source does. -/
def parse_entries (dh : Int) : Nat → Int → basic_zip → parsed
  | 0, _, z => .returns true z
  | count + 1, fh, z =>
    if fh < 0 ∨ fh + 4 ≥ dh then .returns false { z with iError := false }
    else
      match read_field z.iZipFile fh 4 with
      | none => .undefined
      | some signature =>
        if signature ≠ 0x02014b50 then .returns false { z with iError := false }
        else
          match read_field z.iZipFile (fh + 28) 2, read_field z.iZipFile (fh + 30) 2,
            read_field z.iZipFile (fh + 32) 2 with
          | some iFilenameLength, some iExtraLength, some iCommentLength =>
            if fh + 46 + iFilenameLength + iExtraLength + iCommentLength > dh then
              .returns false { z with iError := false }
            else
              parse_entries dh count
                (fh + 46 + iFilenameLength + iExtraLength + iCommentLength)
                { z with
                  iDirEntries := z.iDirEntries ++ [fh]
                  iFiles :=
                    z.iFiles ++ [(z.iZipFile.drop (fh + 46).toNat).take iFilenameLength] }
          | _, _, _ => .undefined

/-- The member `parse`. A `dir_header` has 22 bytes, `iDirEntries` at offset 8 and
`iDirSize` at offset 12; it is read at the end of the buffer. -/
def parse (z : basic_zip) : parsed :=
  if z.iZipFile.length < 22 then .returns false { z with iError := true }
  else
    let dh : Int := (z.iZipFile.length : Int) - 1 - 22 + 1
    match read_field z.iZipFile dh 4, read_field z.iZipFile (dh + 8) 2,
      read_field z.iZipFile (dh + 12) 4 with
    | some signature, some iDirEntries, some iDirSize =>
      if signature ≠ 0x06054b50 then .returns false { z with iError := true }
      else
        parse_entries dh iDirEntries ((z.iZipFile.length : Int) - 1 - (iDirSize + 22) + 1) z
    | _, _, _ => .undefined

/-- The constructor `basic_zip(const buffer_t&, const path_type&)`: the members are
initialised and `parse()` is called, its result dropped. -/
def constructed (aZipFile : List Nat) : Option basic_zip :=
  match parse { iZipFile := aZipFile, iDirEntries := [], iFiles := [], iError := false } with
  | .returns _ z => some z
  | .undefined => none

/-- The member `extract`. `iDirEntries[aIndex]` is an unchecked vector subscript;
`iHeaderOffset` is at offset 42 of the file header. Everything from the local header
on (the range checks, the signature, the checksum, inflating, writing the file) is
the parameter `extract_entry`, given the buffer, the header offset and the index,
which tells whether that part succeeds: each of its failures assigns
`iError = true` and returns false, its successes return true. -/
def extract (extract_entry : List Nat → Nat → Nat → Bool) (z : basic_zip) (aIndex : Nat) :
    extracted :=
  if z.iError then .returns false z []
  else if aIndex > z.iFiles.length then .returns false z []
  else
    match z.iDirEntries[aIndex]? with
    | none => .undefined
    | some fh =>
      match read_field z.iZipFile (fh + 42) 4 with
      | none => .undefined
      | some iHeaderOffset =>
        if extract_entry z.iZipFile iHeaderOffset aIndex then .returns true z [aIndex]
        else .returns false { z with iError := true } [aIndex]

end basic_zip

/-- An archive without files: the 22 bytes of a directory header with its
signature, no entries and a directory of size 0. -/
def empty_archive : List Nat :=
  [0x50, 0x4b, 0x05, 0x06, 0, 0, 0, 0, 0, 0, 0, 0, 0, 0, 0, 0, 0, 0, 0, 0, 0, 0]

/-- An archive with the directory of one file named `a`: a directory file header
(46 bytes, header offset 0) followed by the name, then the directory header with
one entry and a directory of size 47. -/
def one_file_archive : List Nat :=
  [0x50, 0x4b, 0x01, 0x02, 0, 0, 0, 0, 0, 0, 0, 0, 0, 0, 0, 0, 0, 0, 0, 0, 0, 0, 0, 0,
    0, 0, 0, 0, 1, 0, 0, 0, 0, 0, 0, 0, 0, 0, 0, 0, 0, 0, 0, 0, 0, 0, 97,
    0x50, 0x4b, 0x05, 0x06, 0, 0, 0, 0, 1, 0, 1, 0, 47, 0, 0, 0, 0, 0, 0, 0, 0, 0]

/-! ## String utilities (`string_utils.hpp`)

A range `[first, last)` is the list of its elements; an iterator into it is its
distance from `first`. -/

/-- The algorithm `std::find_first_of(first, last, s_first, s_last)`: the distance from
`first` to the first element that is one of the delimiters, the length of the range
when there is none. -/
def find_first_of {α : Type} [DecidableEq α] : List α → List α → Nat
  | [], _ => 0
  | x :: xs, delims => if x ∈ delims then 0 else find_first_of xs delims + 1

/-- The range starts with the elements of the second range, compared by `p` (the
element of the first range is the first argument of `p`). -/
def matches_at {α : Type} (p : α → α → Bool) : List α → List α → Bool
  | _, [] => true
  | [], _ :: _ => false
  | x :: xs, y :: ys => p x y && matches_at p xs ys

/-- The algorithm `std::search(first, last, s_first, s_last, p)`: the distance from
`first` to the first occurrence of the second range, the length of the range when
there is none. -/
def search {α : Type} (p : α → α → Bool) : List α → List α → Nat
  | [], _ => 0
  | x :: xs, needle => if matches_at p (x :: xs) needle then 0 else search p xs needle + 1

/-- The expression that `tokens` assigns to `e`: the next delimiter at or after `b`,
found by `std::search` or by `std::find_first_of`. -/
def next_delimiter {α : Type} [DecidableEq α] (aLine aDelimeter : List α)
    (aDelimeterIsSubsequence : Bool) (b : Nat) : Nat :=
  b + (if aDelimeterIsSubsequence then
        search (fun x y => decide (x = y)) (aLine.drop b) aDelimeter
      else find_first_of (aLine.drop b) aDelimeter)

/-- The statement after the loop of `tokens`: the tokens and the iterator returned. -/
def tokens_last (aMaxTokens b e tokens : Nat) (aTokens : List (Nat × Nat)) :
    List (Nat × Nat) × Nat :=
  if b ≠ e ∧ (aMaxTokens = 0 ∨ tokens < aMaxTokens) then (aTokens ++ [(b, e)], e)
  else (aTokens, b)

/-- The loop of `tokens` and the statement after it, for at most `fuel` rounds of the
loop; a token is the pair of the iterators it is built from. -/
def tokens_loop {α : Type} [DecidableEq α] (aLine aDelimeter : List α) (aMaxTokens : Nat)
    (aSkipEmptyTokens aDelimeterIsSubsequence : Bool) :
    Nat → Nat → Nat → Nat → List (Nat × Nat) → Option (List (Nat × Nat) × Nat)
  | 0, b, e, tokens, aTokens =>
    if e ≠ aLine.length ∧ (aMaxTokens = 0 ∨ tokens < aMaxTokens) then none
    else some (tokens_last aMaxTokens b e tokens aTokens)
  | fuel + 1, b, e, tokens, aTokens =>
    if e ≠ aLine.length ∧ (aMaxTokens = 0 ∨ tokens < aMaxTokens) then
      let pushed : List (Nat × Nat) × Nat :=
        if b = e ∧ aSkipEmptyTokens = false then (aTokens ++ [(b, b)], tokens + 1)
        else if b ≠ e then (aTokens ++ [(b, e)], tokens + 1)
        else (aTokens, tokens)
      let b1 := e + (if aDelimeterIsSubsequence then aDelimeter.length else 1)
      tokens_loop aLine aDelimeter aMaxTokens aSkipEmptyTokens aDelimeterIsSubsequence fuel b1
        (next_delimiter aLine aDelimeter aDelimeterIsSubsequence b1) pushed.2 pushed.1
    else some (tokens_last aMaxTokens b e tokens aTokens)

/-- The function template `tokens` on iterators: `aTokens` is the container as it is
passed in; the result is the container afterwards and the iterator returned. The
loop is given as many rounds as the line has elements. -/
def tokens {α : Type} [DecidableEq α] (aLine aDelimeter : List α) (aTokens : List (Nat × Nat))
    (aMaxTokens : Nat) (aSkipEmptyTokens aDelimeterIsSubsequence : Bool) :
    Option (List (Nat × Nat) × Nat) :=
  if aLine = [] then some (aTokens, 0)
  else if aDelimeter = [] then some (aTokens ++ [(0, aLine.length)], aLine.length)
  else
    tokens_loop aLine aDelimeter aMaxTokens aSkipEmptyTokens aDelimeterIsSubsequence
      aLine.length 0 (next_delimiter aLine aDelimeter aDelimeterIsSubsequence 0) 0 aTokens

/-- The elements of a token: `value_type(b, e)`. -/
def token_text {α : Type} (aLine : List α) (token : Nat × Nat) : List α :=
  (aLine.drop token.1).take (token.2 - token.1)

/-- The maximal non-empty runs of elements that are not delimiters, in order: the
line is split at every delimiter and the empty pieces are dropped. -/
def maximal_runs {α : Type} [DecidableEq α] (aDelimeter aLine : List α) : List (List α) :=
  (aLine.splitOnP (fun x => decide (x ∈ aDelimeter))).filter (fun piece => !piece.isEmpty)

/-- The function object `detail::wildcard_compare`: `c2` comes from the pattern. -/
def wildcard_compare (c1 c2 : Char) : Bool :=
  if c2 = '?' then true else decide (c1 = c2)

/-- The loop of `do_wildcard_match` over the substrings of the pattern, with
`previousMatch`. -/
def do_wildcard_match_loop (aText aPattern : List Char) : List (Nat × Nat) → Nat → Bool
  | [], _ => true
  | theSubstring :: rest, previousMatch =>
    let needle := token_text aPattern theSubstring
    let nextMatch := previousMatch + search wildcard_compare (aText.drop previousMatch) needle
    if nextMatch = aText.length then false
    else if theSubstring.1 = 0 ∧ nextMatch ≠ 0 then false
    else if theSubstring.2 = aPattern.length ∧
        ¬ matches_at wildcard_compare
            (aText.drop (aText.length - (theSubstring.2 - theSubstring.1))) needle then false
    else if theSubstring.2 = aPattern.length ∧
        aText.length - nextMatch ≠ theSubstring.2 - theSubstring.1 then false
    else
      do_wildcard_match_loop aText aPattern rest
        (nextMatch + (theSubstring.2 - theSubstring.1))

/-- The function template `do_wildcard_match`: the pattern is cut at `*` by `tokens`
with its default arguments, then the substrings are looked for in turn. -/
def do_wildcard_match (aText aPattern : List Char) : Option Bool :=
  match tokens aPattern ['*'] [] 0 true false with
  | some (substrings, _) => some (do_wildcard_match_loop aText aPattern substrings 0)
  | none => none

/-- The function template `wildcard_match`. -/
def wildcard_match (aText aPattern : List Char) : Option Bool :=
  do_wildcard_match aText aPattern

/-- Glob matching as the claim words it: `*` matches any run of characters, the empty
one included, `?` matches exactly one character, any other pattern character
matches itself, and the whole text has to be matched. -/
def glob_matches : List Char → List Char → Bool
  | [], text => text.isEmpty
  | p :: pattern, text =>
    if p = '*' then text.tails.any (fun rest => glob_matches pattern rest)
    else
      match text with
      | [] => false
      | c :: rest => (decide (p = '?') || decide (p = c)) && glob_matches pattern rest

/-- The function `append_utf8`: the number returned and the string afterwards. A
string is the list of its bytes, each read as `unsigned char`. -/
def append_utf8 (aString : List Nat) (aCharacter : Nat) : Nat × List Nat :=
  if aCharacter ≤ 0x7F then (1, aString ++ [aCharacter % 256])
  else if aCharacter ≤ 0x7FF then
    (2, aString ++ [(((aCharacter >>> 6) &&& 0x1F) ||| 0xC0) % 256]
      ++ [((aCharacter &&& 0x3F) ||| 0x80) % 256])
  else if aCharacter ≤ 0xFFFF then
    (3, aString ++ [(((aCharacter >>> 12) &&& 0x0F) ||| 0xE0) % 256]
      ++ [(((aCharacter >>> 6) &&& 0x3F) ||| 0x80) % 256]
      ++ [((aCharacter &&& 0x3F) ||| 0x80) % 256])
  else
    (4, aString ++ [(((aCharacter >>> 18) &&& 0x07) ||| 0xF0) % 256]
      ++ [(((aCharacter >>> 12) &&& 0x3F) ||| 0x80) % 256]
      ++ [(((aCharacter >>> 6) &&& 0x3F) ||| 0x80) % 256]
      ++ [((aCharacter &&& 0x3F) ||| 0x80) % 256])

/-- The function `detail::next_wide_bits`, given the bytes after `aCurrent`: when the
next `aCount` bytes are all trailing bytes, the value built and the bytes after the
last of them (`aCurrent` is left on that last byte); `none` when it puts `aCurrent`
back and returns `?`. `unicode_char_t` is `unsigned long`, of 32 bits here. -/
def next_wide_bits (aUnicodeChar : Nat) : Nat → List Nat → Option (Nat × List Nat)
  | 0, rest => some (aUnicodeChar, rest)
  | _ + 1, [] => none
  | aCount + 1, nch :: rest =>
    if nch &&& 0xC0 = 0x80 then
      next_wide_bits (((aUnicodeChar <<< 6) % 4294967296) ||| (nch &&& 0x3F)) aCount rest
    else none

/-- One round of the loop of `utf8_to_utf32`, on the byte `nch` and the bytes after
it: the code unit appended and the bytes left for the next round. `mbtowc` stands
for the call `mbtowc(&wch, &nch, 1)` in the current locale, `none` when its result
is not positive. -/
def utf8_next (mbtowc : Nat → Option Nat) (nch : Nat) (rest : List Nat) : Nat × List Nat :=
  if nch &&& 0x80 = 0 then (nch &&& 0x7F, rest)
  else
    let decoded :=
      if nch &&& 0xE0 = 0xC0 then next_wide_bits (nch &&& 0x1F) 1 rest
      else if nch &&& 0xF0 = 0xE0 then next_wide_bits (nch &&& 0x0F) 2 rest
      else if nch &&& 0xF8 = 0xF0 then next_wide_bits (nch &&& 0x07) 3 rest
      else if nch &&& 0xFC = 0xF8 then next_wide_bits (nch &&& 0x03) 4 rest
      else if nch &&& 0xFE = 0xFC then next_wide_bits (nch &&& 0x01) 5 rest
      else if nch &&& 0xFF = 0xFE then next_wide_bits 0 6 rest
      else none
    match decoded with
    | some (uch, rest1) => (uch, rest1)
    | none =>
      match mbtowc nch with
      | some wch => (wch, rest)
      | none => (nch, rest)

/-- The loop of `utf8_to_utf32`, for at most `fuel` rounds. -/
def utf8_to_utf32_loop (mbtowc : Nat → Option Nat) : Nat → List Nat → List Nat
  | 0, _ => []
  | _ + 1, [] => []
  | fuel + 1, nch :: rest =>
    (utf8_next mbtowc nch rest).1 :: utf8_to_utf32_loop mbtowc fuel (utf8_next mbtowc nch rest).2

/-- The function `utf8_to_utf32`; every round takes at least one byte, so the loop is
given as many rounds as there are bytes. -/
def utf8_to_utf32 (mbtowc : Nat → Option Nat) (aString : List Nat) : List Nat :=
  utf8_to_utf32_loop mbtowc aString.length aString

/-- The string built by appending code points in order to the empty string with
`append_utf8`. -/
def appended_utf8 (aCharacters : List Nat) : List Nat :=
  aCharacters.foldl (fun aString aCharacter => (append_utf8 aString aCharacter).2) []

/-! ## Disciplined use of the registry -/

/-- A registry together with the cookies that are outstanding: issued by
`next_cookie` and not removed since. -/
structure tracked (T : Type) where
  registry : cookie_jar T
  outstanding : List Nat
  deriving DecidableEq, Repr

/-- One call of a disciplined client: `next_cookie` (the run ends when it throws
`cookies_exhausted`), `add` of an item whose cookie is outstanding, or `remove` of a
live cookie; `return_cookie` and `clear` are not called. `none` when the call is not
a disciplined one, when the cookies are exhausted, or when the call has undefined
behaviour. -/
def tracked.step {T : Type} [i_cookie_jar_item T] (w : tracked T) :
    operation T → Option (tracked T)
  | .next_cookie =>
    match w.registry.next_cookie with
    | .returns c s => some { registry := s, outstanding := c :: w.outstanding }
    | _ => none
  | .add aItem =>
    if item_cookie aItem ∈ w.outstanding then
      match w.registry.add aItem with
      | .returns _ s => some { registry := s, outstanding := w.outstanding }
      | .throws _ s => some { registry := s, outstanding := w.outstanding }
      | .undefined => none
    else none
  | .remove aCookie =>
    if w.registry.contains aCookie then
      match w.registry.remove aCookie with
      | .returns _ s =>
        some { registry := s, outstanding := w.outstanding.filter (fun c => c != aCookie) }
      | _ => none
    else none
  | .return_cookie _ => none
  | .clear => none

/-- A sequence of disciplined calls, executed from left to right. -/
def tracked.run {T : Type} [i_cookie_jar_item T] (w : tracked T) :
    List (operation T) → Option (tracked T)
  | [] => some w
  | op :: ops =>
    match w.step op with
    | none => none
    | some w1 => tracked.run w1 ops

/-- The empty registry, no cookie outstanding. -/
def tracked.start {T : Type} [i_cookie_jar_item T] : tracked T :=
  { registry := cookie_jar.constructed, outstanding := [] }

/-- The invariant of disciplined use: the registry invariant; the free list has no
duplicates and no outstanding cookie; free and outstanding cookies lie between 1
and the counter; every live cookie is outstanding; the counter has not reached the
reserved value. -/
structure disciplined_invariant {T : Type} [i_cookie_jar_item T] (w : tracked T) : Prop where
  registry_invariant : invariant w.registry
  free_nodup : w.registry.iFreeCookies.Nodup
  free_fresh : ∀ c ∈ w.registry.iFreeCookies, c ∉ w.outstanding
  free_range : ∀ c ∈ w.registry.iFreeCookies, 1 ≤ c ∧ c ≤ w.registry.iNextAvailableCookie
  outstanding_range : ∀ c ∈ w.outstanding, 1 ≤ c ∧ c ≤ w.registry.iNextAvailableCookie
  live_outstanding : ∀ c, w.registry.contains c = true → c ∈ w.outstanding
  counter_lt : w.registry.iNextAvailableCookie < INVALID_COOKIE

end neolib

/-! # Theorems -/

namespace neolib

variable {T : Type} [i_cookie_jar_item T]

/-! ## Lists -/

theorem countP_set_balance {α : Type} (p : α → Bool) (l : List α) (i : Nat) (a b : α)
    (h : l[i]? = some b) :
    List.countP p (l.set i a) + (if p b then 1 else 0)
      = List.countP p l + (if p a then 1 else 0) := by
  induction l generalizing i with
  | nil => simp at h
  | cons x xs ih =>
    cases i with
    | zero =>
      simp at h
      subst h
      simp [List.countP_cons]
      omega
    | succ n =>
      simp at h
      have := ih n h
      simp [List.countP_cons]
      omega

theorem countP_lt_length_of_entry {α : Type} (p : α → Bool) (l : List α) (i : Nat) (b : α)
    (h : l[i]? = some b) (hb : p b = false) : List.countP p l < l.length := by
  rcases Nat.lt_or_ge (List.countP p l) l.length with hlt | hge
  · exact hlt
  · have heq : List.countP p l = l.length := Nat.le_antisymm (List.countP_le_length p) hge
    have hall := List.countP_eq_length.mp heq
    have hmem : b ∈ l := List.getElem?_mem h
    have := hall b hmem
    simp [hb] at this

theorem getElem?_grow (l : List Nat) (c d : Nat) :
    (grow l c)[d]? =
      if d < l.length then l[d]? else if d ≤ c then some INVALID_REVERSE_INDEX else none := by
  unfold grow
  rw [List.getElem?_append, List.getElem?_replicate]
  by_cases h : d < l.length
  · simp [h]
  · simp only [h, if_false]
    by_cases h2 : d ≤ c
    · rw [if_pos (by omega), if_pos h2]
    · rw [if_neg (by omega), if_neg h2]

theorem length_grow (l : List Nat) (c : Nat) : (grow l c).length = max l.length (c + 1) := by
  unfold grow
  simp
  omega

theorem live_count_grow (l : List Nat) (c : Nat) : live_count (grow l c) = live_count l := by
  unfold live_count grow
  rw [List.countP_append, List.countP_replicate]
  simp

/-! ## Normal forms of `add` and `remove` -/

theorem add_indices_eq_grow (l : List Nat) (c : Nat) (hc : c < INVALID_COOKIE) :
    (if l.length ≤ c then resize l ((c + 1) % 4294967296) INVALID_REVERSE_INDEX else l)
      = grow l c := by
  have hmod : (c + 1) % 4294967296 = c + 1 := by
    apply Nat.mod_eq_of_lt
    unfold INVALID_COOKIE at hc
    omega
  by_cases h : l.length ≤ c
  · rw [if_pos h, hmod]
    unfold resize grow
    rw [List.take_of_length_le (by omega)]
  · rw [if_neg h]
    unfold grow
    have : c + 1 - l.length = 0 := by omega
    simp [this]

omit [i_cookie_jar_item T] in
theorem contains_eq_true_iff (s : cookie_jar T) (c : Nat) :
    s.contains c = true ↔
      ∃ r, s.iReverseIndices[c]? = some r ∧ r ≠ INVALID_REVERSE_INDEX := by
  unfold cookie_jar.contains
  cases h : s.iReverseIndices[c]? with
  | none => simp
  | some r => simp

omit [i_cookie_jar_item T] in
theorem contains_eq_false_iff (s : cookie_jar T) (c : Nat) :
    s.contains c = false ↔
      s.iReverseIndices[c]? = none ∨ s.iReverseIndices[c]? = some INVALID_REVERSE_INDEX := by
  unfold cookie_jar.contains
  cases h : s.iReverseIndices[c]? with
  | none => simp
  | some r => simp

/-- Outside the reserved cookie, `add` either throws and leaves the registry as it
was, or appends the item and records its position. -/
theorem add_eq (s : cookie_jar T) (aItem : T) (hc : item_cookie aItem ≠ INVALID_COOKIE) :
    s.add aItem =
      if s.contains (item_cookie aItem) = true then .throws .cookie_already_added s
      else .returns s.iJar.length
        { s with
          iJar := s.iJar ++ [aItem]
          iReverseIndices :=
            (grow s.iReverseIndices (item_cookie aItem)).set (item_cookie aItem)
              s.iJar.length } := by
  have hlt : item_cookie aItem < INVALID_COOKIE := by
    have := i_cookie_jar_item.cookie_lt aItem
    unfold INVALID_COOKIE at hc ⊢
    unfold item_cookie at hc ⊢
    omega
  unfold cookie_jar.add
  simp only [add_indices_eq_grow _ _ hlt, getElem?_grow]
  by_cases hin : item_cookie aItem < s.iReverseIndices.length
  · obtain ⟨r, hr⟩ : ∃ r, s.iReverseIndices[item_cookie aItem]? = some r := by
      rw [List.getElem?_eq_getElem hin]; exact ⟨_, rfl⟩
    have hg : grow s.iReverseIndices (item_cookie aItem) = s.iReverseIndices := by
      unfold grow
      have : item_cookie aItem + 1 - s.iReverseIndices.length = 0 := by omega
      simp [this]
    by_cases hv : r = INVALID_REVERSE_INDEX
    · have hcont : s.contains (item_cookie aItem) = false := by
        rw [contains_eq_false_iff]; right; rw [hr, hv]
      simp [hin, hr, hv, hcont]
    · have hcont : s.contains (item_cookie aItem) = true := by
        rw [contains_eq_true_iff]; exact ⟨r, hr, hv⟩
      simp [hin, hr, hv, hcont, hg]
  · have hcont : s.contains (item_cookie aItem) = false := by
      rw [contains_eq_false_iff]; left
      exact List.getElem?_eq_none (by omega)
    simp [hin, hcont]

theorem invariant.jar_length_le {s : cookie_jar T} (h : invariant s) :
    s.iJar.length ≤ INVALID_REVERSE_INDEX := by
  have h1 := h.size_eq
  have h2 : live_count s.iReverseIndices ≤ s.iReverseIndices.length :=
    List.countP_le_length _
  have h3 := h.table_bound
  unfold INVALID_COOKIE at h3
  unfold INVALID_REVERSE_INDEX
  omega

theorem set_self_of_getElem? {α : Type} (l : List α) (i : Nat) (a : α) (h : l[i]? = some a) :
    l.set i a = l := by
  apply List.ext_getElem?
  intro j
  rw [List.getElem?_set]
  by_cases hij : i = j
  · subst hij
    have hlt : i < l.length := by
      rcases List.getElem?_eq_some_iff.mp h with ⟨hlt, _⟩
      exact hlt
    simp [hlt, h]
  · simp [hij]

/-- On a registry that satisfies the invariant, `remove` of a live cookie returns:
the former last item takes the freed slot, its reverse index is redirected, the
cookie is marked invalid and pushed on the free list. -/
theorem remove_eq (s : cookie_jar T) (c : Nat) (h : invariant s) (hc : s.contains c = true) :
    ∃ r back, s.iReverseIndices[c]? = some r ∧ r ≠ INVALID_REVERSE_INDEX ∧
      r < s.iJar.length ∧ s.iJar.getLast? = some back ∧
      s.iReverseIndices[item_cookie back]? = some (s.iJar.length - 1) ∧
      (r = s.iJar.length - 1 → item_cookie back = c) ∧
      s.remove c = .returns r
        { s with
          iFreeCookies := s.iFreeCookies ++ [c]
          iJar := (s.iJar.set r back).dropLast
          iReverseIndices :=
            (s.iReverseIndices.set (item_cookie back) r).set c INVALID_REVERSE_INDEX } := by
  obtain ⟨r, hr, hrv⟩ := (contains_eq_true_iff s c).mp hc
  obtain ⟨x, hx, hxc⟩ := h.position_valid c r hr hrv
  have hrlt : r < s.iJar.length := (List.getElem?_eq_some_iff.mp hx).1
  obtain ⟨back, hback⟩ : ∃ back, s.iJar[s.iJar.length - 1]? = some back := by
    rw [List.getElem?_eq_getElem (by omega)]; exact ⟨_, rfl⟩
  have hlast : s.iJar.getLast? = some back := by
    rw [List.getLast?_eq_getElem?]; exact hback
  have hbi := h.item_indexed _ _ hback
  have hblt : item_cookie back < s.iReverseIndices.length :=
    (List.getElem?_eq_some_iff.mp hbi).1
  have hsame : r = s.iJar.length - 1 → item_cookie back = c := by
    intro he
    rw [he, hback] at hx
    cases hx
    exact hxc
  refine ⟨r, back, hr, hrv, hrlt, hlast, hbi, hsame, ?_⟩
  unfold cookie_jar.remove cookie_jar.return_cookie
  simp only [hr, hrv, if_false, hlast]
  by_cases hlt : r < s.iJar.length - 1
  · simp [hlt, hblt]
  · have he : r = s.iJar.length - 1 := by omega
    have hcb := hsame he
    have hxb : s.iJar[r]? = some back := by rw [he]; exact hback
    simp only [hlt, if_false]
    rw [hcb, List.set_set, set_self_of_getElem? _ _ _ hxb]

/-! ## The invariant is preserved -/

theorem invariant_constructed : invariant (cookie_jar.constructed : cookie_jar T) where
  table_bound := by simp [cookie_jar.constructed]
  position_valid := by intro c r hr; simp [cookie_jar.constructed] at hr
  item_indexed := by intro i x hx; simp [cookie_jar.constructed] at hx
  size_eq := by simp [cookie_jar.constructed, live_count]

theorem invariant_of_same_jar {s t : cookie_jar T} (h : invariant s)
    (hj : t.iJar = s.iJar) (hr : t.iReverseIndices = s.iReverseIndices) : invariant t where
  table_bound := by rw [hr]; exact h.table_bound
  position_valid := by rw [hr, hj]; exact h.position_valid
  item_indexed := by rw [hr, hj]; exact h.item_indexed
  size_eq := by rw [hr, hj]; exact h.size_eq

omit [i_cookie_jar_item T] in
theorem grow_entry_not_live (s : cookie_jar T) (c : Nat) (hn : s.contains c = false) :
    (grow s.iReverseIndices c)[c]? = some INVALID_REVERSE_INDEX := by
  rw [getElem?_grow]
  rcases (contains_eq_false_iff s c).mp hn with h | h
  · have := List.getElem?_eq_none_iff.mp h
    rw [if_neg (by omega), if_pos (Nat.le_refl c)]
  · have := (List.getElem?_eq_some_iff.mp h).1
    rw [if_pos this, h]

theorem grow_entry_live (l : List Nat) (c d r : Nat) (h : (grow l c)[d]? = some r)
    (hr : r ≠ INVALID_REVERSE_INDEX) : l[d]? = some r := by
  rw [getElem?_grow] at h
  by_cases h1 : d < l.length
  · rw [if_pos h1] at h; exact h
  · rw [if_neg h1] at h
    by_cases h2 : d ≤ c
    · rw [if_pos h2] at h; cases h; exact absurd rfl hr
    · rw [if_neg h2] at h; cases h

theorem grow_entry_of_entry (l : List Nat) (c d r : Nat) (h : l[d]? = some r) :
    (grow l c)[d]? = some r := by
  rw [getElem?_grow, if_pos (List.getElem?_eq_some_iff.mp h).1, h]

theorem invariant_add {s : cookie_jar T} (h : invariant s) (aItem : T)
    (hc : item_cookie aItem ≠ INVALID_COOKIE) (hn : s.contains (item_cookie aItem) = false) :
    invariant
      { s with
        iJar := s.iJar ++ [aItem]
        iReverseIndices :=
          (grow s.iReverseIndices (item_cookie aItem)).set (item_cookie aItem)
            s.iJar.length } := by
  have hg := grow_entry_not_live s _ hn
  have hglt : item_cookie aItem < (grow s.iReverseIndices (item_cookie aItem)).length :=
    (List.getElem?_eq_some_iff.mp hg).1
  have hlt : item_cookie aItem < INVALID_COOKIE := by
    have := i_cookie_jar_item.cookie_lt aItem
    unfold INVALID_COOKIE at hc ⊢
    unfold item_cookie at hc ⊢
    omega
  have hcount : live_count (grow s.iReverseIndices (item_cookie aItem))
      < (grow s.iReverseIndices (item_cookie aItem)).length :=
    countP_lt_length_of_entry _ _ _ _ hg (by simp)
  have hbound : (grow s.iReverseIndices (item_cookie aItem)).length ≤ INVALID_COOKIE := by
    rw [length_grow]
    have := h.table_bound
    omega
  have hjl : s.iJar.length ≠ INVALID_REVERSE_INDEX := by
    have h1 := h.size_eq
    rw [← live_count_grow _ (item_cookie aItem)] at h1
    unfold INVALID_COOKIE at hbound
    unfold INVALID_REVERSE_INDEX
    omega
  constructor
  · show ((grow s.iReverseIndices (item_cookie aItem)).set _ _).length ≤ INVALID_COOKIE
    rw [List.length_set]; exact hbound
  · intro c r hr hrv
    simp only [List.getElem?_set] at hr
    by_cases hcc : item_cookie aItem = c
    · rw [if_pos hcc, if_pos hglt] at hr
      cases hr
      exact ⟨aItem, by simp, hcc⟩
    · rw [if_neg hcc] at hr
      obtain ⟨x, hx, hxc⟩ := h.position_valid c r (grow_entry_live _ _ _ _ hr hrv) hrv
      refine ⟨x, ?_, hxc⟩
      show (s.iJar ++ [aItem])[r]? = some x
      rw [List.getElem?_append_left (List.getElem?_eq_some_iff.mp hx).1]
      exact hx
  · intro i x hx
    show ((grow s.iReverseIndices (item_cookie aItem)).set _ _)[item_cookie x]? = some i
    have hx1 : (s.iJar ++ [aItem])[i]? = some x := hx
    rw [List.getElem?_set]
    by_cases hi : i < s.iJar.length
    · rw [List.getElem?_append_left hi] at hx1
      have hxi := h.item_indexed i x hx1
      have hne : item_cookie aItem ≠ item_cookie x := by
        intro he
        rcases (contains_eq_false_iff s _).mp hn with h0 | h0
        · rw [he, hxi] at h0; cases h0
        · rw [he, hxi] at h0
          cases h0
          exact absurd (Nat.le_of_lt (by simpa using hi)) (by
            have := h.jar_length_le
            omega)
      rw [if_neg hne]
      exact grow_entry_of_entry _ _ _ _ hxi
    · have hlen := (List.getElem?_eq_some_iff.mp hx1).1
      simp at hlen
      have hie : i = s.iJar.length := by omega
      subst hie
      simp at hx1
      subst hx1
      rw [if_pos rfl, if_pos hglt]
  · show (s.iJar ++ [aItem]).length = live_count ((grow s.iReverseIndices _).set _ _)
    have hbal := countP_set_balance (fun r => r != INVALID_REVERSE_INDEX) _ _ s.iJar.length _ hg
    have h1 := h.size_eq
    rw [← live_count_grow _ (item_cookie aItem)] at h1
    unfold live_count at h1 ⊢
    simp [hjl] at hbal
    simp
    omega

theorem getElem?_swap_pop {α : Type} (l : List α) (r i : Nat) (back : α) (hr : r < l.length) :
    ((l.set r back).dropLast)[i]? =
      if i < l.length - 1 then (if r = i then some back else l[i]?) else none := by
  rw [List.getElem?_dropLast, List.length_set, List.getElem?_set]
  by_cases h1 : i < l.length - 1
  · simp only [h1, if_true]
    by_cases h2 : r = i
    · simp [h2, hr]
      omega
    · simp [h2]
  · simp [h1]

theorem getElem?_redirect (l : List Nat) (c cb r d : Nat) (hc : c < l.length)
    (hcb : cb < l.length) :
    ((l.set cb r).set c INVALID_REVERSE_INDEX)[d]? =
      if c = d then some INVALID_REVERSE_INDEX else if cb = d then some r else l[d]? := by
  rw [List.getElem?_set, List.length_set, List.getElem?_set]
  by_cases h1 : c = d
  · subst h1
    rw [if_pos rfl, if_pos hc, if_pos rfl]
  · rw [if_neg h1, if_neg h1]
    by_cases h2 : cb = d
    · subst h2
      rw [if_pos rfl, if_pos hcb, if_pos rfl]
    · rw [if_neg h2, if_neg h2]

theorem invariant_remove {s : cookie_jar T} (h : invariant s) (c r : Nat) (back : T)
    (frees : List Nat)
    (hr : s.iReverseIndices[c]? = some r) (hrv : r ≠ INVALID_REVERSE_INDEX)
    (hback : s.iJar.getLast? = some back) :
    invariant
      { s with
        iFreeCookies := frees
        iJar := (s.iJar.set r back).dropLast
        iReverseIndices :=
          (s.iReverseIndices.set (item_cookie back) r).set c INVALID_REVERSE_INDEX } := by
  obtain ⟨x, hx, hxc⟩ := h.position_valid c r hr hrv
  have hrlt : r < s.iJar.length := (List.getElem?_eq_some_iff.mp hx).1
  rw [List.getLast?_eq_getElem?] at hback
  have hbi := h.item_indexed _ _ hback
  have hclt : c < s.iReverseIndices.length := (List.getElem?_eq_some_iff.mp hr).1
  have hblt : item_cookie back < s.iReverseIndices.length :=
    (List.getElem?_eq_some_iff.mp hbi).1
  have hjl := h.jar_length_le
  constructor
  · show ((s.iReverseIndices.set _ _).set _ _).length ≤ INVALID_COOKIE
    rw [List.length_set, List.length_set]; exact h.table_bound
  · intro d q hq hqv
    show ∃ y, ((s.iJar.set r back).dropLast)[q]? = some y ∧ item_cookie y = d
    have hq1 : ((s.iReverseIndices.set (item_cookie back) r).set c INVALID_REVERSE_INDEX)[d]?
        = some q := hq
    rw [getElem?_redirect _ _ _ _ _ hclt hblt] at hq1
    rw [getElem?_swap_pop _ _ _ _ hrlt]
    by_cases h1 : c = d
    · rw [if_pos h1] at hq1; cases hq1; exact absurd rfl hqv
    · rw [if_neg h1] at hq1
      by_cases h2 : item_cookie back = d
      · rw [if_pos h2] at hq1
        cases hq1
        have hne : r ≠ s.iJar.length - 1 := by
          intro he
          rw [he, hback] at hx
          cases hx
          exact h1 (hxc.symm.trans h2)
        rw [if_pos (by omega), if_pos rfl]
        exact ⟨back, rfl, h2⟩
      · rw [if_neg h2] at hq1
        obtain ⟨y, hy, hyc⟩ := h.position_valid d q hq1 hqv
        have hqlt : q < s.iJar.length := (List.getElem?_eq_some_iff.mp hy).1
        have hne1 : q ≠ s.iJar.length - 1 := by
          intro he
          rw [he, hback] at hy
          cases hy
          exact h2 hyc
        have hne2 : r ≠ q := by
          intro he
          rw [he, hy] at hx
          cases hx
          exact h1 (hxc.symm.trans hyc)
        rw [if_pos (by omega), if_neg hne2]
        exact ⟨y, hy, hyc⟩
  · intro i y hy
    show ((s.iReverseIndices.set (item_cookie back) r).set c INVALID_REVERSE_INDEX)[
      item_cookie y]? = some i
    have hy1 : ((s.iJar.set r back).dropLast)[i]? = some y := hy
    rw [getElem?_swap_pop _ _ _ _ hrlt] at hy1
    rw [getElem?_redirect _ _ _ _ _ hclt hblt]
    by_cases h1 : i < s.iJar.length - 1
    · rw [if_pos h1] at hy1
      by_cases h2 : r = i
      · rw [if_pos h2] at hy1
        have hyb : back = y := Option.some.inj hy1
        rw [← hyb]
        have hne : c ≠ item_cookie back := by
          intro he
          rw [he, hbi] at hr
          cases hr
          omega
        rw [if_neg hne, if_pos rfl, h2]
      · rw [if_neg h2] at hy1
        have hyi := h.item_indexed i y hy1
        have hne1 : c ≠ item_cookie y := by
          intro he
          rw [he, hyi] at hr
          cases hr
          exact h2 rfl
        have hne2 : item_cookie back ≠ item_cookie y := by
          intro he
          rw [he, hyi] at hbi
          cases hbi
          omega
        rw [if_neg hne1, if_neg hne2]
        exact hyi
    · rw [if_neg h1] at hy1; cases hy1
  · show ((s.iJar.set r back).dropLast).length
      = live_count ((s.iReverseIndices.set (item_cookie back) r).set c INVALID_REVERSE_INDEX)
    have hb1 := countP_set_balance (fun r => r != INVALID_REVERSE_INDEX) _ _ r _ hbi
    have hr1 : (s.iReverseIndices.set (item_cookie back) r)[c]? = some r := by
      rw [List.getElem?_set]
      by_cases he : item_cookie back = c
      · rw [if_pos he, if_pos hblt]
      · rw [if_neg he]; exact hr
    have hb2 := countP_set_balance (fun r => r != INVALID_REVERSE_INDEX) _ _
      INVALID_REVERSE_INDEX _ hr1
    have hlast_ne : s.iJar.length - 1 ≠ INVALID_REVERSE_INDEX := by omega
    have h1 := h.size_eq
    unfold live_count at h1 ⊢
    simp [hrv, hlast_ne] at hb1 hb2
    rw [List.length_dropLast, List.length_set]
    omega

/-- An item that carries the reserved cookie makes `cookie + 1` wrap to zero: the
table is emptied by `resize(0, ...)` and the next subscript is past its end. -/
theorem add_reserved (s : cookie_jar T) (aItem : T)
    (hb : s.iReverseIndices.length ≤ INVALID_COOKIE)
    (hc : item_cookie aItem = INVALID_COOKIE) : s.add aItem = .undefined := by
  unfold cookie_jar.add
  simp only [hc]
  rw [if_pos hb]
  have : resize s.iReverseIndices ((INVALID_COOKIE + 1) % 4294967296) INVALID_REVERSE_INDEX
      = [] := by
    simp [resize, INVALID_COOKIE]
  rw [this]
  rfl

theorem invariant_apply {s t : cookie_jar T} (h : invariant s) (op : operation T)
    (ht : op.apply s = some t) : invariant t := by
  cases op with
  | next_cookie =>
    simp only [operation.apply, cookie_jar.next_cookie] at ht
    cases hf : s.iFreeCookies.getLast? with
    | some c =>
      simp only [hf, outcome.state?, Option.some.injEq] at ht
      subst ht
      exact invariant_of_same_jar h rfl rfl
    | none =>
      simp only [hf] at ht
      split at ht <;>
      · simp only [outcome.state?, Option.some.injEq] at ht
        subst ht
        exact invariant_of_same_jar h rfl rfl
  | add aItem =>
    simp only [operation.apply] at ht
    by_cases hc : item_cookie aItem = INVALID_COOKIE
    · rw [add_reserved s aItem h.table_bound hc] at ht
      simp [outcome.state?] at ht
    · rw [add_eq s aItem hc] at ht
      by_cases hl : s.contains (item_cookie aItem) = true
      · rw [if_pos hl] at ht
        simp only [outcome.state?, Option.some.injEq] at ht
        subst ht
        exact h
      · rw [if_neg hl] at ht
        simp only [outcome.state?, Option.some.injEq] at ht
        subst ht
        exact invariant_add h aItem hc (by simpa using hl)
  | remove aCookie =>
    simp only [operation.apply] at ht
    by_cases hl : s.contains aCookie = true
    · obtain ⟨r, back, hr, hrv, _, hlast, _, _, heq⟩ := remove_eq s aCookie h hl
      rw [heq] at ht
      simp only [outcome.state?, Option.some.injEq] at ht
      subst ht
      exact invariant_remove h aCookie r back _ hr hrv hlast
    · rcases (contains_eq_false_iff s aCookie).mp (by simpa using hl) with h0 | h0
      · simp [cookie_jar.remove, h0, outcome.state?] at ht
      · simp only [cookie_jar.remove, h0, if_true, outcome.state?, Option.some.injEq] at ht
        subst ht
        exact h
  | return_cookie aCookie =>
    simp only [operation.apply, Option.some.injEq] at ht
    subst ht
    exact invariant_of_same_jar h rfl rfl
  | clear =>
    simp only [operation.apply, Option.some.injEq] at ht
    subst ht
    exact invariant_constructed

theorem invariant_run {s t : cookie_jar T} (h : invariant s) (ops : List (operation T))
    (ht : run s ops = some t) : invariant t := by
  induction ops generalizing s with
  | nil =>
    simp only [run, Option.some.injEq] at ht
    subst ht
    exact h
  | cons op ops ih =>
    simp only [run] at ht
    cases h1 : op.apply s with
    | none => simp [h1] at ht
    | some s1 =>
      simp only [h1] at ht
      exact ih (invariant_apply h op h1) ht

/-! ## Lookup after `add` and `remove` -/

theorem lookup_add {s : cookie_jar T} (h : invariant s) (aItem : T)
    (hc : item_cookie aItem ≠ INVALID_COOKIE)
    (hn : s.contains (item_cookie aItem) = false) (d : Nat) :
    cookie_jar.operator_subscript
      { s with
        iJar := s.iJar ++ [aItem]
        iReverseIndices :=
          (grow s.iReverseIndices (item_cookie aItem)).set (item_cookie aItem)
            s.iJar.length } d
      = if d = item_cookie aItem then .returns aItem else s.operator_subscript d := by
  have hg := grow_entry_not_live s _ hn
  have hglt : item_cookie aItem < (grow s.iReverseIndices (item_cookie aItem)).length :=
    (List.getElem?_eq_some_iff.mp hg).1
  have hcount : live_count (grow s.iReverseIndices (item_cookie aItem))
      < (grow s.iReverseIndices (item_cookie aItem)).length :=
    countP_lt_length_of_entry _ _ _ _ hg (by simp)
  have hlt : item_cookie aItem < INVALID_COOKIE := by
    have := i_cookie_jar_item.cookie_lt aItem
    unfold INVALID_COOKIE at hc ⊢
    unfold item_cookie at hc ⊢
    omega
  have hbound : (grow s.iReverseIndices (item_cookie aItem)).length ≤ INVALID_COOKIE := by
    rw [length_grow]
    have := h.table_bound
    omega
  have hjl : s.iJar.length ≠ INVALID_REVERSE_INDEX := by
    have h1 := h.size_eq
    rw [← live_count_grow _ (item_cookie aItem)] at h1
    unfold INVALID_COOKIE at hbound
    unfold INVALID_REVERSE_INDEX
    omega
  unfold cookie_jar.operator_subscript
  simp only [List.getElem?_set]
  by_cases hcd : d = item_cookie aItem
  · subst hcd
    rw [if_pos rfl, if_pos hglt, if_pos rfl]
    simp [hjl]
  · rw [if_neg (Ne.symm hcd), if_neg hcd, getElem?_grow]
    by_cases hd : d < s.iReverseIndices.length
    · rw [if_pos hd]
      obtain ⟨q, hq⟩ : ∃ q, s.iReverseIndices[d]? = some q := by
        rw [List.getElem?_eq_getElem hd]; exact ⟨_, rfl⟩
      simp only [hq]
      by_cases hqv : q = INVALID_REVERSE_INDEX
      · simp [hqv]
      · obtain ⟨x, hx, _⟩ := h.position_valid d q hq hqv
        rw [if_neg hqv, if_neg hqv,
          List.getElem?_append_left (List.getElem?_eq_some_iff.mp hx).1]
    · rw [if_neg hd, List.getElem?_eq_none (by omega)]
      by_cases h2 : d ≤ item_cookie aItem
      · simp [h2]
      · simp [h2]

theorem lookup_remove {s : cookie_jar T} (h : invariant s) (c r : Nat) (back : T)
    (frees : List Nat)
    (hr : s.iReverseIndices[c]? = some r) (hrv : r ≠ INVALID_REVERSE_INDEX)
    (hback : s.iJar.getLast? = some back) (d : Nat) :
    cookie_jar.operator_subscript
      { s with
        iFreeCookies := frees
        iJar := (s.iJar.set r back).dropLast
        iReverseIndices :=
          (s.iReverseIndices.set (item_cookie back) r).set c INVALID_REVERSE_INDEX } d
      = if d = c then .throws .invalid_cookie else s.operator_subscript d := by
  obtain ⟨x, hx, hxc⟩ := h.position_valid c r hr hrv
  have hrlt : r < s.iJar.length := (List.getElem?_eq_some_iff.mp hx).1
  rw [List.getLast?_eq_getElem?] at hback
  have hbi := h.item_indexed _ _ hback
  have hclt : c < s.iReverseIndices.length := (List.getElem?_eq_some_iff.mp hr).1
  have hblt : item_cookie back < s.iReverseIndices.length :=
    (List.getElem?_eq_some_iff.mp hbi).1
  have hjl := h.jar_length_le
  have hlast_ne : s.iJar.length - 1 ≠ INVALID_REVERSE_INDEX := by omega
  unfold cookie_jar.operator_subscript
  simp only [getElem?_redirect _ _ _ _ _ hclt hblt, getElem?_swap_pop _ _ _ _ hrlt]
  by_cases h1 : c = d
  · rw [if_pos h1, if_pos h1.symm]
    simp
  · rw [if_neg h1, if_neg (Ne.symm h1)]
    by_cases h2 : item_cookie back = d
    · have hne : r ≠ s.iJar.length - 1 := by
        intro he
        rw [he, hback] at hx
        cases hx
        exact h1 (hxc.symm.trans h2)
      rw [if_pos h2, ← h2, hbi]
      have hrl : r < s.iJar.length - 1 := by omega
      simp [hrv, hlast_ne, hback, hrl]
    · rw [if_neg h2]
      cases hq : s.iReverseIndices[d]? with
      | none => rfl
      | some q =>
        simp only []
        by_cases hqv : q = INVALID_REVERSE_INDEX
        · simp [hqv]
        · obtain ⟨y, hy, hyc⟩ := h.position_valid d q hq hqv
          have hqlt : q < s.iJar.length := (List.getElem?_eq_some_iff.mp hy).1
          have hne1 : q ≠ s.iJar.length - 1 := by
            intro he
            rw [he, hback] at hy
            cases hy
            exact h2 hyc
          have hne2 : r ≠ q := by
            intro he
            rw [he, hy] at hx
            cases hx
            exact h1 (hxc.symm.trans hyc)
          rw [if_neg hqv, if_neg hqv, if_pos (by omega), if_neg hne2]

/-- Under the invariant a lookup never runs past the end of the jar, and it throws
exactly for the cookies that are not live. -/
theorem lookup_of_invariant {s : cookie_jar T} (h : invariant s) (c : Nat) :
    (s.contains c = false ∧ s.operator_subscript c = .throws .invalid_cookie) ∨
    (s.contains c = true ∧ ∃ r x, s.iReverseIndices[c]? = some r ∧ r < s.iJar.length ∧
      s.iJar[r]? = some x ∧ item_cookie x = c ∧ s.operator_subscript c = .returns x) := by
  by_cases hl : s.contains c = true
  · right
    obtain ⟨r, hr, hrv⟩ := (contains_eq_true_iff s c).mp hl
    obtain ⟨x, hx, hxc⟩ := h.position_valid c r hr hrv
    refine ⟨hl, r, x, hr, (List.getElem?_eq_some_iff.mp hx).1, hx, hxc, ?_⟩
    simp [cookie_jar.operator_subscript, hr, hrv, hx]
  · left
    have hl1 : s.contains c = false := by simpa using hl
    refine ⟨hl1, ?_⟩
    rcases (contains_eq_false_iff s c).mp hl1 with h0 | h0
    · simp [cookie_jar.operator_subscript, h0]
    · simp [cookie_jar.operator_subscript, h0]

theorem contains_iff_returns {s : cookie_jar T} (h : invariant s) (c : Nat) :
    s.contains c = true ↔ ∃ x, s.operator_subscript c = .returns x := by
  rcases lookup_of_invariant h c with ⟨h1, h2⟩ | ⟨h1, r, x, _, _, _, _, h2⟩
  · constructor
    · intro h3; rw [h1] at h3; cases h3
    · rintro ⟨x, hx⟩; rw [h2] at hx; cases hx
  · exact ⟨fun _ => ⟨x, h2⟩, fun _ => h1⟩

theorem contains_congr_of_lookup {s t : cookie_jar T} (hs : invariant s) (ht : invariant t)
    (c : Nat) (h : t.operator_subscript c = s.operator_subscript c) :
    t.contains c = s.contains c := by
  have h1 := contains_iff_returns hs c
  have h2 := contains_iff_returns ht c
  rw [h] at h2
  cases hc : s.contains c with
  | true => exact h2.mpr (h1.mp hc)
  | false =>
    cases hd : t.contains c with
    | false => rfl
    | true => rw [h1.mpr (h2.mp hd)] at hc; cases hc

omit [i_cookie_jar_item T] in
theorem lookup_congr {s t : cookie_jar T} (hj : t.iJar = s.iJar)
    (hr : t.iReverseIndices = s.iReverseIndices) (c : Nat) :
    t.operator_subscript c = s.operator_subscript c := by
  unfold cookie_jar.operator_subscript
  rw [hj, hr]

theorem countP_eq_filter_range {α : Type} (q : Option α → Bool) (l : List α) :
    l.countP (fun a => q (some a))
      = ((List.range l.length).filter (fun i => q l[i]?)).length := by
  induction l with
  | nil => simp
  | cons x xs ih =>
    rw [List.length_cons, List.range_succ_eq_map, List.filter_cons, List.countP_cons,
      List.filter_map]
    have hcomp : ((fun i => q (x :: xs)[i]?) ∘ Nat.succ) = fun i => q xs[i]? := by
      funext i; simp
    rw [hcomp]
    by_cases hq : q (some x) = true
    · simp [hq, ih]
    · simp [hq, ih]

omit [i_cookie_jar_item T] in
theorem live_count_eq_live_cookies (s : cookie_jar T) :
    live_count s.iReverseIndices = live_cookies s := by
  unfold live_count live_cookies
  have := countP_eq_filter_range
    (fun o : Option Nat => match o with
      | none => false
      | some r => r != INVALID_REVERSE_INDEX) s.iReverseIndices
  simp only at this
  rw [this]
  rfl

/-! ## The registry refines the finite map -/

omit [i_cookie_jar_item T] in
theorem represents_bound {s : cookie_jar T} {m : Nat → Option T} (hrep : represents s m)
    (c : Nat) (x : T) (hx : s.operator_subscript c = .returns x) : m c = some x := by
  have := hrep c
  rw [hx] at this
  cases hm : m c with
  | none => rw [hm] at this; cases this
  | some y => rw [hm] at this; cases this; rfl

omit [i_cookie_jar_item T] in
theorem represents_unbound {s : cookie_jar T} {m : Nat → Option T} (hrep : represents s m)
    (c : Nat) (hx : s.operator_subscript c = .throws .invalid_cookie) : m c = none := by
  have := hrep c
  rw [hx] at this
  cases hm : m c with
  | none => rfl
  | some y => rw [hm] at this; cases this

theorem represents_apply {s t : cookie_jar T} {m : Nat → Option T} (h : invariant s)
    (hrep : represents s m) (op : operation T) (ht : op.apply s = some t) :
    represents t (map_step m op) := by
  cases op with
  | next_cookie =>
    have hinv := invariant_apply h _ ht
    simp only [operation.apply, cookie_jar.next_cookie] at ht
    intro c
    have : t.operator_subscript c = s.operator_subscript c := by
      cases hf : s.iFreeCookies.getLast? with
      | some d =>
        simp only [hf, outcome.state?, Option.some.injEq] at ht
        subst ht
        exact lookup_congr rfl rfl c
      | none =>
        simp only [hf] at ht
        split at ht <;>
        · simp only [outcome.state?, Option.some.injEq] at ht
          subst ht
          exact lookup_congr rfl rfl c
    rw [this]
    exact hrep c
  | add aItem =>
    simp only [operation.apply] at ht
    by_cases hc : item_cookie aItem = INVALID_COOKIE
    · rw [add_reserved s aItem h.table_bound hc] at ht
      simp [outcome.state?] at ht
    · rw [add_eq s aItem hc] at ht
      by_cases hl : s.contains (item_cookie aItem) = true
      · rw [if_pos hl] at ht
        simp only [outcome.state?, Option.some.injEq] at ht
        subst ht
        obtain ⟨x, hx⟩ := (contains_iff_returns h _).mp hl
        have hm := represents_bound hrep _ _ hx
        simp only [map_step, hm, Option.isSome_some, if_true]
        exact hrep
      · rw [if_neg hl] at ht
        simp only [outcome.state?, Option.some.injEq] at ht
        subst ht
        have hl1 : s.contains (item_cookie aItem) = false := by simpa using hl
        have hthrow : s.operator_subscript (item_cookie aItem) = .throws .invalid_cookie := by
          rcases lookup_of_invariant h (item_cookie aItem) with ⟨_, h2⟩ | ⟨h1, _⟩
          · exact h2
          · rw [hl1] at h1; cases h1
        have hm := represents_unbound hrep _ hthrow
        intro d
        rw [lookup_add h aItem hc hl1 d]
        simp only [map_step, hm, Option.isSome_none, Bool.false_eq_true, if_false]
        by_cases hd : d = item_cookie aItem
        · subst hd
          simp
        · rw [if_neg hd, Function.update_noteq hd]
          exact hrep d
  | remove aCookie =>
    simp only [operation.apply] at ht
    by_cases hl : s.contains aCookie = true
    · obtain ⟨r, back, hr, hrv, _, hlast, _, _, heq⟩ := remove_eq s aCookie h hl
      rw [heq] at ht
      simp only [outcome.state?, Option.some.injEq] at ht
      subst ht
      intro d
      rw [lookup_remove h aCookie r back _ hr hrv hlast d]
      simp only [map_step]
      by_cases hd : d = aCookie
      · subst hd
        simp
      · rw [if_neg hd, Function.update_noteq hd]
        exact hrep d
    · have hl1 : s.contains aCookie = false := by simpa using hl
      have hthrow : s.operator_subscript aCookie = .throws .invalid_cookie := by
        rcases lookup_of_invariant h aCookie with ⟨_, h2⟩ | ⟨h1, _⟩
        · exact h2
        · rw [hl1] at h1; cases h1
      have hm := represents_unbound hrep _ hthrow
      have hst : t = s := by
        rcases (contains_eq_false_iff s aCookie).mp hl1 with h0 | h0
        · simp [cookie_jar.remove, h0, outcome.state?] at ht
        · simp only [cookie_jar.remove, h0, if_true, outcome.state?,
            Option.some.injEq] at ht
          exact ht.symm
      subst hst
      intro d
      simp only [map_step]
      by_cases hd : d = aCookie
      · subst hd
        rw [Function.update_same, hthrow]
      · rw [Function.update_noteq hd]
        exact hrep d
  | return_cookie aCookie =>
    simp only [operation.apply, Option.some.injEq] at ht
    subst ht
    intro c
    exact hrep c
  | clear =>
    simp only [operation.apply, Option.some.injEq] at ht
    subst ht
    intro c
    simp [map_step, cookie_jar.clear, cookie_jar.operator_subscript]

theorem represents_run {s t : cookie_jar T} {m : Nat → Option T} (h : invariant s)
    (hrep : represents s m) (ops : List (operation T)) (ht : run s ops = some t) :
    represents t (map_after m ops) := by
  induction ops generalizing s m with
  | nil =>
    simp only [run, Option.some.injEq] at ht
    subst ht
    exact hrep
  | cons op ops ih =>
    simp only [run] at ht
    cases h1 : op.apply s with
    | none => simp [h1] at ht
    | some s1 =>
      simp only [h1] at ht
      exact ih (invariant_apply h op h1) (represents_apply h hrep op h1) ht

omit [i_cookie_jar_item T] in
theorem represents_constructed :
    represents (cookie_jar.constructed : cookie_jar T) (fun _ => none) := by
  intro c
  simp [cookie_jar.constructed, cookie_jar.operator_subscript]

/-! ## Claims on the registry -/

/-- C1: after every sequence of registry calls from an empty registry in which each
call returned or threw, the lookup of every live cookie returns the item most
recently added under it, and a cookie that is not live is unbound in the finite
map: the registry behaves like a finite map from cookie to item. -/
theorem lookup_returns_most_recently_added (ops : List (operation T)) (s : cookie_jar T)
    (hrun : run cookie_jar.constructed ops = some s) (c : Nat) :
    (s.contains c = true →
      ∃ x, map_after (fun _ => none) ops c = some x ∧ s.operator_subscript c = .returns x) ∧
    (s.contains c = false → map_after (fun _ => none) ops c = none) := by
  have hinv := invariant_run invariant_constructed ops hrun
  have hrep := represents_run invariant_constructed represents_constructed ops hrun
  constructor
  · intro hl
    obtain ⟨x, hx⟩ := (contains_iff_returns hinv c).mp hl
    exact ⟨x, represents_bound hrep c x hx, hx⟩
  · intro hl
    rcases lookup_of_invariant hinv c with ⟨_, h2⟩ | ⟨h1, _⟩
    · exact represents_unbound hrep c h2
    · rw [hl] at h1; cases h1

/-- C2: in every state reached from an empty registry, the reverse index of every
live cookie is a position of the jar and the item stored there reports that
cookie. -/
theorem reachable_reverse_index_valid (ops : List (operation T)) (s : cookie_jar T)
    (hrun : run cookie_jar.constructed ops = some s) (c : Nat) (hlive : s.contains c = true) :
    ∃ r x, s.iReverseIndices[c]? = some r ∧ r < s.iJar.length ∧ s.iJar[r]? = some x ∧
      item_cookie x = c := by
  have hinv := invariant_run invariant_constructed ops hrun
  rcases lookup_of_invariant hinv c with ⟨h1, _⟩ | ⟨_, r, x, hr, hlt, hx, hxc, _⟩
  · rw [hlive] at h1; cases h1
  · exact ⟨r, x, hr, hlt, hx, hxc⟩

/-- C3: in every state reached from an empty registry the live cookies are in
bijection with the jar positions: two live cookies with the same reverse-index
entry are equal, every jar position is the entry of a live cookie, and the jar has
as many items as there are live cookies. -/
theorem reachable_live_cookies_bijective (ops : List (operation T)) (s : cookie_jar T)
    (hrun : run cookie_jar.constructed ops = some s) :
    (∀ c d, s.contains c = true → s.contains d = true →
      s.iReverseIndices[c]? = s.iReverseIndices[d]? → c = d) ∧
    (∀ i, i < s.iJar.length → ∃ c, s.contains c = true ∧ s.iReverseIndices[c]? = some i) ∧
    s.iJar.length = live_cookies s := by
  have hinv := invariant_run invariant_constructed ops hrun
  refine ⟨?_, ?_, ?_⟩
  · intro c d hc hd hcd
    obtain ⟨r, hr, hrv⟩ := (contains_eq_true_iff s c).mp hc
    obtain ⟨x, hx, hxc⟩ := hinv.position_valid c r hr hrv
    rw [hr] at hcd
    obtain ⟨y, hy, hyd⟩ := hinv.position_valid d r hcd.symm hrv
    rw [hx] at hy
    cases hy
    exact hxc.symm.trans hyd
  · intro i hi
    obtain ⟨x, hx⟩ : ∃ x, s.iJar[i]? = some x := by
      rw [List.getElem?_eq_getElem hi]; exact ⟨_, rfl⟩
    refine ⟨item_cookie x, ?_, hinv.item_indexed i x hx⟩
    rw [contains_eq_true_iff]
    refine ⟨i, hinv.item_indexed i x hx, ?_⟩
    have := hinv.jar_length_le
    omega
  · rw [← live_count_eq_live_cookies]
    exact hinv.size_eq

/-- C4: on a registry that satisfies the invariant, `remove` of a live cookie
returns; the jar is one item shorter, the cookie is no longer contained, the former
last item sits at the freed position with its reverse index redirected when the
removed item was not last, the cookie is pushed on the free list, the counter is
untouched, and containment and lookup of every other cookie are unchanged. -/
theorem remove_live (s : cookie_jar T) (c : Nat) (h : invariant s)
    (hlive : s.contains c = true) :
    ∃ r back t, s.iReverseIndices[c]? = some r ∧ s.iJar.getLast? = some back ∧
      s.remove c = .returns r t ∧
      t.iJar.length + 1 = s.iJar.length ∧
      t.contains c = false ∧
      (r < s.iJar.length - 1 →
        t.iJar[r]? = some back ∧ t.iReverseIndices[item_cookie back]? = some r) ∧
      (¬ r < s.iJar.length - 1 → t.iJar = s.iJar.dropLast) ∧
      t.iFreeCookies = s.iFreeCookies ++ [c] ∧
      t.iNextAvailableCookie = s.iNextAvailableCookie ∧
      ∀ d, d ≠ c →
        t.contains d = s.contains d ∧ t.operator_subscript d = s.operator_subscript d := by
  obtain ⟨r, back, hr, hrv, hrlt, hlast, hbi, hsame, heq⟩ := remove_eq s c h hlive
  have hinv := invariant_remove h c r back (s.iFreeCookies ++ [c]) hr hrv hlast
  have hlook := lookup_remove h c r back (s.iFreeCookies ++ [c]) hr hrv hlast
  have hclt : c < s.iReverseIndices.length := (List.getElem?_eq_some_iff.mp hr).1
  have hblt : item_cookie back < s.iReverseIndices.length :=
    (List.getElem?_eq_some_iff.mp hbi).1
  refine ⟨r, back, _, hr, hlast, heq, ?_, ?_, ?_, ?_, rfl, rfl, ?_⟩
  · show ((s.iJar.set r back).dropLast).length + 1 = s.iJar.length
    rw [List.length_dropLast, List.length_set]
    omega
  · rcases lookup_of_invariant hinv c with ⟨h1, _⟩ | ⟨_, _, x, _, _, _, _, h2⟩
    · exact h1
    · rw [hlook c, if_pos rfl] at h2; cases h2
  · intro hlt
    constructor
    · show ((s.iJar.set r back).dropLast)[r]? = some back
      rw [getElem?_swap_pop _ _ _ _ hrlt, if_pos hlt, if_pos rfl]
    · show ((s.iReverseIndices.set (item_cookie back) r).set c INVALID_REVERSE_INDEX)[
        item_cookie back]? = some r
      have hne : c ≠ item_cookie back := by
        intro he
        rw [he, hbi] at hr
        cases hr
        omega
      rw [getElem?_redirect _ _ _ _ _ hclt hblt, if_neg hne, if_pos rfl]
  · intro hlt
    show (s.iJar.set r back).dropLast = s.iJar.dropLast
    have he : r = s.iJar.length - 1 := by omega
    have hxb : s.iJar[r]? = some back := by
      rw [he, ← List.getLast?_eq_getElem?]; exact hlast
    rw [set_self_of_getElem? _ _ _ hxb]
  · intro d hd
    have hl := hlook d
    rw [if_neg hd] at hl
    exact ⟨contains_congr_of_lookup h hinv d hl, hl⟩

/-- C5: evaluation at the failing inputs. On a fresh registry, and on a registry
holding one item under cookie 1, `remove` of a cookie beyond the reverse-index
table subscripts the table past its end, whereas `contains` answers false and the
lookup throws `invalid_cookie` for the same cookie. -/
theorem remove_beyond_table_undefined :
    (cookie_jar.constructed : cookie_jar labelled).remove 1 = .undefined ∧
    (cookie_jar.constructed : cookie_jar labelled).operator_subscript 1
      = .throws .invalid_cookie ∧
    (∃ s : cookie_jar labelled,
      run cookie_jar.constructed [.next_cookie, .add ⟨1, 10⟩] = some s ∧
      s.contains 2 = false ∧
      s.operator_subscript 2 = .throws .invalid_cookie ∧
      s.remove 2 = .undefined) := by
  refine ⟨by decide, by decide, ⟨1, [], [⟨1, 10⟩], [4294967295, 0]⟩, ?_, ?_, ?_, ?_⟩ <;> decide

/-- C6, as stated, fails for an item that carries the reserved cookie: on a fresh
registry the cookie `0xFFFFFFFF` is not live, yet `add` does not append the item,
because `cookie + 1` wraps to zero and the table is subscripted past its end. -/
theorem add_reserved_cookie_undefined :
    invariant (cookie_jar.constructed : cookie_jar labelled) ∧
    (cookie_jar.constructed : cookie_jar labelled).contains
      (item_cookie (⟨4294967295, 7⟩ : labelled)) = false ∧
    (cookie_jar.constructed : cookie_jar labelled).add ⟨4294967295, 7⟩ = .undefined :=
  ⟨invariant_constructed, by decide, by decide⟩

/-- C6, amended: for an item whose cookie is not the reserved `INVALID_COOKIE`, on a
registry that satisfies the invariant, `add` throws `cookie_already_added` exactly
when the cookie is live, and then leaves the registry as it was; otherwise it
returns the new last position, the jar is the old jar with the item appended, the
table covers the cookie, whose entry is that position, the cookie is contained and
its lookup returns the item; free list and counter are untouched. -/
theorem add_unreserved (s : cookie_jar T) (aItem : T) (h : invariant s)
    (hc : item_cookie aItem ≠ INVALID_COOKIE) :
    ((∃ t, s.add aItem = .throws .cookie_already_added t) ↔
      s.contains (item_cookie aItem) = true) ∧
    (s.contains (item_cookie aItem) = true → s.add aItem = .throws .cookie_already_added s) ∧
    (s.contains (item_cookie aItem) = false →
      ∃ t, s.add aItem = .returns s.iJar.length t ∧
        t.iJar = s.iJar ++ [aItem] ∧
        t.iReverseIndices.length = max s.iReverseIndices.length (item_cookie aItem + 1) ∧
        t.iReverseIndices[item_cookie aItem]? = some s.iJar.length ∧
        t.contains (item_cookie aItem) = true ∧
        t.operator_subscript (item_cookie aItem) = .returns aItem ∧
        t.iFreeCookies = s.iFreeCookies ∧
        t.iNextAvailableCookie = s.iNextAvailableCookie) := by
  have heq := add_eq s aItem hc
  refine ⟨?_, ?_, ?_⟩
  · constructor
    · rintro ⟨t, ht⟩
      by_cases hl : s.contains (item_cookie aItem) = true
      · exact hl
      · rw [heq, if_neg hl] at ht; cases ht
    · intro hl
      exact ⟨s, by rw [heq, if_pos hl]⟩
  · intro hl
    rw [heq, if_pos hl]
  · intro hl
    have hinv := invariant_add h aItem hc hl
    have hlook := lookup_add h aItem hc hl (item_cookie aItem)
    rw [if_pos rfl] at hlook
    have hg := grow_entry_not_live s _ hl
    have hglt : item_cookie aItem < (grow s.iReverseIndices (item_cookie aItem)).length :=
      (List.getElem?_eq_some_iff.mp hg).1
    refine ⟨_, by rw [heq, if_neg (by simp [hl])], rfl, ?_, ?_, ?_, hlook, rfl, rfl⟩
    · show ((grow s.iReverseIndices (item_cookie aItem)).set _ _).length = _
      rw [List.length_set, length_grow]
    · show ((grow s.iReverseIndices (item_cookie aItem)).set _ _)[item_cookie aItem]? = _
      rw [List.getElem?_set, if_pos rfl, if_pos hglt]
    · exact (contains_iff_returns hinv _).mpr ⟨aItem, hlook⟩

/-- C7: `contains` is a total function and is true exactly when the cookie is within
the reverse-index table and its entry is not the invalid sentinel; on a registry
that satisfies the invariant the lookup throws `invalid_cookie` exactly when
`contains` is false, and otherwise returns the jar item at the recorded position. -/
theorem contains_and_lookup (s : cookie_jar T) (h : invariant s) (c : Nat) :
    (s.contains c = true ↔
      c < s.iReverseIndices.length ∧
        s.iReverseIndices[c]? ≠ some INVALID_REVERSE_INDEX) ∧
    (s.operator_subscript c = .throws .invalid_cookie ↔ s.contains c = false) ∧
    (s.contains c = true →
      ∃ r x, s.iReverseIndices[c]? = some r ∧ s.iJar[r]? = some x ∧
        s.operator_subscript c = .returns x) := by
  refine ⟨?_, ?_, ?_⟩
  · rw [contains_eq_true_iff]
    constructor
    · rintro ⟨r, hr, hrv⟩
      refine ⟨(List.getElem?_eq_some_iff.mp hr).1, ?_⟩
      rw [hr]
      intro he
      cases he
      exact hrv rfl
    · rintro ⟨hlt, hne⟩
      refine ⟨s.iReverseIndices[c], List.getElem?_eq_getElem hlt, ?_⟩
      intro he
      apply hne
      rw [List.getElem?_eq_getElem hlt, he]
  · rcases lookup_of_invariant h c with ⟨h1, h2⟩ | ⟨h1, _, x, _, _, _, _, h2⟩
    · exact ⟨fun _ => h1, fun _ => h2⟩
    · constructor
      · intro h3; rw [h2] at h3; cases h3
      · intro h3; rw [h1] at h3; cases h3
  · intro hl
    rcases lookup_of_invariant h c with ⟨h1, _⟩ | ⟨_, r, x, hr, _, hx, _, h2⟩
    · rw [hl] at h1; cases h1
    · exact ⟨r, x, hr, hx, h2⟩

omit [i_cookie_jar_item T] in
/-- C8: with a non-empty free list `next_cookie` returns the entry pushed last,
removes it and leaves the counter as it was; with an empty free list it increments
the 32-bit counter, keeps the incremented value, and returns it, unless that value
is `0xFFFFFFFF`, in which case it throws `cookies_exhausted`. -/
theorem next_cookie_spec (s : cookie_jar T) (front : List Nat) (c : Nat) :
    cookie_jar.next_cookie { s with iFreeCookies := front ++ [c] }
      = .returns c { s with iFreeCookies := front } ∧
    cookie_jar.next_cookie { s with iFreeCookies := [] }
      = (if (s.iNextAvailableCookie + 1) % 4294967296 = 4294967295 then
          .throws .cookies_exhausted
            { s with
              iFreeCookies := []
              iNextAvailableCookie := (s.iNextAvailableCookie + 1) % 4294967296 }
        else
          .returns ((s.iNextAvailableCookie + 1) % 4294967296)
            { s with
              iFreeCookies := []
              iNextAvailableCookie := (s.iNextAvailableCookie + 1) % 4294967296 }) := by
  constructor
  · simp [cookie_jar.next_cookie]
  · simp [cookie_jar.next_cookie, INVALID_COOKIE]

/-- C10: on a registry that satisfies the invariant, `remove` of a live cookie
followed at once by `next_cookie` returns that very cookie, whatever the free list
held before; the free list is then back to what it was and the counter has not
moved. -/
theorem remove_then_next_cookie (s : cookie_jar T) (c : Nat) (h : invariant s)
    (hlive : s.contains c = true) :
    ∃ r t, s.remove c = .returns r t ∧
      t.next_cookie = .returns c { t with iFreeCookies := s.iFreeCookies } ∧
      t.iNextAvailableCookie = s.iNextAvailableCookie := by
  obtain ⟨r, back, _, _, _, _, _, _, heq⟩ := remove_eq s c h hlive
  refine ⟨r, _, heq, ?_, rfl⟩
  simp [cookie_jar.next_cookie]

/-! ## Reserved values -/

omit [i_cookie_jar_item T] in
theorem unreserved_of_same_table {s t : cookie_jar T} (hk : unreserved_state s)
    (hn : t.iNextAvailableCookie < 4294967296)
    (hf : ∀ x ∈ t.iFreeCookies, x ∈ s.iFreeCookies)
    (hr : t.iReverseIndices = s.iReverseIndices) : unreserved_state t where
  counter_lt := hn
  free_unreserved := fun x hx => hk.free_unreserved x (hf x hx)
  zero_not_live := by
    have := hk.zero_not_live
    unfold cookie_jar.contains at this ⊢
    rw [hr]
    exact this

theorem unreserved_apply {s t : cookie_jar T} (h : invariant s) (hk : unreserved_state s)
    (op : operation T) (hop : op.unreserved) (ht : op.apply s = some t) :
    unreserved_state t := by
  have hinv := invariant_apply h op ht
  cases op with
  | next_cookie =>
    simp only [operation.apply, cookie_jar.next_cookie] at ht
    cases hf : s.iFreeCookies.getLast? with
    | some c =>
      simp only [hf, outcome.state?, Option.some.injEq] at ht
      subst ht
      exact unreserved_of_same_table hk hk.counter_lt
        (fun x hx => List.mem_of_mem_dropLast hx) rfl
    | none =>
      simp only [hf] at ht
      split at ht <;>
      · simp only [outcome.state?, Option.some.injEq] at ht
        subst ht
        exact unreserved_of_same_table hk (Nat.mod_lt _ (by decide)) (fun x hx => hx) rfl
  | add aItem =>
    obtain ⟨hc0, hc⟩ := hop
    simp only [operation.apply] at ht
    rw [add_eq s aItem hc] at ht
    by_cases hl : s.contains (item_cookie aItem) = true
    · rw [if_pos hl] at ht
      simp only [outcome.state?, Option.some.injEq] at ht
      subst ht
      exact hk
    · rw [if_neg hl] at ht
      simp only [outcome.state?, Option.some.injEq] at ht
      have hl1 : s.contains (item_cookie aItem) = false := by simpa using hl
      have hlook := lookup_add h aItem hc hl1 no_cookie
      rw [if_neg (Ne.symm hc0)] at hlook
      subst ht
      exact
        { counter_lt := hk.counter_lt
          free_unreserved := hk.free_unreserved
          zero_not_live := by
            rw [contains_congr_of_lookup h hinv no_cookie hlook]
            exact hk.zero_not_live }
  | remove aCookie =>
    simp only [operation.apply] at ht
    by_cases hl : s.contains aCookie = true
    · obtain ⟨r, back, hr, hrv, _, hlast, _, _, heq⟩ := remove_eq s aCookie h hl
      rw [heq] at ht
      simp only [outcome.state?, Option.some.injEq] at ht
      have hne0 : aCookie ≠ no_cookie := by
        intro he
        rw [he, hk.zero_not_live] at hl
        cases hl
      have hnei : aCookie ≠ INVALID_COOKIE := by
        have h1 := (List.getElem?_eq_some_iff.mp hr).1
        have h2 := h.table_bound
        omega
      have hlook := lookup_remove h aCookie r back (s.iFreeCookies ++ [aCookie]) hr hrv hlast
        no_cookie
      rw [if_neg (Ne.symm hne0)] at hlook
      subst ht
      exact
        { counter_lt := hk.counter_lt
          free_unreserved := by
            intro x hx
            rcases List.mem_append.mp hx with hx1 | hx1
            · exact hk.free_unreserved x hx1
            · rw [List.mem_singleton.mp hx1]
              exact ⟨hne0, hnei⟩
          zero_not_live := by
            rw [contains_congr_of_lookup h hinv no_cookie hlook]
            exact hk.zero_not_live }
    · rcases (contains_eq_false_iff s aCookie).mp (by simpa using hl) with h0 | h0
      · simp [cookie_jar.remove, h0, outcome.state?] at ht
      · simp only [cookie_jar.remove, h0, if_true, outcome.state?, Option.some.injEq] at ht
        subst ht
        exact hk
  | return_cookie aCookie =>
    simp only [operation.apply, Option.some.injEq] at ht
    subst ht
    exact
      { counter_lt := hk.counter_lt
        free_unreserved := by
          intro x hx
          rcases List.mem_append.mp hx with hx1 | hx1
          · exact hk.free_unreserved x hx1
          · rw [List.mem_singleton.mp hx1]
            exact hop
        zero_not_live := hk.zero_not_live }
  | clear =>
    simp only [operation.apply, Option.some.injEq] at ht
    subst ht
    exact
      { counter_lt := by simp [cookie_jar.clear]
        free_unreserved := by intro x hx; simp [cookie_jar.clear] at hx
        zero_not_live := by simp [cookie_jar.clear, cookie_jar.contains] }

theorem unreserved_run {s t : cookie_jar T} (h : invariant s) (hk : unreserved_state s)
    (ops : List (operation T)) (hops : ∀ op ∈ ops, op.unreserved)
    (ht : run s ops = some t) : unreserved_state t := by
  induction ops generalizing s with
  | nil =>
    simp only [run, Option.some.injEq] at ht
    subst ht
    exact hk
  | cons op ops ih =>
    simp only [run] at ht
    cases h1 : op.apply s with
    | none => simp [h1] at ht
    | some s1 =>
      simp only [h1] at ht
      exact ih (invariant_apply h op h1)
        (unreserved_apply h hk op (hops op (List.mem_cons_self _ _)) h1)
        (fun o ho => hops o (List.mem_cons_of_mem _ ho)) ht

omit [i_cookie_jar_item T] in
theorem unreserved_constructed : unreserved_state (cookie_jar.constructed : cookie_jar T) where
  counter_lt := by simp [cookie_jar.constructed]
  free_unreserved := by intro x hx; simp [cookie_jar.constructed] at hx
  zero_not_live := by simp [cookie_jar.constructed, cookie_jar.contains]

/-- C9, as stated, fails: `return_cookie` is a public operation and pushes whatever
it is given, so after `return_cookie(0)` on a fresh registry `next_cookie` returns
the reserved value `no_cookie`. -/
theorem next_cookie_returns_reserved :
    ¬ ∀ (ops : List (operation labelled)) (s t : cookie_jar labelled) (c : Nat),
      run cookie_jar.constructed ops = some s → s.next_cookie = .returns c t →
      c ≠ no_cookie ∧ c ≠ INVALID_COOKIE := by
  intro hall
  have := hall [.return_cookie 0] ⟨0, [0], [], []⟩ ⟨0, [], [], []⟩ 0 (by decide) (by decide)
  exact this.1 rfl

/-- C9, amended: in every state reached from an empty registry through the public
operations, where no added item carries a reserved cookie and no reserved value is
handed to `return_cookie`, and whose counter has not been left at `0xFFFFFFFF`,
a `next_cookie` that returns yields neither `no_cookie` nor `INVALID_COOKIE`. -/
theorem next_cookie_unreserved (ops : List (operation T)) (s t : cookie_jar T) (c : Nat)
    (hrun : run cookie_jar.constructed ops = some s)
    (hops : ∀ op ∈ ops, op.unreserved)
    (hcounter : s.iNextAvailableCookie ≠ INVALID_COOKIE)
    (hnext : s.next_cookie = .returns c t) :
    c ≠ no_cookie ∧ c ≠ INVALID_COOKIE := by
  have hk := unreserved_run invariant_constructed unreserved_constructed ops hops hrun
  unfold cookie_jar.next_cookie at hnext
  cases hf : s.iFreeCookies.getLast? with
  | some d =>
    simp only [hf] at hnext
    cases hnext
    exact hk.free_unreserved _ (List.mem_of_getLast?_eq_some hf)
  | none =>
    simp only [hf] at hnext
    split at hnext
    · cases hnext
    · rename_i hne
      cases hnext
      refine ⟨?_, hne⟩
      have := hk.counter_lt
      unfold INVALID_COOKIE at hcounter
      unfold no_cookie
      omega

/-! ## Instances on the sample registry -/

theorem sample_registry_reached : run cookie_jar.constructed sample_calls = some sample_registry := by
  decide

theorem invariant_sample_registry : invariant sample_registry :=
  invariant_run invariant_constructed sample_calls sample_registry_reached

theorem lookup_returns_most_recently_added_witness :
    run cookie_jar.constructed sample_calls = some sample_registry ∧
    (sample_registry.contains 2 = true →
      ∃ x, map_after (fun _ => none) sample_calls 2 = some x ∧
        sample_registry.operator_subscript 2 = .returns x) ∧
    (sample_registry.contains 2 = false → map_after (fun _ => none) sample_calls 2 = none) :=
  ⟨by decide, lookup_returns_most_recently_added sample_calls sample_registry (by decide) 2⟩

theorem reachable_reverse_index_valid_witness :
    run cookie_jar.constructed sample_calls = some sample_registry ∧
    sample_registry.contains 2 = true ∧
    ∃ r x, sample_registry.iReverseIndices[2]? = some r ∧ r < sample_registry.iJar.length ∧
      sample_registry.iJar[r]? = some x ∧ item_cookie x = 2 :=
  ⟨by decide, by decide,
    reachable_reverse_index_valid sample_calls sample_registry (by decide) 2 (by decide)⟩

theorem reachable_live_cookies_bijective_witness :
    run cookie_jar.constructed sample_calls = some sample_registry ∧
    (∀ c d, sample_registry.contains c = true → sample_registry.contains d = true →
      sample_registry.iReverseIndices[c]? = sample_registry.iReverseIndices[d]? → c = d) ∧
    (∀ i, i < sample_registry.iJar.length →
      ∃ c, sample_registry.contains c = true ∧ sample_registry.iReverseIndices[c]? = some i) ∧
    sample_registry.iJar.length = live_cookies sample_registry :=
  ⟨by decide, reachable_live_cookies_bijective sample_calls sample_registry (by decide)⟩

theorem remove_live_witness :
    invariant sample_registry ∧ sample_registry.contains 1 = true ∧
    ∃ r back t, sample_registry.iReverseIndices[1]? = some r ∧
      sample_registry.iJar.getLast? = some back ∧
      sample_registry.remove 1 = .returns r t ∧
      t.iJar.length + 1 = sample_registry.iJar.length ∧
      t.contains 1 = false ∧
      (r < sample_registry.iJar.length - 1 →
        t.iJar[r]? = some back ∧ t.iReverseIndices[item_cookie back]? = some r) ∧
      (¬ r < sample_registry.iJar.length - 1 → t.iJar = sample_registry.iJar.dropLast) ∧
      t.iFreeCookies = sample_registry.iFreeCookies ++ [1] ∧
      t.iNextAvailableCookie = sample_registry.iNextAvailableCookie ∧
      ∀ d, d ≠ 1 →
        t.contains d = sample_registry.contains d ∧
          t.operator_subscript d = sample_registry.operator_subscript d :=
  ⟨invariant_sample_registry, by decide,
    remove_live sample_registry 1 invariant_sample_registry (by decide)⟩

theorem add_unreserved_witness :
    invariant sample_registry ∧ item_cookie (⟨5, 50⟩ : labelled) ≠ INVALID_COOKIE ∧
    ((∃ t, sample_registry.add ⟨5, 50⟩ = .throws .cookie_already_added t) ↔
      sample_registry.contains (item_cookie (⟨5, 50⟩ : labelled)) = true) ∧
    (sample_registry.contains (item_cookie (⟨5, 50⟩ : labelled)) = true →
      sample_registry.add ⟨5, 50⟩ = .throws .cookie_already_added sample_registry) ∧
    (sample_registry.contains (item_cookie (⟨5, 50⟩ : labelled)) = false →
      ∃ t, sample_registry.add ⟨5, 50⟩ = .returns sample_registry.iJar.length t ∧
        t.iJar = sample_registry.iJar ++ [⟨5, 50⟩] ∧
        t.iReverseIndices.length
          = max sample_registry.iReverseIndices.length
              (item_cookie (⟨5, 50⟩ : labelled) + 1) ∧
        t.iReverseIndices[item_cookie (⟨5, 50⟩ : labelled)]?
          = some sample_registry.iJar.length ∧
        t.contains (item_cookie (⟨5, 50⟩ : labelled)) = true ∧
        t.operator_subscript (item_cookie (⟨5, 50⟩ : labelled)) = .returns ⟨5, 50⟩ ∧
        t.iFreeCookies = sample_registry.iFreeCookies ∧
        t.iNextAvailableCookie = sample_registry.iNextAvailableCookie) :=
  ⟨invariant_sample_registry, by decide,
    add_unreserved sample_registry ⟨5, 50⟩ invariant_sample_registry (by decide)⟩

theorem contains_and_lookup_witness :
    invariant sample_registry ∧
    (sample_registry.contains 2 = true ↔
      2 < sample_registry.iReverseIndices.length ∧
        sample_registry.iReverseIndices[2]? ≠ some INVALID_REVERSE_INDEX) ∧
    (sample_registry.operator_subscript 2 = .throws .invalid_cookie ↔
      sample_registry.contains 2 = false) ∧
    (sample_registry.contains 2 = true →
      ∃ r x, sample_registry.iReverseIndices[2]? = some r ∧
        sample_registry.iJar[r]? = some x ∧
        sample_registry.operator_subscript 2 = .returns x) :=
  ⟨invariant_sample_registry, contains_and_lookup sample_registry invariant_sample_registry 2⟩

theorem next_cookie_unreserved_witness :
    run cookie_jar.constructed sample_calls = some sample_registry ∧
    (∀ op ∈ sample_calls, op.unreserved) ∧
    sample_registry.iNextAvailableCookie ≠ INVALID_COOKIE ∧
    sample_registry.next_cookie
      = .returns 3 { sample_registry with iNextAvailableCookie := 3 } ∧
    (3 ≠ no_cookie ∧ 3 ≠ INVALID_COOKIE) :=
  ⟨by decide, by decide, by decide, by decide,
    next_cookie_unreserved sample_calls sample_registry
      { sample_registry with iNextAvailableCookie := 3 } 3
      (by decide) (by decide) (by decide) (by decide)⟩

theorem remove_then_next_cookie_witness :
    invariant sample_registry ∧ sample_registry.contains 1 = true ∧
    ∃ r t, sample_registry.remove 1 = .returns r t ∧
      t.next_cookie = .returns 1 { t with iFreeCookies := sample_registry.iFreeCookies } ∧
      t.iNextAvailableCookie = sample_registry.iNextAvailableCookie :=
  ⟨invariant_sample_registry, by decide,
    remove_then_next_cookie sample_registry 1 invariant_sample_registry (by decide)⟩

/-! ## Scenario and `clear` -/

/-- C11: the scenario of the spec, for any two items that carry cookies 1 and 2. On
a fresh registry two `next_cookie` calls return 1 then 2; after both items are added,
`remove(1)` returns and leaves the item with cookie 2 at jar position 0, with
`contains(1)` false and `contains(2)` true; the next `next_cookie` returns 1. -/
theorem scenario_add_remove_recycle (a b : T) (ha : item_cookie a = 1) (hb : item_cookie b = 2) :
    ∃ s1 s2 s3 s4 s5 s6 : cookie_jar T,
      (cookie_jar.constructed : cookie_jar T).next_cookie = .returns 1 s1 ∧
      s1.next_cookie = .returns 2 s2 ∧
      s2.add a = .returns 0 s3 ∧
      s3.add b = .returns 1 s4 ∧
      s4.remove 1 = .returns 0 s5 ∧
      s5.iJar = [b] ∧ s5.iJar[0]? = some b ∧
      s5.contains 1 = false ∧ s5.contains 2 = true ∧
      s5.operator_subscript 2 = .returns b ∧
      s5.next_cookie = .returns 1 s6 := by
  refine ⟨⟨1, [], [], []⟩, ⟨2, [], [], []⟩, ⟨2, [], [a], [INVALID_REVERSE_INDEX, 0]⟩,
    ⟨2, [], [a, b], [INVALID_REVERSE_INDEX, 0, 1]⟩,
    ⟨2, [1], [b], [INVALID_REVERSE_INDEX, INVALID_REVERSE_INDEX, 0]⟩,
    ⟨2, [], [b], [INVALID_REVERSE_INDEX, INVALID_REVERSE_INDEX, 0]⟩, ?_, ?_, ?_, ?_, ?_, ?_, ?_,
    ?_, ?_, ?_, ?_⟩
  · simp [cookie_jar.next_cookie, cookie_jar.constructed, INVALID_COOKIE]
  · simp [cookie_jar.next_cookie, INVALID_COOKIE]
  · simp [cookie_jar.add, ha, resize, INVALID_REVERSE_INDEX]
  · simp [cookie_jar.add, hb, resize, INVALID_REVERSE_INDEX]
  · simp [cookie_jar.remove, cookie_jar.return_cookie, hb, INVALID_REVERSE_INDEX]
  · rfl
  · rfl
  · simp [cookie_jar.contains]
  · simp [cookie_jar.contains, INVALID_REVERSE_INDEX]
  · simp [cookie_jar.operator_subscript, INVALID_REVERSE_INDEX]
  · simp [cookie_jar.next_cookie]

omit [i_cookie_jar_item T] in
/-- C12: `clear` yields the freshly constructed registry whatever the state was: jar,
reverse-index table and free list are empty and the counter is 0, so no cookie is
contained, every lookup throws `invalid_cookie`, and the next `next_cookie` returns
1. -/
theorem clear_is_constructed (s : cookie_jar T) (c : Nat) :
    s.clear = cookie_jar.constructed ∧
    s.clear.iJar = [] ∧ s.clear.iReverseIndices = [] ∧ s.clear.iFreeCookies = [] ∧
    s.clear.iNextAvailableCookie = 0 ∧
    s.clear.contains c = false ∧
    s.clear.operator_subscript c = .throws .invalid_cookie ∧
    s.clear.next_cookie = .returns 1 { s.clear with iNextAvailableCookie := 1 } := by
  refine ⟨rfl, rfl, rfl, rfl, rfl, rfl, rfl, ?_⟩
  simp [cookie_jar.clear, cookie_jar.next_cookie, INVALID_COOKIE]


/-! ## Reference handles: counting lemmas -/

omit [i_cookie_jar_item T] in
theorem holders_set (handles : List (Option cookie_auto_ref)) (i : Nat)
    (old new : Option cookie_auto_ref) (h : handles[i]? = some old) (key : Nat × Nat) :
    holders (handles.set i new) key + weight key old = holders handles key + weight key new :=
  countP_set_balance (holds key) handles i new old h

omit [i_cookie_jar_item T] in
theorem holders_append_one (handles : List (Option cookie_auto_ref))
    (x : Option cookie_auto_ref) (key : Nat × Nat) :
    holders (handles ++ [x]) key = holders handles key + weight key x := by
  unfold holders weight
  rw [List.countP_append]
  by_cases h : holds key x = true <;> simp [List.countP_cons, h]

omit [i_cookie_jar_item T] in
theorem weight_le_holders (handles : List (Option cookie_auto_ref)) (i : Nat)
    (old : Option cookie_auto_ref) (h : handles[i]? = some old) (key : Nat × Nat) :
    weight key old ≤ holders handles key := by
  unfold weight
  by_cases hk : holds key old = true
  · rw [if_pos hk]
    exact List.countP_pos_iff.mpr ⟨old, List.getElem?_mem h, hk⟩
  · rw [if_neg hk]; exact Nat.zero_le _

omit [i_cookie_jar_item T] in
theorem handle_at_eq_some {handles : List (Option cookie_auto_ref)} {i : Nat}
    {a : cookie_auto_ref} (h : handle_at handles i = some a) : handles[i]? = some (some a) := by
  unfold handle_at at h
  split at h
  · rename_i x hx
    cases h
    exact hx
  · cases h

omit [i_cookie_jar_item T] in
theorem weight_none (key : Nat × Nat) : weight key none = 0 := rfl

omit [i_cookie_jar_item T] in
theorem weight_of_not_valid (key : Nat × Nat) (a : cookie_auto_ref) (h : a.valid = false) :
    weight key (some a) = 0 := by
  simp [weight, holds, h]

omit [i_cookie_jar_item T] in
theorem valid_iff (a : cookie_auto_ref) :
    a.valid = true ↔ ∃ consumer, a.iConsumer = some consumer ∧ a.iCookie ≠ no_cookie := by
  unfold cookie_auto_ref.valid cookie_auto_ref.have_consumer cookie_auto_ref.have_cookie
  cases h : a.iConsumer <;> simp

omit [i_cookie_jar_item T] in
theorem weight_released (key : Nat × Nat) (a : cookie_auto_ref) :
    weight key (some a.release.1) = 0 := by
  unfold cookie_auto_ref.release
  by_cases hv : a.valid = true
  · obtain ⟨consumer, hc, _⟩ := (valid_iff a).mp hv
    simp only [hv, hc, Bool.not_true, Bool.false_eq_true, if_false]
    apply weight_of_not_valid
    rfl
  · have hv1 : a.valid = false := by simpa using hv
    simp only [hv1, Bool.not_false, if_true]
    exact weight_of_not_valid key a hv1

omit [i_cookie_jar_item T] in
theorem count_calls_append (counts counts1 counts2 : Nat × Nat → Nat)
    (t1 t2 : List consumer_call) (h1 : count_calls counts t1 = some counts1)
    (h2 : count_calls counts1 t2 = some counts2) :
    count_calls counts (t1 ++ t2) = some counts2 := by
  induction t1 generalizing counts with
  | nil =>
    simp only [count_calls, Option.some.injEq] at h1
    subst h1
    exact h2
  | cons call calls ih =>
    simp only [List.cons_append, count_calls] at h1 ⊢
    cases hc : counting_consumer counts call with
    | none => rw [hc] at h1; cases h1
    | some c1 =>
      rw [hc] at h1
      simp only []
      exact ih c1 h1

omit [i_cookie_jar_item T] in
theorem count_add_ref (counts : Nat × Nat → Nat) (a : cookie_auto_ref) :
    ∃ counts1, count_calls counts a.add_ref = some counts1 ∧
      ∀ key, counts1 key = counts key + weight key (some a) := by
  unfold cookie_auto_ref.add_ref
  by_cases hv : a.valid = true
  · obtain ⟨consumer, hc, hne⟩ := (valid_iff a).mp hv
    simp only [hv, hc, Bool.not_true, Bool.false_eq_true, if_false]
    refine ⟨_, rfl, ?_⟩
    intro key
    by_cases hk : key = (consumer, a.iCookie)
    · subst hk
      simp [weight, holds, hv, hc]
    · rw [Function.update_noteq hk]
      have : weight key (some a) = 0 := by
        unfold weight holds
        rw [if_neg]
        intro hh
        apply hk
        simp only [hv, hc, Bool.true_and, Bool.and_eq_true, beq_iff_eq, Option.some.injEq] at hh
        exact Prod.ext hh.1.symm hh.2.symm
      omega
  · have hv1 : a.valid = false := by simpa using hv
    simp only [hv1, Bool.not_false, if_true]
    exact ⟨counts, rfl, fun key => by rw [weight_of_not_valid key a hv1]; rfl⟩

omit [i_cookie_jar_item T] in
theorem count_release (counts : Nat × Nat → Nat) (a : cookie_auto_ref)
    (hpre : ∀ key, weight key (some a) ≤ counts key) :
    ∃ counts1, count_calls counts a.release.2 = some counts1 ∧
      ∀ key, counts1 key + weight key (some a) = counts key := by
  unfold cookie_auto_ref.release
  by_cases hv : a.valid = true
  · obtain ⟨consumer, hc, hne⟩ := (valid_iff a).mp hv
    simp only [hv, hc, Bool.not_true, Bool.false_eq_true, if_false]
    have hw : weight (consumer, a.iCookie) (some a) = 1 := by
      simp [weight, holds, hv, hc]
    have hpos := hpre (consumer, a.iCookie)
    rw [hw] at hpos
    have hne0 : counts (consumer, a.iCookie) ≠ 0 := by omega
    refine ⟨Function.update counts (consumer, a.iCookie) (counts (consumer, a.iCookie) - 1),
      by simp [count_calls, counting_consumer, hne0], ?_⟩
    intro key
    by_cases hk : key = (consumer, a.iCookie)
    · subst hk
      rw [Function.update_same, hw]
      omega
    · rw [Function.update_noteq hk]
      have : weight key (some a) = 0 := by
        unfold weight holds
        rw [if_neg]
        intro hh
        apply hk
        simp only [hv, hc, Bool.true_and, Bool.and_eq_true, beq_iff_eq, Option.some.injEq] at hh
        exact Prod.ext hh.1.symm hh.2.symm
      omega
  · have hv1 : a.valid = false := by simpa using hv
    simp only [hv1, Bool.not_false, if_true]
    exact ⟨counts, rfl, fun key => by rw [weight_of_not_valid key a hv1]; rfl⟩

omit [i_cookie_jar_item T] in
theorem step_of_perform (w : handle_world) (op : handle_op)
    (handles : List (Option cookie_auto_ref)) (calls : List consumer_call)
    (counts : Nat × Nat → Nat) (hp : op.perform w.handles = some (handles, calls))
    (hc : count_calls w.counts calls = some counts) :
    op.step w = .done { handles := handles, counts := counts } := by
  unfold handle_op.step
  rw [hp]
  simp only [hc]

omit [i_cookie_jar_item T] in
theorem step_counted (w : handle_world) (hinv : counts_match w) (op : handle_op) :
    (op.step w).counted := by
  cases op with
  | construct aConsumer aCookie =>
    obtain ⟨c1, h1, e1⟩ := count_add_ref w.counts (cookie_auto_ref.constructed aConsumer aCookie).1
    rw [step_of_perform w (.construct aConsumer aCookie) _ _ c1 rfl h1]
    intro key
    have := holders_append_one w.handles
      (some (cookie_auto_ref.constructed aConsumer aCookie).1) key
    have := hinv key
    have := e1 key
    show c1 key = holders (w.handles ++ [_]) key
    omega
  | default_construct =>
    rw [step_of_perform w .default_construct _ _ w.counts rfl rfl]
    intro key
    have := holders_append_one w.handles (some cookie_auto_ref.default_constructed) key
    have : weight key (some cookie_auto_ref.default_constructed) = 0 :=
      weight_of_not_valid _ _ rfl
    have := hinv key
    show w.counts key = holders (w.handles ++ [_]) key
    omega
  | copy_construct aOther =>
    cases ho : handle_at w.handles aOther with
    | none => simp [handle_op.step, handle_op.perform, ho, handle_outcome.counted]
    | some other =>
      obtain ⟨c1, h1, e1⟩ := count_add_ref w.counts other.copy_constructed.1
      rw [step_of_perform w (.copy_construct aOther)
        (w.handles ++ [some other.copy_constructed.1]) _ c1
        (by simp only [handle_op.perform, ho]; rfl) h1]
      intro key
      have := holders_append_one w.handles (some other.copy_constructed.1) key
      have := hinv key
      have := e1 key
      show c1 key = holders (w.handles ++ [_]) key
      omega
  | move_construct aOther =>
    cases ho : handle_at w.handles aOther with
    | none => simp [handle_op.step, handle_op.perform, ho, handle_outcome.counted]
    | some other =>
      have hslot := handle_at_eq_some ho
      obtain ⟨c1, h1, e1⟩ := count_add_ref w.counts other
      obtain ⟨c2, h2, e2⟩ := count_release c1 other (by
        intro key
        have := weight_le_holders _ _ _ hslot key
        have := hinv key
        have := e1 key
        omega)
      rw [step_of_perform w (.move_construct aOther)
        (w.handles.set aOther (some other.release.1) ++ [some other]) _ c2
        (by simp only [handle_op.perform, ho]; rfl)
        (count_calls_append _ _ _ _ _ h1 h2)]
      intro key
      have := holders_append_one (w.handles.set aOther (some other.release.1)) (some other) key
      have := holders_set w.handles aOther _ (some other.release.1) hslot key
      have := weight_released key other
      have := weight_le_holders _ _ _ hslot key
      have := hinv key
      have := e1 key
      have := e2 key
      show c2 key = holders (w.handles.set aOther _ ++ [_]) key
      omega
  | copy_assign target aOther =>
    cases ht : handle_at w.handles target with
    | none => simp [handle_op.step, handle_op.perform, ht, handle_outcome.counted]
    | some a =>
      cases ho : handle_at w.handles aOther with
      | none => simp [handle_op.step, handle_op.perform, ht, ho, handle_outcome.counted]
      | some b =>
        by_cases hself : aOther = target
        · rw [step_of_perform w (.copy_assign target aOther) w.handles [] w.counts
            (by simp only [handle_op.perform, ht, ho, hself, if_true]) rfl]
          exact hinv
        · have hsa := handle_at_eq_some ht
          have hsb := handle_at_eq_some ho
          obtain ⟨c1, h1, e1⟩ := count_add_ref w.counts a
          obtain ⟨c2, h2, e2⟩ := count_release c1 a (by
            intro key
            have := weight_le_holders _ _ _ hsa key
            have := hinv key
            have := e1 key
            omega)
          obtain ⟨c3, h3, e3⟩ := count_add_ref c2 b
          obtain ⟨c4, h4, e4⟩ := count_release c3 a (by
            intro key
            have := weight_le_holders _ _ _ hsa key
            have := hinv key
            have := e1 key
            have := e2 key
            have := e3 key
            omega)
          have hsb1 : (w.handles.set target (some b))[aOther]? = some (some b) := by
            rw [List.getElem?_set_ne (Ne.symm hself)]; exact hsb
          rw [step_of_perform w (.copy_assign target aOther)
            ((w.handles.set target (some b)).set aOther (some b)) _ c4
            (by simp only [handle_op.perform, ht, ho, hself, if_false]; rfl)
            (count_calls_append _ _ _ _ _
              (count_calls_append _ _ _ _ _ (count_calls_append _ _ _ _ _ h1 h2) h3) h4)]
          intro key
          have := holders_set w.handles target _ (some b) hsa key
          have := holders_set _ aOther _ (some b) hsb1 key
          have := weight_le_holders _ _ _ hsa key
          have := hinv key
          have := e1 key
          have := e2 key
          have := e3 key
          have := e4 key
          show c4 key = holders ((w.handles.set target _).set aOther _) key
          omega
  | move_assign target aOther =>
    cases ht : handle_at w.handles target with
    | none => simp [handle_op.step, handle_op.perform, ht, handle_outcome.counted]
    | some a =>
      cases ho : handle_at w.handles aOther with
      | none => simp [handle_op.step, handle_op.perform, ht, ho, handle_outcome.counted]
      | some b =>
        by_cases hself : aOther = target
        · rw [step_of_perform w (.move_assign target aOther) w.handles [] w.counts
            (by simp only [handle_op.perform, ht, ho, hself, if_true]) rfl]
          exact hinv
        · have hsa := handle_at_eq_some ht
          have hsb := handle_at_eq_some ho
          obtain ⟨c1, h1, e1⟩ := count_add_ref w.counts a
          obtain ⟨c2, h2, e2⟩ := count_release c1 a (by
            intro key
            have := weight_le_holders _ _ _ hsa key
            have := hinv key
            have := e1 key
            omega)
          obtain ⟨c3, h3, e3⟩ := count_add_ref c2 b
          obtain ⟨c4, h4, e4⟩ := count_release c3 b (by
            intro key
            have := e3 key
            omega)
          obtain ⟨c5, h5, e5⟩ := count_release c4 a (by
            intro key
            have := weight_le_holders _ _ _ hsa key
            have := hinv key
            have := e1 key
            have := e2 key
            have := e3 key
            have := e4 key
            omega)
          have hsb1 : (w.handles.set target (some b))[aOther]? = some (some b) := by
            rw [List.getElem?_set_ne (Ne.symm hself)]; exact hsb
          rw [step_of_perform w (.move_assign target aOther)
            ((w.handles.set target (some b)).set aOther (some b.release.1)) _ c5
            (by simp only [handle_op.perform, ht, ho, hself, if_false]; rfl)
            (count_calls_append _ _ _ _ _
              (count_calls_append _ _ _ _ _
                (count_calls_append _ _ _ _ _ (count_calls_append _ _ _ _ _ h1 h2) h3) h4)
              h5)]
          intro key
          have := holders_set w.handles target _ (some b) hsa key
          have := holders_set _ aOther _ (some b.release.1) hsb1 key
          have := weight_released key b
          have := weight_le_holders _ _ _ hsa key
          have := hinv key
          have := e1 key
          have := e2 key
          have := e3 key
          have := e4 key
          have := e5 key
          show c5 key = holders ((w.handles.set target _).set aOther _) key
          omega
  | destroy target =>
    cases ht : handle_at w.handles target with
    | none => simp [handle_op.step, handle_op.perform, ht, handle_outcome.counted]
    | some a =>
      have hsa := handle_at_eq_some ht
      obtain ⟨c1, h1, e1⟩ := count_release w.counts a (by
        intro key
        have := weight_le_holders _ _ _ hsa key
        have := hinv key
        omega)
      rw [step_of_perform w (.destroy target) (w.handles.set target none) _ c1
        (by simp only [handle_op.perform, ht]; rfl) h1]
      intro key
      have := holders_set w.handles target _ none hsa key
      have := weight_none key
      have := hinv key
      have := e1 key
      show c1 key = holders (w.handles.set target none) key
      omega

omit [i_cookie_jar_item T] in
theorem run_counted (w : handle_world) (hinv : counts_match w) (ops : List handle_op) :
    (run_handles w ops).counted := by
  induction ops generalizing w with
  | nil => exact hinv
  | cons op ops ih =>
    have hstep := step_counted w hinv op
    unfold run_handles
    cases hs : op.step w with
    | done w1 =>
      rw [hs] at hstep
      exact ih w1 hstep
    | invalid_release => rw [hs] at hstep; exact hstep
    | no_such_handle => trivial

omit [i_cookie_jar_item T] in
theorem counts_match_start : counts_match handle_world.start := by
  intro key
  rfl

omit [i_cookie_jar_item T] in
theorem add_ref_valid (a : cookie_auto_ref) (consumer : Nat) (hv : a.valid = true)
    (hc : a.iConsumer = some consumer) : a.add_ref = [.add_ref consumer a.iCookie] := by
  simp [cookie_auto_ref.add_ref, hv, hc]

omit [i_cookie_jar_item T] in
theorem add_ref_not_valid (a : cookie_auto_ref) (hv : a.valid = false) : a.add_ref = [] := by
  simp [cookie_auto_ref.add_ref, hv]

omit [i_cookie_jar_item T] in
theorem release_valid (a : cookie_auto_ref) (consumer : Nat) (hv : a.valid = true)
    (hc : a.iConsumer = some consumer) :
    a.release = (cookie_auto_ref.default_constructed, [.release consumer a.iCookie]) := by
  simp [cookie_auto_ref.release, hv, hc, cookie_auto_ref.default_constructed]

omit [i_cookie_jar_item T] in
theorem release_not_valid (a : cookie_auto_ref) (hv : a.valid = false) : a.release = (a, []) := by
  simp [cookie_auto_ref.release, hv]

/-! ## Claims on the reference handle -/

omit [i_cookie_jar_item T] in
/-- C13: against the counting consumer, no sequence of handle operations (construct
from consumer and cookie, default construct, copy construct, move construct, copy
assign, move assign, destroy) ever fails with `invalid_release`, and after it the
use count of every consumer and cookie equals the number of live valid handles that
hold them. -/
theorem use_count_is_live_handles (ops : List handle_op) :
    match run_handles handle_world.start ops with
    | .done w =>
      ∀ consumer aCookie, w.counts (consumer, aCookie) = holders w.handles (consumer, aCookie)
    | .invalid_release => False
    | .no_such_handle => True := by
  have h := run_counted handle_world.start counts_match_start ops
  cases hr : run_handles handle_world.start ops with
  | done w =>
    rw [hr] at h
    intro consumer aCookie
    exact h (consumer, aCookie)
  | invalid_release => rw [hr] at h; exact h
  | no_such_handle => trivial

omit [i_cookie_jar_item T] in
/-- C14, as stated, fails: move construction from a valid handle calls `release` on
the consumer during the move. -/
theorem move_construct_calls_release :
    cookie_auto_ref.valid ⟨some 0, 5⟩ = true ∧
    consumer_call.release 0 5 ∈ (cookie_auto_ref.move_constructed ⟨some 0, 5⟩).calls := by
  decide

omit [i_cookie_jar_item T] in
/-- C14, amended: move construction from a valid source calls `add_ref(cookie)` and
then `release(cookie)` once each on the source's consumer, in this order; the new
handle holds the consumer and cookie of the source, the source is expired, and the
later destruction of the source makes no consumer call. -/
theorem move_construct_transfers (a : cookie_auto_ref) (hv : a.valid = true) :
    ∃ consumer, a.iConsumer = some consumer ∧
      a.move_constructed.calls
        = [.add_ref consumer a.iCookie, .release consumer a.iCookie] ∧
      a.move_constructed.created = a ∧
      a.move_constructed.source = cookie_auto_ref.default_constructed ∧
      a.move_constructed.source.expired = true ∧
      a.move_constructed.source.destructor = [] := by
  obtain ⟨consumer, hc, hne⟩ := (valid_iff a).mp hv
  have e1 : a.move_constructed.calls = a.add_ref ++ a.release.2 := rfl
  have e2 : a.move_constructed.source = a.release.1 := rfl
  rw [e1, e2, add_ref_valid a consumer hv hc, release_valid a consumer hv hc]
  exact ⟨consumer, hc, rfl, rfl, rfl, rfl, rfl⟩

omit [i_cookie_jar_item T] in
theorem released_expired (a : cookie_auto_ref) : a.release.1.expired = true := by
  by_cases hv : a.valid = true
  · obtain ⟨consumer, hc, _⟩ := (valid_iff a).mp hv
    rw [release_valid a consumer hv hc]
    rfl
  · have hv1 : a.valid = false := by simpa using hv
    rw [release_not_valid a hv1]
    simp [cookie_auto_ref.expired, hv1]

omit [i_cookie_jar_item T] in
theorem handle_at_set_self (handles : List (Option cookie_auto_ref)) (i : Nat)
    (a b : cookie_auto_ref) (h : handle_at handles i = some a) :
    handle_at (handles.set i (some b)) i = some b := by
  have hlt : i < handles.length := (List.getElem?_eq_some_iff.mp (handle_at_eq_some h)).1
  unfold handle_at
  rw [List.getElem?_set, if_pos rfl, if_pos hlt]

omit [i_cookie_jar_item T] in
theorem handle_at_append (handles : List (Option cookie_auto_ref)) (i : Nat)
    (a : cookie_auto_ref) (x : Option cookie_auto_ref) (h : handle_at handles i = some a) :
    handle_at (handles ++ [x]) i = some a := by
  have hs := handle_at_eq_some h
  have hlt : i < handles.length := (List.getElem?_eq_some_iff.mp hs).1
  unfold handle_at
  rw [List.getElem?_append_left hlt, hs]

omit [i_cookie_jar_item T] in
/-- C15, as stated, fails for a self-move-assignment: `operator=(cookie_auto_ref&&)`
returns at once when `&aOther == this`, so the handle that was moved from is still
valid. -/
theorem self_move_assign_keeps_valid :
    handle_op.perform [some ⟨some 0, 5⟩] (.move_assign 0 0) = some ([some ⟨some 0, 5⟩], []) ∧
    handle_at [some ⟨some 0, 5⟩] 0 = some ⟨some 0, 5⟩ ∧
    cookie_auto_ref.expired ⟨some 0, 5⟩ = false := by
  decide

omit [i_cookie_jar_item T] in
/-- C15, amended: a default-constructed handle is expired; after a move construction
the source is expired; after a move assignment into a different object the source
is expired, while a self-move-assignment leaves the handle as it was; `valid` is
true exactly when the consumer pointer is not null and the cookie is not
`no_cookie`, and `expired` is its negation. -/
theorem moved_from_is_expired (handles : List (Option cookie_auto_ref)) (target aOther : Nat)
    (a b : cookie_auto_ref) (ha : handle_at handles target = some a)
    (hb : handle_at handles aOther = some b) :
    cookie_auto_ref.default_constructed.expired = true ∧
    (∃ hs calls source, handle_op.perform handles (.move_construct aOther) = some (hs, calls) ∧
      handle_at hs aOther = some source ∧ source.expired = true) ∧
    (aOther ≠ target →
      ∃ hs calls source,
        handle_op.perform handles (.move_assign target aOther) = some (hs, calls) ∧
        handle_at hs aOther = some source ∧ source.expired = true) ∧
    handle_op.perform handles (.move_assign target target) = some (handles, []) ∧
    (a.valid = true ↔ a.iConsumer ≠ none ∧ a.iCookie ≠ no_cookie) ∧
    a.expired = !a.valid := by
  refine ⟨rfl, ?_, ?_, ?_, ?_, rfl⟩
  · refine ⟨_, _, b.release.1, by simp only [handle_op.perform, hb]; rfl, ?_, released_expired b⟩
    exact handle_at_append _ _ _ _ (handle_at_set_self _ _ _ _ hb)
  · intro hne
    refine ⟨_, _, b.release.1,
      by simp only [handle_op.perform, ha, hb, hne, if_false]; rfl, ?_, released_expired b⟩
    apply handle_at_set_self _ _ b
    unfold handle_at
    rw [List.getElem?_set_ne (Ne.symm hne), handle_at_eq_some hb]
  · simp only [handle_op.perform, ha, if_true]
  · rw [valid_iff]
    constructor
    · rintro ⟨consumer, hc, hne⟩
      exact ⟨by rw [hc]; simp, hne⟩
    · rintro ⟨hc, hne⟩
      cases h : a.iConsumer with
      | none => exact absurd h hc
      | some consumer => exact ⟨consumer, rfl, hne⟩

/-! ## Release ordering of the assignments -/

omit [i_cookie_jar_item T] in
theorem count_calls_net (counts counts1 : Nat × Nat → Nat) (t : List consumer_call)
    (h : count_calls counts t = some counts1) (key : Nat × Nat) :
    (counts1 key : Int) = counts key + net_calls key t := by
  induction t generalizing counts with
  | nil =>
    simp only [count_calls, Option.some.injEq] at h
    subst h
    simp [net_calls]
  | cons call calls ih =>
    simp only [count_calls] at h
    cases hc : counting_consumer counts call with
    | none => rw [hc] at h; cases h
    | some c1 =>
      rw [hc] at h
      have := ih c1 h
      rw [this]
      cases call with
      | add_ref consumer aCookie =>
        simp only [counting_consumer, Option.some.injEq] at hc
        subst hc
        simp only [net_calls]
        by_cases hk : (consumer, aCookie) = key
        · subst hk
          simp
          omega
        · rw [Function.update_noteq (Ne.symm hk), if_neg hk]
          omega
      | release consumer aCookie =>
        simp only [counting_consumer] at hc
        split at hc
        · cases hc
        · rename_i hpos
          simp only [Option.some.injEq] at hc
          subst hc
          simp only [net_calls]
          by_cases hk : (consumer, aCookie) = key
          · subst hk
            simp
            omega
          · rw [Function.update_noteq (Ne.symm hk), if_neg hk]
            omega

omit [i_cookie_jar_item T] in
theorem count_calls_take (counts counts1 : Nat × Nat → Nat) (t : List consumer_call)
    (h : count_calls counts t = some counts1) (n : Nat) :
    ∃ cn, count_calls counts (t.take n) = some cn := by
  induction t generalizing counts n with
  | nil => exact ⟨counts, by simp [count_calls]⟩
  | cons call calls ih =>
    cases n with
    | zero => exact ⟨counts, by simp [count_calls]⟩
    | succ m =>
      simp only [count_calls] at h
      cases hc : counting_consumer counts call with
      | none => rw [hc] at h; cases h
      | some c1 =>
        rw [hc] at h
        obtain ⟨cn, hcn⟩ := ih c1 h m
        exact ⟨cn, by simp only [List.take_succ_cons, count_calls, hc]; exact hcn⟩

omit [i_cookie_jar_item T] in
theorem take_flatten_pieces {α : Type} (pieces : List (List α))
    (h : ∀ x ∈ pieces, x.length ≤ 1) (n : Nat) :
    ∃ m, pieces.flatten.take n = (pieces.take m).flatten := by
  induction pieces generalizing n with
  | nil => exact ⟨0, by simp⟩
  | cons x xs ih =>
    have hx : x.length ≤ 1 := h x (List.mem_cons_self _ _)
    have hxs : ∀ y ∈ xs, y.length ≤ 1 := fun y hy => h y (List.mem_cons_of_mem _ hy)
    cases n with
    | zero => exact ⟨0, by simp⟩
    | succ k =>
      match x, hx with
      | [], _ =>
        obtain ⟨m, hm⟩ := ih hxs (k + 1)
        exact ⟨m + 1, by simpa using hm⟩
      | [c], _ =>
        obtain ⟨m, hm⟩ := ih hxs k
        exact ⟨m + 1, by simpa using hm⟩

omit [i_cookie_jar_item T] in
theorem net_calls_append (key : Nat × Nat) (t1 t2 : List consumer_call) :
    net_calls key (t1 ++ t2) = net_calls key t1 + net_calls key t2 := by
  induction t1 with
  | nil => simp [net_calls]
  | cons call calls ih =>
    cases call <;> simp only [List.cons_append, net_calls, List.append_eq, ih] <;> omega

omit [i_cookie_jar_item T] in
theorem net_add_ref (key : Nat × Nat) (a : cookie_auto_ref) :
    net_calls key a.add_ref = weight key (some a) := by
  by_cases hv : a.valid = true
  · obtain ⟨consumer, hc, _⟩ := (valid_iff a).mp hv
    rw [add_ref_valid a consumer hv hc]
    simp only [net_calls, weight, holds, hv, hc, Bool.true_and]
    by_cases hk : (consumer, a.iCookie) = key
    · subst hk; simp
    · rw [if_neg hk, if_neg]
      · simp
      · intro hh
        apply hk
        simp only [Bool.and_eq_true, beq_iff_eq, Option.some.injEq] at hh
        exact Prod.ext hh.1 hh.2
  · have hv1 : a.valid = false := by simpa using hv
    rw [add_ref_not_valid a hv1, weight_of_not_valid key a hv1]
    rfl

omit [i_cookie_jar_item T] in
theorem net_release (key : Nat × Nat) (a : cookie_auto_ref) :
    net_calls key a.release.2 = -(weight key (some a) : Int) := by
  by_cases hv : a.valid = true
  · obtain ⟨consumer, hc, _⟩ := (valid_iff a).mp hv
    rw [release_valid a consumer hv hc]
    simp only [net_calls, weight, holds, hv, hc, Bool.true_and]
    by_cases hk : (consumer, a.iCookie) = key
    · subst hk; simp
    · rw [if_neg hk, if_neg]
      · simp
      · intro hh
        apply hk
        simp only [Bool.and_eq_true, beq_iff_eq, Option.some.injEq] at hh
        exact Prod.ext hh.1 hh.2
  · have hv1 : a.valid = false := by simpa using hv
    rw [release_not_valid a hv1, weight_of_not_valid key a hv1]
    rfl

omit [i_cookie_jar_item T] in
theorem add_ref_length (a : cookie_auto_ref) : a.add_ref.length ≤ 1 := by
  unfold cookie_auto_ref.add_ref
  split
  · simp
  · split <;> simp

omit [i_cookie_jar_item T] in
theorem release_length (a : cookie_auto_ref) : a.release.2.length ≤ 1 := by
  unfold cookie_auto_ref.release
  split
  · simp
  · split <;> simp

omit [i_cookie_jar_item T] in
theorem copy_assign_net_prefix (a b : cookie_auto_ref) (key : Nat × Nat) (n : Nat) :
    min 0 (net_calls key (a.copy_assign b).calls)
      ≤ net_calls key ((a.copy_assign b).calls.take n) := by
  have e : (a.copy_assign b).calls
      = [a.add_ref, a.release.2, b.add_ref, a.release.2].flatten := by
    show ((a.add_ref ++ a.release.2) ++ b.add_ref) ++ a.release.2 = _
    simp
  obtain ⟨m, hm⟩ := take_flatten_pieces [a.add_ref, a.release.2, b.add_ref, a.release.2]
    (by
      intro x hx
      simp only [List.mem_cons, List.mem_singleton, List.not_mem_nil, or_false] at hx
      rcases hx with rfl | rfl | rfl | rfl
      · exact add_ref_length a
      · exact release_length a
      · exact add_ref_length b
      · exact release_length a) n
  rw [e, hm]
  have hA := net_add_ref key a
  have hB := net_add_ref key b
  have hRA := net_release key a
  rcases m with _ | _ | _ | _ | m <;>
    (simp [net_calls_append, net_calls, hA, hB, hRA]; try omega)

omit [i_cookie_jar_item T] in
theorem move_assign_net_prefix (a b : cookie_auto_ref) (key : Nat × Nat) (n : Nat) :
    min 0 (net_calls key (a.move_assign b).calls)
      ≤ net_calls key ((a.move_assign b).calls.take n) := by
  have e : (a.move_assign b).calls
      = [a.add_ref, a.release.2, b.add_ref, b.release.2, a.release.2].flatten := by
    show (((a.add_ref ++ a.release.2) ++ b.add_ref) ++ b.release.2) ++ a.release.2 = _
    simp
  obtain ⟨m, hm⟩ := take_flatten_pieces
    [a.add_ref, a.release.2, b.add_ref, b.release.2, a.release.2]
    (by
      intro x hx
      simp only [List.mem_cons, List.mem_singleton, List.not_mem_nil, or_false] at hx
      rcases hx with rfl | rfl | rfl | rfl | rfl
      · exact add_ref_length a
      · exact release_length a
      · exact add_ref_length b
      · exact release_length b
      · exact release_length a) n
  rw [e, hm]
  have hA := net_add_ref key a
  have hB := net_add_ref key b
  have hRA := net_release key a
  have hRB := net_release key b
  rcases m with _ | _ | _ | _ | _ | m <;>
    (simp [net_calls_append, net_calls, hA, hB, hRA, hRB]; try omega)

omit [i_cookie_jar_item T] in
theorem prefix_counts (w : handle_world) (hw : counts_match w) (op : handle_op)
    (hs : List (Option cookie_auto_ref)) (calls : List consumer_call)
    (hp : op.perform w.handles = some (hs, calls))
    (hnet : ∀ key n, min 0 (net_calls key calls) ≤ net_calls key (calls.take n)) :
    ∃ w1, op.step w = .done w1 ∧
      ∀ n, ∃ cn, count_calls w.counts (calls.take n) = some cn ∧
        ∀ key, min (w.counts key) (w1.counts key) ≤ cn key := by
  have hc := step_counted w hw op
  cases hcc : count_calls w.counts calls with
  | none =>
    simp only [handle_op.step, hp, hcc] at hc
    exact absurd hc (by simp [handle_outcome.counted])
  | some c1 =>
    refine ⟨{ handles := hs, counts := c1 }, step_of_perform w op hs calls c1 hp hcc, ?_⟩
    intro n
    obtain ⟨cn, hcn⟩ := count_calls_take _ _ _ hcc n
    refine ⟨cn, hcn, ?_⟩
    intro key
    have h1 := count_calls_net _ _ _ hcn key
    have h2 := count_calls_net _ _ _ hcc key
    have h3 := hnet key n
    show min (w.counts key) (c1 key) ≤ cn key
    omega

omit [i_cookie_jar_item T] in
/-- C16: for two distinct handle objects, at every point of the consumer call
sequence of a copy assignment and of a move assignment the use count of every
consumer and cookie, as kept by the counting consumer, is at least the smaller of
its value before and its value after the assignment, and no call fails; between two
valid handles the calls are `add_ref(old)`, `release(old)`, `add_ref(new)`, then for
a move `release(new)`, and last `release(old)`, so the new reference is acquired
before the old one is dropped; a self-assignment makes no consumer call and changes
no handle. -/
theorem assignment_release_order (w : handle_world) (target aOther : Nat)
    (a b : cookie_auto_ref) (hw : counts_match w)
    (ha : handle_at w.handles target = some a) (hb : handle_at w.handles aOther = some b) :
    (aOther ≠ target →
      ∀ op, op = handle_op.copy_assign target aOther ∨ op = handle_op.move_assign target aOther →
        ∃ hs calls w1, op.perform w.handles = some (hs, calls) ∧ op.step w = .done w1 ∧
          ∀ n, ∃ cn, count_calls w.counts (calls.take n) = some cn ∧
            ∀ key, min (w.counts key) (w1.counts key) ≤ cn key) ∧
    (a.valid = true → b.valid = true →
      ∃ ka kb, a.iConsumer = some ka ∧ b.iConsumer = some kb ∧
        (a.copy_assign b).calls
          = [.add_ref ka a.iCookie, .release ka a.iCookie, .add_ref kb b.iCookie,
              .release ka a.iCookie] ∧
        (a.move_assign b).calls
          = [.add_ref ka a.iCookie, .release ka a.iCookie, .add_ref kb b.iCookie,
              .release kb b.iCookie, .release ka a.iCookie]) ∧
    handle_op.perform w.handles (.copy_assign target target) = some (w.handles, []) ∧
    handle_op.perform w.handles (.move_assign target target) = some (w.handles, []) := by
  refine ⟨?_, ?_, ?_, ?_⟩
  · intro hne op hop
    rcases hop with rfl | rfl
    · have hp : handle_op.perform w.handles (.copy_assign target aOther)
          = some ((w.handles.set target (some b)).set aOther (some b), (a.copy_assign b).calls) := by
        simp only [handle_op.perform, ha, hb, hne, if_false]; rfl
      obtain ⟨w1, h1, h2⟩ := prefix_counts w hw _ _ _ hp
        (fun key n => copy_assign_net_prefix a b key n)
      exact ⟨_, _, w1, hp, h1, h2⟩
    · have hp : handle_op.perform w.handles (.move_assign target aOther)
          = some ((w.handles.set target (some b)).set aOther (some b.release.1),
              (a.move_assign b).calls) := by
        simp only [handle_op.perform, ha, hb, hne, if_false]; rfl
      obtain ⟨w1, h1, h2⟩ := prefix_counts w hw _ _ _ hp
        (fun key n => move_assign_net_prefix a b key n)
      exact ⟨_, _, w1, hp, h1, h2⟩
  · intro hva hvb
    obtain ⟨ka, hka, _⟩ := (valid_iff a).mp hva
    obtain ⟨kb, hkb, _⟩ := (valid_iff b).mp hvb
    refine ⟨ka, kb, hka, hkb, ?_, ?_⟩
    · show ((a.add_ref ++ a.release.2) ++ b.add_ref) ++ a.release.2 = _
      rw [add_ref_valid a ka hva hka, release_valid a ka hva hka, add_ref_valid b kb hvb hkb]
      rfl
    · show (((a.add_ref ++ a.release.2) ++ b.add_ref) ++ b.release.2) ++ a.release.2 = _
      rw [add_ref_valid a ka hva hka, release_valid a ka hva hka, add_ref_valid b kb hvb hkb,
        release_valid b kb hvb hkb]
      rfl
  · simp only [handle_op.perform, ha, if_true]
  · simp only [handle_op.perform, ha, if_true]

/-! ## Timers: the cancel pump -/

omit [i_cookie_jar_item T] in
theorem handler_cancelling (ready : timer → callback_outcome) (t : timer) (aError : Bool)
    (hc : t.iCancelling = true) (hin : t.iInReady = false) :
    t.handler ready aError = { ready_calls := 0, outcome := .returns { t with iWaiting := false } } := by
  simp [timer.handler, hc, hin]

omit [i_cookie_jar_item T] in
theorem deliver_cancelling (ready : timer → callback_outcome) (es : List Bool) (t : timer)
    (hc : t.iCancelling = true) (hin : t.iInReady = false) :
    timer.deliver ready es t
      = { ready_calls := 0
          outcome := .returns (if es = [] then t else { t with iWaiting := false }) } := by
  induction es generalizing t with
  | nil => simp [timer.deliver]
  | cons e rest ih =>
    simp only [timer.deliver, handler_cancelling ready t e hc hin]
    rw [ih { t with iWaiting := false } hc hin]
    by_cases hr : rest = [] <;> simp [hr]

omit [i_cookie_jar_item T] in
theorem cancel_loop_not_waiting (ready : timer → callback_outcome) (env : surroundings)
    (fuel : Nat) (t : timer) (hw : t.iWaiting = false) :
    timer.cancel_loop ready env fuel t = { ready_calls := 0, outcome := .returns t } := by
  cases fuel <;> simp [timer.cancel_loop, hw]

omit [i_cookie_jar_item T] in
/-- Outside `ready()` and when no other handler destroys the timer, one round of the
pump is enough: `cancel` returns without calling `ready()`. -/
theorem cancel_eq (ready : timer → callback_outcome) (env : surroundings) (fuel : Nat)
    (t : timer) (hin : t.iInReady = false) (hd : env.destroyed_in_io = false) :
    t.cancel ready env (fuel + 1)
      = { ready_calls := 0
          outcome := .returns
            (if t.iCancelling = true ∨ t.iWaiting = false then t
             else if t.iTimerObject.pending = 0 then t
             else if t.iDestroying = true ∧ env.uncaught_exception = true then
               { t with iCancelling := true, iTimerObject := t.iTimerObject.cancel.2 }
             else
               { t with
                 iWaiting := false
                 iCancelling := t.iDestroying
                 iTimerObject := { t.iTimerObject with pending := 0, posted := [] } }) } := by
  obtain ⟨⟨expiry, pending, posted⟩, dur, en, wa, ca, de, inr⟩ := t
  simp only at hin
  subst hin
  cases ca with
  | true => simp [timer.cancel]
  | false =>
    cases wa with
    | false => simp [timer.cancel]
    | true =>
      by_cases hp : pending = 0
      · subst hp
        simp [timer.cancel, deadline_timer.cancel]
      · by_cases hu : de = true ∧ env.uncaught_exception = true
        · simp [timer.cancel, deadline_timer.cancel, hp, hu]
        · have hu1 : (de && env.uncaught_exception) = false := by
            cases de <;> cases hx : env.uncaught_exception <;> simp_all
          have hne : posted ++ List.replicate pending true ≠ [] := by
            cases pending with
            | zero => exact absurd rfl hp
            | succ k => simp [List.replicate_succ]
          have hpump : timer.cancel_loop ready env (fuel + 1)
              { iTimerObject := { expiry := expiry, pending := 0,
                                  posted := posted ++ List.replicate pending true }
                iDuration_ms := dur, iEnabled := en, iWaiting := true, iCancelling := true
                iDestroying := de, iInReady := false }
              = { ready_calls := 0
                  outcome := .returns
                    { iTimerObject := { expiry := expiry, pending := 0, posted := [] }
                      iDuration_ms := dur, iEnabled := en, iWaiting := false
                      iCancelling := true, iDestroying := de, iInReady := false } } := by
            simp only [timer.cancel_loop, timer.do_io, if_true]
            rw [deliver_cancelling ready _ _ rfl rfl]
            simp only [hne, if_false, hd, Bool.false_eq_true]
            rw [cancel_loop_not_waiting ready env fuel _ rfl]
            rfl
          simp only [timer.cancel, deadline_timer.cancel, hp, hu1, Bool.false_eq_true, if_false,
            Bool.not_true, hpump]
          cases de <;> simp_all

omit [i_cookie_jar_item T] in
theorem handler_throws (ready : timer → callback_outcome) (t t1 : timer) (aError : Bool)
    (e : timer_failure) (h : (t.handler ready aError).outcome = .throws e t1) :
    e = .callback_failed := by
  unfold timer.handler at h
  dsimp only at h
  split at h
  · cases h
  · split at h
    · split at h <;> cases h
      rfl
    · cases h

omit [i_cookie_jar_item T] in
theorem deliver_throws (ready : timer → callback_outcome) (es : List Bool) (t t1 : timer)
    (e : timer_failure) (h : (timer.deliver ready es t).outcome = .throws e t1) :
    e = .callback_failed := by
  induction es generalizing t with
  | nil => simp [timer.deliver] at h
  | cons aError rest ih =>
    simp only [timer.deliver] at h
    cases ho : (t.handler ready aError).outcome with
    | returns t2 =>
      rw [ho] at h
      exact ih t2 h
    | throws e2 t2 =>
      rw [ho] at h
      simp only [timer_outcome.throws.injEq] at h
      rw [← h.1]
      exact handler_throws ready t t2 aError e2 ho
    | destroyed => rw [ho] at h; cases h
    | out_of_fuel => rw [ho] at h; cases h
    | undefined => rw [ho] at h; cases h

omit [i_cookie_jar_item T] in
theorem cancel_loop_throws (ready : timer → callback_outcome) (env : surroundings)
    (fuel : Nat) (t t1 : timer) (e : timer_failure)
    (h : (timer.cancel_loop ready env fuel t).outcome = .throws e t1) :
    e = .callback_failed := by
  induction fuel generalizing t with
  | zero =>
    simp only [timer.cancel_loop] at h
    split at h <;> cases h
  | succ k ih =>
    simp only [timer.cancel_loop] at h
    split at h
    · cases ho : (t.do_io ready).outcome with
      | returns t2 =>
        rw [ho] at h
        simp only at h
        split at h
        · cases h
        · exact ih t2 h
      | throws e2 t2 =>
        rw [ho] at h
        simp only [timer_outcome.throws.injEq] at h
        rw [← h.1]
        exact deliver_throws ready _ _ t2 e2 ho
      | destroyed => rw [ho] at h; cases h
      | out_of_fuel => rw [ho] at h; cases h
      | undefined => rw [ho] at h; cases h
    · cases h

omit [i_cookie_jar_item T] in
theorem cancel_throws (ready : timer → callback_outcome) (env : surroundings)
    (fuel : Nat) (t t1 : timer) (e : timer_failure)
    (h : (t.cancel ready env fuel).outcome = .throws e t1) :
    e = .callback_failed := by
  unfold timer.cancel at h
  split at h
  · cases h
  · split at h
    · cases h
    · simp only at h
      split at h
      · cases h
      · split at h
        · cases h
        · cases ho : (timer.cancel_loop ready env fuel
              { t with iCancelling := true, iTimerObject := t.iTimerObject.cancel.2 }).outcome with
          | returns t2 => rw [ho] at h; cases h
          | throws e2 t2 =>
            rw [ho] at h
            simp only [timer_outcome.throws.injEq] at h
            rw [← h.1]
            exact cancel_loop_throws ready env fuel _ t2 e2 ho
          | destroyed => rw [ho] at h; cases h
          | out_of_fuel => rw [ho] at h; cases h
          | undefined => rw [ho] at h; cases h

/-! ## Claims on the timer -/

omit [i_cookie_jar_item T] in
/-- C17: `again` throws `already_waiting` when the timer is waiting, throws
`in_cancel` when it is not waiting but cancelling, and otherwise arms the
asynchronous wait for the current duration (one more pending wait, expiry set to
`iDuration_ms`) and sets `iWaiting`; in all three cases the timer is enabled
afterwards and nothing else changes. -/
theorem again_spec (t : timer) :
    (t.iWaiting = true → t.again = .throws .already_waiting { t with iEnabled := true }) ∧
    (t.iWaiting = false → t.iCancelling = true →
      t.again = .throws .in_cancel { t with iEnabled := true }) ∧
    (t.iWaiting = false → t.iCancelling = false →
      t.again = .returns
        { t with
          iEnabled := true
          iWaiting := true
          iTimerObject :=
            { expiry := some t.iDuration_ms
              pending := 1
              posted := t.iTimerObject.posted ++ List.replicate t.iTimerObject.pending true } }) := by
  obtain ⟨⟨expiry, pending, posted⟩, dur, en, wa, ca, de, inr⟩ := t
  refine ⟨?_, ?_, ?_⟩
  · intro h
    simp only at h
    subst h
    cases en <;> simp [timer.again]
  · intro h1 h2
    simp only at h1 h2
    subst h1 h2
    cases en <;> simp [timer.again]
  · intro h1 h2
    simp only at h1 h2
    subst h1 h2
    cases en <;>
      simp [timer.again, deadline_timer.expires_from_now, deadline_timer.cancel,
        deadline_timer.async_wait]

omit [i_cookie_jar_item T] in
/-- C18, as stated, fails on a disabled timer that is still waiting. A timer is
armed, its wait expires before the handler has run, and `disable` is called: the
underlying `cancel()` finds nothing to cancel, so the timer is left disabled and
waiting. On it `enable(false)` returns with the timer waiting, not idle, and
`enable(true)` throws `already_waiting`. -/
theorem enable_on_disabled_waiting :
    sample_timer.again
      = .returns { sample_timer with iWaiting := true, iTimerObject := ⟨some 50, 1, []⟩ } ∧
    deadline_timer.expire ⟨some 50, 1, []⟩ = ⟨some 50, 0, [false]⟩ ∧
    timer.disable idle_callback ⟨false, false⟩ 1
        { sample_timer with iWaiting := true, iTimerObject := ⟨some 50, 0, [false]⟩ }
      = ⟨0, .returns { sample_timer with
          iEnabled := false, iWaiting := true, iTimerObject := ⟨some 50, 0, [false]⟩ }⟩ ∧
    timer.enable { sample_timer with
        iEnabled := false, iWaiting := true, iTimerObject := ⟨some 50, 0, [false]⟩ } false
      = .returns { sample_timer with
          iEnabled := true, iWaiting := true, iTimerObject := ⟨some 50, 0, [false]⟩ } ∧
    timer.enable { sample_timer with
        iEnabled := false, iWaiting := true, iTimerObject := ⟨some 50, 0, [false]⟩ } true
      = .throws .already_waiting { sample_timer with
          iEnabled := true, iWaiting := true, iTimerObject := ⟨some 50, 0, [false]⟩ } := by
  decide

omit [i_cookie_jar_item T] in
/-- C18, amended: `enable` throws `already_enabled` exactly when the timer is
enabled, and then leaves it as it was. On a disabled timer `enable(false)` sets
`iEnabled` and nothing else, and `enable(true)` sets `iEnabled` and goes on as
`again`: it arms the wait and sets `iWaiting` when the timer is neither waiting nor
cancelling, throws `already_waiting` when the timer is still waiting, and throws
`in_cancel` when it is not waiting but cancelling. -/
theorem enable_spec (t : timer) (aWait : Bool) :
    ((∃ t1, t.enable aWait = .throws .already_enabled t1) ↔ t.iEnabled = true) ∧
    (t.iEnabled = true → t.enable aWait = .throws .already_enabled t) ∧
    (t.iEnabled = false → t.enable false = .returns { t with iEnabled := true }) ∧
    (t.iEnabled = false → t.iWaiting = false → t.iCancelling = false →
      t.enable true = .returns
        { t with
          iEnabled := true
          iWaiting := true
          iTimerObject :=
            { expiry := some t.iDuration_ms
              pending := 1
              posted := t.iTimerObject.posted ++ List.replicate t.iTimerObject.pending true } }) ∧
    (t.iEnabled = false → t.iWaiting = true →
      t.enable true = .throws .already_waiting { t with iEnabled := true }) ∧
    (t.iEnabled = false → t.iWaiting = false → t.iCancelling = true →
      t.enable true = .throws .in_cancel { t with iEnabled := true }) := by
  obtain ⟨⟨expiry, pending, posted⟩, dur, en, wa, ca, de, inr⟩ := t
  refine ⟨?_, ?_, ?_, ?_, ?_, ?_⟩
  · cases en <;> cases aWait <;> cases wa <;> cases ca <;>
      simp [timer.enable, timer.again]
  · intro h
    simp only at h
    subst h
    simp [timer.enable]
  · intro h
    simp only at h
    subst h
    simp [timer.enable]
  · intro h1 h2 h3
    simp only at h1 h2 h3
    subst h1 h2 h3
    simp [timer.enable, timer.again, deadline_timer.expires_from_now, deadline_timer.cancel,
      deadline_timer.async_wait]
  · intro h1 h2
    simp only at h1 h2
    subst h1 h2
    simp [timer.enable, timer.again]
  · intro h1 h2 h3
    simp only at h1 h2 h3
    subst h1 h2 h3
    simp [timer.enable, timer.again]

omit [i_cookie_jar_item T] in
/-- C19: `disable` throws `already_disabled` exactly when the timer is disabled, and
then leaves it as it was. On an enabled timer that is not waiting it only clears
`iEnabled`; on an enabled timer that is waiting it calls `cancel` and, when that
returns, clears `iEnabled` in the state `cancel` left. When the call is not made from
inside `ready()` and no other handler destroys the timer, one round of the pump is
enough: `disable` returns without calling `ready()`, the timer is disabled, and the
wait is gone whenever the underlying `cancel()` found one to cancel. -/
theorem disable_spec (ready : timer → callback_outcome) (env : surroundings) (fuel : Nat)
    (t : timer) :
    ((∃ t1, (t.disable ready env fuel).outcome = .throws .already_disabled t1) ↔
      t.iEnabled = false) ∧
    (t.iEnabled = false →
      t.disable ready env fuel = { ready_calls := 0, outcome := .throws .already_disabled t }) ∧
    (t.iEnabled = true → t.iWaiting = false →
      t.disable ready env fuel
        = { ready_calls := 0, outcome := .returns { t with iEnabled := false } }) ∧
    (t.iEnabled = true → t.iWaiting = true →
      ∀ n t1, t.cancel ready env fuel = { ready_calls := n, outcome := .returns t1 } →
        t.disable ready env fuel
          = { ready_calls := n, outcome := .returns { t1 with iEnabled := false } }) ∧
    (t.iEnabled = true → t.iInReady = false → env.destroyed_in_io = false →
      ∃ t1, t.disable ready env (fuel + 1) = { ready_calls := 0, outcome := .returns t1 } ∧
        t1.iEnabled = false ∧
        (t.iCancelling = false → t.iTimerObject.pending ≠ 0 →
          ¬ (t.iDestroying = true ∧ env.uncaught_exception = true) → t1.iWaiting = false)) := by
  refine ⟨?_, ?_, ?_, ?_, ?_⟩
  · constructor
    · rintro ⟨t1, h⟩
      by_cases he : t.iEnabled = true
      · exfalso
        unfold timer.disable at h
        simp only [he, Bool.not_true, Bool.false_eq_true, if_false] at h
        by_cases hw : t.iWaiting = true
        · simp only [hw, if_true] at h
          cases ho : (t.cancel ready env fuel).outcome with
          | returns t2 => rw [ho] at h; cases h
          | throws e2 t2 =>
            rw [ho] at h
            have := cancel_throws ready env fuel t t2 e2 ho
            subst this
            cases h
          | destroyed => rw [ho] at h; cases h
          | out_of_fuel => rw [ho] at h; cases h
          | undefined => rw [ho] at h; cases h
        · simp [hw] at h
      · simpa using he
    · intro he
      exact ⟨t, by simp [timer.disable, he]⟩
  · intro he
    simp [timer.disable, he]
  · intro he hw
    simp [timer.disable, he, hw]
  · intro he hw n t1 hc
    simp [timer.disable, he, hw, hc]
  · intro he hin hd
    have hc := cancel_eq ready env fuel t hin hd
    by_cases hw : t.iWaiting = true
    · obtain ⟨tc, htc, hwc⟩ : ∃ tc,
          t.cancel ready env (fuel + 1) = { ready_calls := 0, outcome := .returns tc } ∧
          (t.iCancelling = false → t.iTimerObject.pending ≠ 0 →
            ¬ (t.iDestroying = true ∧ env.uncaught_exception = true) → tc.iWaiting = false) := by
        refine ⟨_, hc, ?_⟩
        intro hca hp hu
        simp [hca, hw, hp, hu]
      refine ⟨{ tc with iEnabled := false }, ?_, rfl, hwc⟩
      unfold timer.disable
      simp only [he, hw, Bool.not_true, Bool.false_eq_true, if_false, if_true]
      rw [htc]
    · have hw1 : t.iWaiting = false := by simpa using hw
      refine ⟨{ t with iEnabled := false }, by simp [timer.disable, he, hw1], rfl, ?_⟩
      intro _ _ _
      exact hw1

omit [i_cookie_jar_item T] in
/-- C20: called while `iInReady` is set, the completion handler changes nothing and
does not call `ready()`. Otherwise it clears `iWaiting` and calls `ready()` exactly
when the completion carries no error, the timer is enabled and it is not
cancelling; `ready()` then runs on the timer with `iWaiting` cleared and `iInReady`
set, and when it is not called the handler returns with only `iWaiting` cleared. -/
theorem handler_spec (ready : timer → callback_outcome) (t : timer) (aError : Bool) :
    (t.iInReady = true →
      t.handler ready aError = { ready_calls := 0, outcome := .returns t }) ∧
    (t.iInReady = false →
      ((t.handler ready aError).ready_calls = 1 ↔
        (aError = false ∧ t.iEnabled = true ∧ t.iCancelling = false)) ∧
      ((t.handler ready aError).ready_calls ≠ 1 →
        t.handler ready aError
          = { ready_calls := 0, outcome := .returns { t with iWaiting := false } }) ∧
      ((t.handler ready aError).ready_calls = 1 →
        (t.handler ready aError).outcome =
          match ready { t with iWaiting := false, iInReady := true } with
          | .returns t2 => .returns { t2 with iInReady := false }
          | .throws t2 => .throws .callback_failed { t2 with iInReady := false }
          | .destroyed => .destroyed
          | .destroyed_throws => .undefined)) := by
  obtain ⟨obj, dur, en, wa, ca, de, inr⟩ := t
  constructor
  · intro hin
    simp only at hin
    subst hin
    simp [timer.handler]
  · intro hin
    simp only at hin
    subst hin
    by_cases hcnd : aError = false ∧ en = true ∧ ca = false
    · obtain ⟨h1, h2, h3⟩ := hcnd
      subst h1 h2 h3
      have hres : timer.handler ready ⟨obj, dur, true, wa, false, de, false⟩ false
          = match ready ⟨obj, dur, true, false, false, de, true⟩ with
            | .returns t2 => { ready_calls := 1, outcome := .returns { t2 with iInReady := false } }
            | .throws t2 =>
              { ready_calls := 1
                outcome := .throws .callback_failed { t2 with iInReady := false } }
            | .destroyed => { ready_calls := 1, outcome := .destroyed }
            | .destroyed_throws => { ready_calls := 1, outcome := .undefined } := by
        simp [timer.handler]
      have hcalls : (timer.handler ready ⟨obj, dur, true, wa, false, de, false⟩ false).ready_calls
          = 1 := by
        rw [hres]
        generalize ready ⟨obj, dur, true, false, false, de, true⟩ = r
        cases r <;> rfl
      refine ⟨⟨fun _ => ⟨rfl, rfl, rfl⟩, fun _ => hcalls⟩, fun hne => absurd hcalls hne, ?_⟩
      intro _
      rw [hres]
      show _ = match ready ⟨obj, dur, true, false, false, de, true⟩ with
        | .returns t2 => timer_outcome.returns { t2 with iInReady := false }
        | .throws t2 => .throws .callback_failed { t2 with iInReady := false }
        | .destroyed => .destroyed
        | .destroyed_throws => .undefined
      generalize ready ⟨obj, dur, true, false, false, de, true⟩ = r
      cases r <;> rfl
    · have hcnd1 : (!aError && en && !ca) = false := by
        cases aError <;> cases en <;> cases ca <;> simp_all
      have hres : timer.handler ready ⟨obj, dur, en, wa, ca, de, false⟩ aError
          = { ready_calls := 0, outcome := .returns ⟨obj, dur, en, false, ca, de, false⟩ } := by
        simp [timer.handler, hcnd1]
      refine ⟨⟨fun h => ?_, fun h => absurd h hcnd⟩, fun _ => hres, fun h => ?_⟩
      · rw [hres] at h; cases h
      · rw [hres] at h; cases h

/-! ## Instances on the sample program and the sample timer -/

theorem scenario_add_remove_recycle_witness :
    item_cookie (⟨1, 10⟩ : labelled) = 1 ∧ item_cookie (⟨2, 20⟩ : labelled) = 2 ∧
    ∃ s1 s2 s3 s4 s5 s6 : cookie_jar labelled,
      (cookie_jar.constructed : cookie_jar labelled).next_cookie = .returns 1 s1 ∧
      s1.next_cookie = .returns 2 s2 ∧
      s2.add ⟨1, 10⟩ = .returns 0 s3 ∧
      s3.add ⟨2, 20⟩ = .returns 1 s4 ∧
      s4.remove 1 = .returns 0 s5 ∧
      s5.iJar = [⟨2, 20⟩] ∧ s5.iJar[0]? = some ⟨2, 20⟩ ∧
      s5.contains 1 = false ∧ s5.contains 2 = true ∧
      s5.operator_subscript 2 = .returns ⟨2, 20⟩ ∧
      s5.next_cookie = .returns 1 s6 :=
  ⟨by decide, by decide, scenario_add_remove_recycle ⟨1, 10⟩ ⟨2, 20⟩ (by decide) (by decide)⟩

omit [i_cookie_jar_item T] in
theorem move_construct_transfers_witness :
    cookie_auto_ref.valid ⟨some 0, 5⟩ = true ∧
    ∃ consumer, (⟨some 0, 5⟩ : cookie_auto_ref).iConsumer = some consumer ∧
      (cookie_auto_ref.move_constructed ⟨some 0, 5⟩).calls
        = [.add_ref consumer 5, .release consumer 5] ∧
      (cookie_auto_ref.move_constructed ⟨some 0, 5⟩).created = ⟨some 0, 5⟩ ∧
      (cookie_auto_ref.move_constructed ⟨some 0, 5⟩).source
        = cookie_auto_ref.default_constructed ∧
      (cookie_auto_ref.move_constructed ⟨some 0, 5⟩).source.expired = true ∧
      (cookie_auto_ref.move_constructed ⟨some 0, 5⟩).source.destructor = [] :=
  ⟨by decide, move_construct_transfers ⟨some 0, 5⟩ (by decide)⟩

omit [i_cookie_jar_item T] in
theorem moved_from_is_expired_witness :
    handle_at [some ⟨some 0, 5⟩, some ⟨some 0, 6⟩] 0 = some ⟨some 0, 5⟩ ∧
    handle_at [some ⟨some 0, 5⟩, some ⟨some 0, 6⟩] 1 = some ⟨some 0, 6⟩ ∧
    (1 ≠ 0 →
      ∃ hs calls source,
        handle_op.perform [some ⟨some 0, 5⟩, some ⟨some 0, 6⟩] (.move_assign 0 1)
          = some (hs, calls) ∧
        handle_at hs 1 = some source ∧ source.expired = true) :=
  ⟨by decide, by decide,
    (moved_from_is_expired [some ⟨some 0, 5⟩, some ⟨some 0, 6⟩] 0 1 ⟨some 0, 5⟩ ⟨some 0, 6⟩
      (by decide) (by decide)).2.2.1⟩

omit [i_cookie_jar_item T] in
theorem counts_match_sample_world : counts_match sample_world :=
  run_counted handle_world.start counts_match_start sample_program

omit [i_cookie_jar_item T] in
theorem assignment_release_order_witness :
    counts_match sample_world ∧
    handle_at sample_world.handles 0 = some ⟨some 0, 5⟩ ∧
    handle_at sample_world.handles 1 = some ⟨some 0, 6⟩ ∧
    (1 ≠ 0 →
      ∀ op, op = handle_op.copy_assign 0 1 ∨ op = handle_op.move_assign 0 1 →
        ∃ hs calls w1, op.perform sample_world.handles = some (hs, calls) ∧
          op.step sample_world = .done w1 ∧
          ∀ n, ∃ cn, count_calls sample_world.counts (calls.take n) = some cn ∧
            ∀ key, min (sample_world.counts key) (w1.counts key) ≤ cn key) ∧
    handle_op.perform sample_world.handles (.copy_assign 0 0) = some (sample_world.handles, []) :=
  ⟨counts_match_sample_world, by decide, by decide,
    (assignment_release_order sample_world 0 1 ⟨some 0, 5⟩ ⟨some 0, 6⟩
      counts_match_sample_world (by decide) (by decide)).1,
    (assignment_release_order sample_world 0 1 ⟨some 0, 5⟩ ⟨some 0, 6⟩
      counts_match_sample_world (by decide) (by decide)).2.2.1⟩

omit [i_cookie_jar_item T] in
theorem again_spec_witness :
    sample_timer.iWaiting = false ∧ sample_timer.iCancelling = false ∧
    sample_timer.again = .returns armed_timer :=
  ⟨rfl, rfl, (again_spec sample_timer).2.2 rfl rfl⟩

omit [i_cookie_jar_item T] in
theorem enable_spec_witness :
    ({ sample_timer with iEnabled := false } : timer).iEnabled = false ∧
    timer.enable { sample_timer with iEnabled := false } true = .returns armed_timer :=
  ⟨rfl, (enable_spec { sample_timer with iEnabled := false } true).2.2.2.1 rfl rfl rfl⟩

omit [i_cookie_jar_item T] in
theorem disable_spec_witness :
    armed_timer.iEnabled = true ∧ armed_timer.iInReady = false ∧
    ∃ t1, armed_timer.disable idle_callback ⟨false, false⟩ 1
        = { ready_calls := 0, outcome := .returns t1 } ∧
      t1.iEnabled = false ∧
      (armed_timer.iCancelling = false → armed_timer.iTimerObject.pending ≠ 0 →
        ¬ (armed_timer.iDestroying = true ∧
            (⟨false, false⟩ : surroundings).uncaught_exception = true) →
        t1.iWaiting = false) :=
  ⟨rfl, rfl, (disable_spec idle_callback ⟨false, false⟩ 0 armed_timer).2.2.2.2 rfl rfl rfl⟩

omit [i_cookie_jar_item T] in
theorem handler_spec_witness :
    armed_timer.iInReady = false ∧
    ((armed_timer.handler idle_callback false).ready_calls = 1 ↔
      (false = false ∧ armed_timer.iEnabled = true ∧ armed_timer.iCancelling = false)) :=
  ⟨rfl, ((handler_spec idle_callback armed_timer false).2 rfl).1⟩

/-! ## Claims on the timer, continued -/

omit [i_cookie_jar_item T] in
theorem handler_invoked (ready : timer → callback_outcome) (t : timer) (aError : Bool)
    (hin : t.iInReady = false) (he : aError = false) (hen : t.iEnabled = true)
    (hc : t.iCancelling = false) :
    t.handler ready aError =
      match ready { t with iWaiting := false, iInReady := true } with
      | .returns t2 => { ready_calls := 1, outcome := .returns { t2 with iInReady := false } }
      | .throws t2 =>
        { ready_calls := 1, outcome := .throws .callback_failed { t2 with iInReady := false } }
      | .destroyed => { ready_calls := 1, outcome := .destroyed }
      | .destroyed_throws => { ready_calls := 1, outcome := .undefined } := by
  obtain ⟨obj, dur, en, wa, ca, de, inr⟩ := t
  simp only at hin hen hc
  subst hin he hen hc
  simp [timer.handler]

omit [i_cookie_jar_item T] in
/-- C21: when `ready()` throws inside the completion handler (the timer being
alive), the handler throws on with `iInReady` reset to false in the state it leaves;
when `ready()` returns without destroying the timer, the handler returns with
`iInReady` false; and whatever the callback does, a state left by a throwing handler
has `iInReady` false. -/
theorem handler_restores_guard (ready : timer → callback_outcome) (t t2 : timer)
    (aError : Bool) (hin : t.iInReady = false) (he : aError = false)
    (hen : t.iEnabled = true) (hc : t.iCancelling = false) :
    (ready { t with iWaiting := false, iInReady := true } = .throws t2 →
      t.handler ready aError
        = { ready_calls := 1
            outcome := .throws .callback_failed { t2 with iInReady := false } }) ∧
    (ready { t with iWaiting := false, iInReady := true } = .returns t2 →
      t.handler ready aError
        = { ready_calls := 1, outcome := .returns { t2 with iInReady := false } }) ∧
    (∀ e t3, (t.handler ready aError).outcome = .throws e t3 → t3.iInReady = false) := by
  have h := handler_invoked ready t aError hin he hen hc
  refine ⟨?_, ?_, ?_⟩
  · intro hr
    rw [h, hr]
  · intro hr
    rw [h, hr]
  · intro e t3 ht
    rw [h] at ht
    cases hr : ready { t with iWaiting := false, iInReady := true } with
    | returns t4 => rw [hr] at ht; cases ht
    | throws t4 => rw [hr] at ht; cases ht; rfl
    | destroyed => rw [hr] at ht; cases ht
    | destroyed_throws => rw [hr] at ht; cases ht

omit [i_cookie_jar_item T] in
theorem handler_restores_guard_witness :
    armed_timer.iInReady = false ∧ armed_timer.iEnabled = true ∧
    armed_timer.iCancelling = false ∧
    timer.handler (fun t => callback_outcome.throws t) armed_timer false
      = { ready_calls := 1
          outcome := .throws .callback_failed { armed_timer with iWaiting := false } } :=
  ⟨rfl, rfl, rfl,
    (handler_restores_guard (fun t => callback_outcome.throws t) armed_timer
      { armed_timer with iWaiting := false, iInReady := true } false rfl rfl rfl rfl).1 rfl⟩

omit [i_cookie_jar_item T] in
/-- C22: a timer that is neither waiting nor cancelling nor being destroyed is armed
with `again()`, which leaves exactly one wait pending; `cancel()`, called before the
expiry from outside `ready()`, returns after one round of the pump without any call
of `ready()`, with `iWaiting` and `iCancelling` both false; a further `again()` then
returns with the timer waiting. -/
theorem cancel_before_expiry (ready : timer → callback_outcome) (env : surroundings)
    (fuel : Nat) (t : timer) (hw : t.iWaiting = false) (hc : t.iCancelling = false)
    (hd : t.iDestroying = false) (hin : t.iInReady = false)
    (he : env.destroyed_in_io = false) :
    ∃ t1 t2 t3, t.again = .returns t1 ∧ t1.iEnabled = true ∧ t1.iWaiting = true ∧
      t1.iTimerObject.pending = 1 ∧
      t1.cancel ready env (fuel + 1) = { ready_calls := 0, outcome := .returns t2 } ∧
      t2.iWaiting = false ∧ t2.iCancelling = false ∧ t2.iTimerObject.posted = [] ∧
      t2.again = .returns t3 ∧ t3.iWaiting = true ∧ t3.iTimerObject.pending = 1 := by
  obtain ⟨⟨expiry, pending, posted⟩, dur, en, wa, ca, de, inr⟩ := t
  simp only at hw hc hd hin
  subst hw hc hd hin
  refine ⟨⟨⟨some dur, 1, posted ++ List.replicate pending true⟩, dur, true, true, false, false,
      false⟩,
    ⟨⟨some dur, 0, []⟩, dur, true, false, false, false, false⟩,
    ⟨⟨some dur, 1, []⟩, dur, true, true, false, false, false⟩,
    ?_, rfl, rfl, rfl, ?_, rfl, rfl, rfl, ?_, rfl, rfl⟩
  · cases en <;>
      simp [timer.again, deadline_timer.expires_from_now, deadline_timer.cancel,
        deadline_timer.async_wait]
  · rw [cancel_eq ready env fuel _ rfl he]
    simp
  · simp [timer.again, deadline_timer.expires_from_now, deadline_timer.cancel,
      deadline_timer.async_wait]

omit [i_cookie_jar_item T] in
theorem cancel_before_expiry_witness :
    sample_timer.iWaiting = false ∧ sample_timer.iCancelling = false ∧
    sample_timer.iDestroying = false ∧ sample_timer.iInReady = false ∧
    ∃ t1 t2 t3, sample_timer.again = .returns t1 ∧ t1.iEnabled = true ∧ t1.iWaiting = true ∧
      t1.iTimerObject.pending = 1 ∧
      t1.cancel idle_callback ⟨false, false⟩ (0 + 1)
        = { ready_calls := 0, outcome := .returns t2 } ∧
      t2.iWaiting = false ∧ t2.iCancelling = false ∧ t2.iTimerObject.posted = [] ∧
      t2.again = .returns t3 ∧ t3.iWaiting = true ∧ t3.iTimerObject.pending = 1 :=
  ⟨rfl, rfl, rfl, rfl,
    cancel_before_expiry idle_callback ⟨false, false⟩ 0 sample_timer rfl rfl rfl rfl rfl⟩

omit [i_cookie_jar_item T] in
theorem handler_cancelling_any (ready : timer → callback_outcome) (t : timer) (aError : Bool)
    (hc : t.iCancelling = true) :
    t.handler ready aError
      = { ready_calls := 0
          outcome := .returns (if t.iInReady = true then t else { t with iWaiting := false }) } := by
  cases hin : t.iInReady <;> simp [timer.handler, hc, hin]

omit [i_cookie_jar_item T] in
theorem deliver_cancelling_any (ready : timer → callback_outcome) (es : List Bool) (t : timer)
    (hc : t.iCancelling = true) :
    ∃ t1, timer.deliver ready es t = { ready_calls := 0, outcome := .returns t1 } ∧
      t1.iCancelling = true ∧ t.configured_as t1 ∧ t1.iTimerObject = t.iTimerObject ∧
      (t1.iWaiting = t.iWaiting ∨ t1.iWaiting = false) := by
  induction es generalizing t with
  | nil => exact ⟨t, by simp [timer.deliver], hc, ⟨rfl, rfl, rfl, rfl⟩, rfl, Or.inl rfl⟩
  | cons e rest ih =>
    obtain ⟨obj, dur, en, wa, ca, de, inr⟩ := t
    simp only at hc
    subst hc
    cases inr with
    | true =>
      have hh : timer.handler ready ⟨obj, dur, en, wa, true, de, true⟩ e
          = { ready_calls := 0, outcome := .returns ⟨obj, dur, en, wa, true, de, true⟩ } := by
        simp [timer.handler]
      obtain ⟨t1, h1, h2, h3, h4, h5⟩ := ih ⟨obj, dur, en, wa, true, de, true⟩ rfl
      refine ⟨t1, ?_, h2, h3, h4, h5⟩
      simp only [timer.deliver, hh, h1, Nat.zero_add]
    | false =>
      have hh : timer.handler ready ⟨obj, dur, en, wa, true, de, false⟩ e
          = { ready_calls := 0, outcome := .returns ⟨obj, dur, en, false, true, de, false⟩ } := by
        simp [timer.handler]
      obtain ⟨t1, h1, h2, h3, h4, h5⟩ := ih ⟨obj, dur, en, false, true, de, false⟩ rfl
      refine ⟨t1, ?_, h2, h3, h4, Or.inr ?_⟩
      · simp only [timer.deliver, hh, h1, Nat.zero_add]
      · rcases h5 with h5 | h5 <;> exact h5

omit [i_cookie_jar_item T] in
theorem cancel_loop_shape (ready : timer → callback_outcome) (env : surroundings)
    (fuel : Nat) (t : timer) (hc : t.iCancelling = true) :
    (timer.cancel_loop ready env fuel t).ready_calls = 0 ∧
    ((timer.cancel_loop ready env fuel t).outcome = .destroyed ∨
      (timer.cancel_loop ready env fuel t).outcome = .out_of_fuel ∨
      ∃ t1, (timer.cancel_loop ready env fuel t).outcome = .returns t1 ∧
        t1.iWaiting = false ∧ t1.iCancelling = true ∧ t.configured_as t1) := by
  induction fuel generalizing t with
  | zero =>
    by_cases hw : t.iWaiting = true
    · simp [timer.cancel_loop, hw]
    · have hw1 : t.iWaiting = false := by simpa using hw
      simp only [timer.cancel_loop, hw1, Bool.false_eq_true, if_false, true_and]
      exact Or.inr (Or.inr ⟨t, rfl, hw1, hc, ⟨rfl, rfl, rfl, rfl⟩⟩)
  | succ k ih =>
    by_cases hw : t.iWaiting = true
    · obtain ⟨t1, h1, h2, h3, _, _⟩ := deliver_cancelling_any ready t.iTimerObject.posted
        { t with iTimerObject := { t.iTimerObject with posted := [] } } hc
      have hdo : t.do_io ready = { ready_calls := 0, outcome := .returns t1 } := h1
      have hstep : timer.cancel_loop ready env (k + 1) t
          = if env.destroyed_in_io = true then { ready_calls := 0, outcome := .destroyed }
            else
              { ready_calls := 0 + (timer.cancel_loop ready env k t1).ready_calls
                outcome := (timer.cancel_loop ready env k t1).outcome } := by
        simp only [timer.cancel_loop, hw, if_true, hdo]
      rw [hstep]
      by_cases hd : env.destroyed_in_io = true
      · simp [hd]
      · simp only [hd, if_false, Nat.zero_add]
        obtain ⟨g1, g2⟩ := ih t1 h2
        refine ⟨g1, ?_⟩
        rcases g2 with g2 | g2 | ⟨t2, g2, g3, g4, g5⟩
        · exact Or.inl g2
        · exact Or.inr (Or.inl g2)
        · refine Or.inr (Or.inr ⟨t2, g2, g3, g4, ?_⟩)
          obtain ⟨a1, a2, a3, a4⟩ := h3
          obtain ⟨b1, b2, b3, b4⟩ := g5
          exact ⟨b1.trans a1, b2.trans a2, b3.trans a3, b4.trans a4⟩
    · have hw1 : t.iWaiting = false := by simpa using hw
      rw [cancel_loop_not_waiting ready env (k + 1) t hw1]
      exact ⟨rfl, Or.inr (Or.inr ⟨t, rfl, hw1, hc, ⟨rfl, rfl, rfl, rfl⟩⟩)⟩

omit [i_cookie_jar_item T] in
/-- Whatever the callback and the surroundings, `cancel` never calls `ready()`, and it
either returns a timer with the same duration, `iEnabled`, `iDestroying` and
`iInReady`, or finds the timer destroyed, or its pump has not ended. -/
theorem cancel_shape (ready : timer → callback_outcome) (env : surroundings)
    (fuel : Nat) (t : timer) :
    (t.cancel ready env fuel).ready_calls = 0 ∧
    ((t.cancel ready env fuel).outcome = .destroyed ∨
      (t.cancel ready env fuel).outcome = .out_of_fuel ∨
      ∃ t1, (t.cancel ready env fuel).outcome = .returns t1 ∧ t.configured_as t1) := by
  obtain ⟨⟨expiry, pending, posted⟩, dur, en, wa, ca, de, inr⟩ := t
  cases ca with
  | true =>
    simp only [timer.cancel, if_true, true_and]
    exact Or.inr (Or.inr ⟨_, rfl, rfl, rfl, rfl, rfl⟩)
  | false =>
    cases wa with
    | false =>
      simp only [timer.cancel, Bool.false_eq_true, if_false, Bool.not_false, if_true, true_and]
      exact Or.inr (Or.inr ⟨_, rfl, rfl, rfl, rfl, rfl⟩)
    | true =>
      by_cases hp : pending = 0
      · simp only [timer.cancel, deadline_timer.cancel, hp, Bool.false_eq_true, if_false,
          Bool.not_true, if_true, true_and]
        exact Or.inr (Or.inr ⟨_, rfl, rfl, rfl, rfl, rfl⟩)
      · by_cases hu : (de && env.uncaught_exception) = true
        · simp only [timer.cancel, deadline_timer.cancel, hp, hu, Bool.false_eq_true, if_false,
            Bool.not_true, if_true, true_and]
          exact Or.inr (Or.inr ⟨_, rfl, rfl, rfl, rfl, rfl⟩)
        · obtain ⟨g1, g2⟩ := cancel_loop_shape ready env fuel
            ⟨⟨expiry, 0, posted ++ List.replicate pending true⟩, dur, en, true, true, de, inr⟩ rfl
          simp only [timer.cancel, deadline_timer.cancel, hp, hu, Bool.false_eq_true, if_false,
            Bool.not_true]
          generalize timer.cancel_loop ready env fuel
            ⟨⟨expiry, 0, posted ++ List.replicate pending true⟩, dur, en, true, true, de, inr⟩
            = r at g1 g2 ⊢
          obtain ⟨n, o⟩ := r
          simp only at g1 g2
          subst g1
          rcases g2 with g2 | g2 | ⟨t2, g2, g3, g4, b1, b2, b3, b4⟩
          · subst g2; exact ⟨rfl, Or.inl rfl⟩
          · subst g2; exact ⟨rfl, Or.inr (Or.inl rfl)⟩
          · subst g2
            refine ⟨rfl, Or.inr (Or.inr ⟨_, rfl, ?_⟩)⟩
            cases hd : t2.iDestroying
            · exact ⟨b1, b2, by simpa [hd] using b3, b4⟩
            · exact ⟨b1, b2, b3, b4⟩

omit [i_cookie_jar_item T] in
/-- C23: when a cancellation is in progress or the timer is not waiting, `cancel`
returns at once: `ready()` is not called, the timer object is not asked to cancel
(it is unchanged), and the duration and every flag are as before. -/
theorem cancel_noop (ready : timer → callback_outcome) (env : surroundings) (fuel : Nat)
    (t : timer) (h : t.iCancelling = true ∨ t.iWaiting = false) :
    t.cancel ready env fuel = { ready_calls := 0, outcome := .returns t } := by
  rcases h with h | h
  · simp [timer.cancel, h]
  · cases hc : t.iCancelling <;> simp [timer.cancel, h, hc]

omit [i_cookie_jar_item T] in
theorem cancel_noop_witness :
    sample_timer.iWaiting = false ∧
    sample_timer.cancel idle_callback ⟨false, false⟩ 1
      = { ready_calls := 0, outcome := .returns sample_timer } :=
  ⟨rfl, cancel_noop idle_callback ⟨false, false⟩ 1 sample_timer (Or.inr rfl)⟩

omit [i_cookie_jar_item T] in
/-- C24, as stated, fails on a waiting timer whose wait has expired before the
handler has run: the underlying `cancel()` finds nothing to cancel, `cancel`
returns with `iWaiting` still set, and the `again()` of `reset` throws
`already_waiting`. -/
theorem reset_after_expiry_throws :
    sample_timer.again = .returns armed_timer ∧
    expired_timer = { armed_timer with iTimerObject := ⟨some 50, 0, [false]⟩ } ∧
    expired_timer.iEnabled = true ∧ expired_timer.iCancelling = false ∧
    expired_timer.reset idle_callback ⟨false, false⟩ 1
      = { ready_calls := 0, outcome := .throws .already_waiting expired_timer } := by
  decide

omit [i_cookie_jar_item T] in
/-- C24, amended: `reset` is `cancel()` followed, unless the timer was destroyed
meanwhile, by `again()`. On a timer with no cancellation in progress: if it is not
waiting, or if it is waiting with a wait that can still be cancelled, the call being
made outside `ready()`, the timer not being destroyed and no other handler destroying
it, `reset` returns without calling `ready()` with the timer enabled and waiting, one
wait pending for the current duration; if it is waiting and the wait has already
completed, `reset` throws `already_waiting`. -/
theorem reset_spec (ready : timer → callback_outcome) (env : surroundings) (fuel : Nat)
    (t : timer) (hc : t.iCancelling = false) :
    (∀ n t1, t.cancel ready env fuel = { ready_calls := n, outcome := .returns t1 } →
      t.reset ready env fuel = { ready_calls := n, outcome := t1.again }) ∧
    ((t.cancel ready env fuel).outcome = .destroyed →
      (t.reset ready env fuel).outcome = .destroyed) ∧
    (t.iWaiting = false →
      t.reset ready env fuel
        = { ready_calls := 0
            outcome := .returns
              { t with
                iEnabled := true
                iWaiting := true
                iTimerObject :=
                  { expiry := some t.iDuration_ms
                    pending := 1
                    posted :=
                      t.iTimerObject.posted ++ List.replicate t.iTimerObject.pending true } } }) ∧
    (t.iWaiting = true → t.iTimerObject.pending ≠ 0 → t.iInReady = false →
      t.iDestroying = false → env.destroyed_in_io = false →
      t.reset ready env (fuel + 1)
        = { ready_calls := 0
            outcome := .returns
              { t with
                iEnabled := true
                iWaiting := true
                iTimerObject := { expiry := some t.iDuration_ms, pending := 1, posted := [] } } }) ∧
    (t.iWaiting = true → t.iTimerObject.pending = 0 →
      t.reset ready env fuel
        = { ready_calls := 0, outcome := .throws .already_waiting { t with iEnabled := true } }) := by
  obtain ⟨⟨expiry, pending, posted⟩, dur, en, wa, ca, de, inr⟩ := t
  simp only at hc
  subst hc
  refine ⟨?_, ?_, ?_, ?_, ?_⟩
  · intro n t1 h
    simp only [timer.reset, h]
  · intro h
    simp only [timer.reset, h]
  · intro hw
    simp only at hw
    subst hw
    cases en <;>
      simp [timer.reset, timer.cancel, timer.again, deadline_timer.expires_from_now,
        deadline_timer.cancel, deadline_timer.async_wait]
  · intro hw hp hin hd he
    simp only at hw hp hin hd
    subst hw hin hd
    have hcan := cancel_eq ready env fuel
      ⟨⟨expiry, pending, posted⟩, dur, en, true, false, false, false⟩ rfl he
    simp only [timer.reset, hcan]
    cases en <;>
      simp [hp, timer.again, deadline_timer.expires_from_now, deadline_timer.cancel,
        deadline_timer.async_wait]
  · intro hw hp
    simp only at hw hp
    subst hw hp
    cases en <;> simp [timer.reset, timer.cancel, timer.again, deadline_timer.cancel]

omit [i_cookie_jar_item T] in
theorem reset_spec_witness :
    armed_timer.iCancelling = false ∧ armed_timer.iWaiting = true ∧
    armed_timer.iTimerObject.pending ≠ 0 ∧
    armed_timer.reset idle_callback ⟨false, false⟩ (0 + 1)
      = { ready_calls := 0
          outcome := .returns
            { armed_timer with
              iEnabled := true
              iWaiting := true
              iTimerObject :=
                { expiry := some armed_timer.iDuration_ms, pending := 1, posted := [] } } } :=
  ⟨rfl, rfl, by decide,
    (reset_spec idle_callback ⟨false, false⟩ 0 armed_timer rfl).2.2.2.1 rfl (by decide) rfl rfl
      rfl⟩

omit [i_cookie_jar_item T] in
theorem again_keeps_duration (t t1 : timer) (h : t.again.state? = some t1) :
    t1.iDuration_ms = t.iDuration_ms := by
  obtain ⟨obj, dur, en, wa, ca, de, inr⟩ := t
  cases en <;> cases wa <;> cases ca <;>
    simp [timer.again, timer_outcome.state?] at h <;> subst h <;> rfl

omit [i_cookie_jar_item T] in
/-- C25, as stated, fails on a waiting timer whose wait has expired before the
handler has run: `set_duration(100, true)` sets the duration, the underlying
`cancel()` finds nothing to cancel, `iWaiting` stays set and `again()` throws
`already_waiting`; the timer is not re-armed on the new duration. -/
theorem set_duration_after_expiry_throws :
    sample_timer.again = .returns armed_timer ∧
    expired_timer = { armed_timer with iTimerObject := ⟨some 50, 0, [false]⟩ } ∧
    expired_timer.iWaiting = true ∧
    expired_timer.set_duration idle_callback ⟨false, false⟩ 1 100 true
      = { ready_calls := 0
          outcome := .throws .already_waiting { expired_timer with iDuration_ms := 100 } } ∧
    ({ expired_timer with iDuration_ms := 100 } : timer).iTimerObject.expiry = some 50 := by
  decide

omit [i_cookie_jar_item T] in
/-- C25, amended: whenever `set_duration` returns or throws, the duration is the new
one, and `ready()` has not been called. When the change is not to apply at once, or
the timer is not waiting, nothing else changes. When it is to apply at once and the
timer is waiting: with no cancellation in progress and a wait that can still be
cancelled (the call made outside `ready()`, the timer not being destroyed, no other
handler destroying it) the call returns with the timer enabled and waiting, one wait
pending for the new duration; with a cancellation in progress, or with a wait that
has already completed, `iWaiting` stays set and the call throws `already_waiting`. -/
theorem set_duration_spec (ready : timer → callback_outcome) (env : surroundings)
    (fuel : Nat) (t : timer) (aDuration_ms : Nat) (aEffectiveImmediately : Bool) :
    (∀ t1, (t.set_duration ready env fuel aDuration_ms aEffectiveImmediately).outcome.state?
        = some t1 → t1.iDuration_ms = aDuration_ms) ∧
    (t.set_duration ready env fuel aDuration_ms aEffectiveImmediately).ready_calls = 0 ∧
    (aEffectiveImmediately = false ∨ t.iWaiting = false →
      t.set_duration ready env fuel aDuration_ms aEffectiveImmediately
        = { ready_calls := 0, outcome := .returns { t with iDuration_ms := aDuration_ms } }) ∧
    (t.iWaiting = true → t.iCancelling = false → t.iTimerObject.pending ≠ 0 →
      t.iInReady = false → t.iDestroying = false → env.destroyed_in_io = false →
      t.set_duration ready env (fuel + 1) aDuration_ms true
        = { ready_calls := 0
            outcome := .returns
              { t with
                iDuration_ms := aDuration_ms
                iEnabled := true
                iWaiting := true
                iTimerObject := { expiry := some aDuration_ms, pending := 1, posted := [] } } }) ∧
    (t.iWaiting = true → (t.iCancelling = true ∨ t.iTimerObject.pending = 0) →
      t.set_duration ready env fuel aDuration_ms true
        = { ready_calls := 0
            outcome := .throws .already_waiting
              { t with iDuration_ms := aDuration_ms, iEnabled := true } }) := by
  refine ⟨?_, ?_, ?_, ?_, ?_⟩
  · intro t1 h
    by_cases hcnd : (aEffectiveImmediately && t.iWaiting) = true
    · obtain ⟨_, g2⟩ := cancel_shape ready env fuel { t with iDuration_ms := aDuration_ms }
      simp only [timer.set_duration, hcnd, if_true] at h
      rcases g2 with g2 | g2 | ⟨t2, g2, b1, _, _, _⟩
      · rw [g2] at h; cases h
      · rw [g2] at h; cases h
      · rw [g2] at h
        exact (again_keeps_duration t2 t1 h).trans b1
    · simp only [timer.set_duration, hcnd, if_false, Bool.false_eq_true, timer_outcome.state?,
        Option.some.injEq] at h
      subst h
      rfl
  · by_cases hcnd : (aEffectiveImmediately && t.iWaiting) = true
    · obtain ⟨g1, g2⟩ := cancel_shape ready env fuel { t with iDuration_ms := aDuration_ms }
      simp only [timer.set_duration, hcnd, if_true]
      rcases g2 with g2 | g2 | ⟨t2, g2, _⟩ <;> rw [g2] <;> exact g1
    · simp only [timer.set_duration, hcnd, if_false, Bool.false_eq_true]
  · intro h
    have hcnd : (aEffectiveImmediately && t.iWaiting) = false := by
      rcases h with h | h <;> simp [h]
    simp only [timer.set_duration, hcnd, Bool.false_eq_true, if_false]
  · intro hw hc hp hin hd he
    obtain ⟨⟨expiry, pending, posted⟩, dur, en, wa, ca, de, inr⟩ := t
    simp only at hw hc hp hin hd
    subst hw hc hin hd
    have hcan := cancel_eq ready env fuel
      ⟨⟨expiry, pending, posted⟩, aDuration_ms, en, true, false, false, false⟩ rfl he
    simp only [timer.set_duration, Bool.and_self, if_true, hcan]
    cases en <;>
      simp [hp, timer.again, deadline_timer.expires_from_now, deadline_timer.cancel,
        deadline_timer.async_wait]
  · intro hw h
    obtain ⟨⟨expiry, pending, posted⟩, dur, en, wa, ca, de, inr⟩ := t
    simp only at hw h
    subst hw
    rcases h with h | h
    · subst h
      cases en <;> simp [timer.set_duration, timer.cancel, timer.again]
    · subst h
      cases en <;> cases ca <;>
        simp [timer.set_duration, timer.cancel, timer.again, deadline_timer.cancel]

omit [i_cookie_jar_item T] in
theorem set_duration_spec_witness :
    armed_timer.iWaiting = true ∧ armed_timer.iCancelling = false ∧
    armed_timer.iTimerObject.pending ≠ 0 ∧
    armed_timer.set_duration idle_callback ⟨false, false⟩ (0 + 1) 20 true
      = { ready_calls := 0
          outcome := .returns
            { armed_timer with
              iDuration_ms := 20
              iEnabled := true
              iWaiting := true
              iTimerObject := { expiry := some 20, pending := 1, posted := [] } } } :=
  ⟨rfl, rfl, by decide,
    (set_duration_spec idle_callback ⟨false, false⟩ 0 armed_timer 20 true).2.2.2.1 rfl rfl
      (by decide) rfl rfl rfl⟩

omit [i_cookie_jar_item T] in
/-- C26: `again_if` on a waiting timer returns and changes nothing; on a timer that is
not waiting it is `again()`; it never throws `already_waiting`; and called again on
the state the first call left, whether that call returned or threw, it leaves that
same state. -/
theorem again_if_spec (t : timer) :
    (t.iWaiting = true → t.again_if = .returns t) ∧
    (t.iWaiting = false → t.again_if = t.again) ∧
    (∀ t1, t.again_if ≠ .throws .already_waiting t1) ∧
    (∀ t1, t.again_if.state? = some t1 → t1.again_if.state? = some t1) := by
  obtain ⟨⟨expiry, pending, posted⟩, dur, en, wa, ca, de, inr⟩ := t
  refine ⟨?_, ?_, ?_, ?_⟩
  · intro h
    simp only at h
    subst h
    simp [timer.again_if]
  · intro h
    simp only at h
    subst h
    simp [timer.again_if]
  · intro t1
    cases en <;> cases wa <;> cases ca <;> simp [timer.again_if, timer.again]
  · intro t1 h
    cases en <;> cases wa <;> cases ca <;>
      simp [timer.again_if, timer.again, timer_outcome.state?] at h <;> subst h <;>
      simp [timer.again_if, timer.again, timer_outcome.state?]

omit [i_cookie_jar_item T] in
theorem again_if_spec_witness :
    armed_timer.iWaiting = true ∧ armed_timer.again_if = .returns armed_timer ∧
    sample_timer.iWaiting = false ∧ sample_timer.again_if = sample_timer.again :=
  ⟨rfl, (again_if_spec armed_timer).1 rfl, rfl, (again_if_spec sample_timer).2.1 rfl⟩

omit [i_cookie_jar_item T] in
/-- C27, as stated, fails for a source that is disabled and still waiting (the state
`disable` leaves when the wait has expired before the handler has run): the copy is
armed by `again()`, which enables it, so the copy does not have the enabled flag of
the source. -/
theorem copy_of_disabled_waiting_is_enabled :
    timer.disable idle_callback ⟨false, false⟩ 1 expired_timer
      = { ready_calls := 0, outcome := .returns { expired_timer with iEnabled := false } } ∧
    ({ expired_timer with iEnabled := false } : timer).iWaiting = true ∧
    timer.copy_constructed { expired_timer with iEnabled := false } = .returns armed_timer ∧
    armed_timer.iEnabled = true := by
  decide

omit [i_cookie_jar_item T] in
/-- C27, amended: the copy constructor always returns; the copy has the duration of
the source and `iCancelling`, `iDestroying` and `iInReady` false; it is waiting
exactly when the source is waiting, then with one wait pending for that duration on
a timer object of its own; it has the enabled flag of the source when the source is
not waiting, and is enabled when the source is waiting. The source is an argument
that the constructor only reads. -/
theorem copy_constructed_spec (aOther : timer) :
    ∃ created, aOther.copy_constructed = .returns created ∧
      created.iDuration_ms = aOther.iDuration_ms ∧
      created.iCancelling = false ∧ created.iDestroying = false ∧ created.iInReady = false ∧
      created.iWaiting = aOther.iWaiting ∧
      created.iEnabled = (aOther.iEnabled || aOther.iWaiting) ∧
      created.iTimerObject =
        (if aOther.iWaiting = true then
          { expiry := some aOther.iDuration_ms, pending := 1, posted := [] }
         else { expiry := none, pending := 0, posted := [] }) := by
  obtain ⟨obj, dur, en, wa, ca, de, inr⟩ := aOther
  cases en <;> cases wa <;>
    simp [timer.copy_constructed, timer.again, deadline_timer.expires_from_now,
      deadline_timer.cancel, deadline_timer.async_wait]

/-! ## Claims on the event -/

omit [i_cookie_jar_item T] in
theorem wait_until_ready_ready (e woken : event) (founds : List event)
    (h : event.wait_until_ready e founds = some woken) : woken.iReady = true := by
  induction founds generalizing e with
  | nil =>
    simp only [event.wait_until_ready] at h
    split at h
    · cases h; assumption
    · cases h
  | cons found rest ih =>
    simp only [event.wait_until_ready] at h
    split at h
    · cases h; assumption
    · exact ih found h

omit [i_cookie_jar_item T] in
theorem wait_until_ready_of_ready (e : event) (founds : List event) (h : e.iReady = true) :
    event.wait_until_ready e founds = some e := by
  cases founds <;> simp [event.wait_until_ready, h]

omit [i_cookie_jar_item T] in
/-- C28: when `wait()` returns, the event the waiter woke up on is ready; the waiter
count is one less than at the wake-up, which is its value before the call when no
other waiter came or went meanwhile; the ready flag is false if the signal kind is
`SignalOne` or no other waiter remains, and still true otherwise; the signal kind is
untouched. When the event is ready on entry the call does not block. After
`signal_one()` a `wait()` returns at once with the flag reset and the count as
before, and a following `wait(0)` whose `timed_wait` times out returns false. -/
theorem wait_auto_reset (e : event) (founds : List event) (woken : event)
    (h : event.wait_until_ready e.wait_enter founds = some woken) :
    woken.iReady = true ∧
    e.wait founds = some woken.wait_leave ∧
    woken.wait_leave.iTotalWaiting = woken.iTotalWaiting - 1 ∧
    (woken.iTotalWaiting = e.iTotalWaiting + 1 →
      woken.wait_leave.iTotalWaiting = e.iTotalWaiting) ∧
    (woken.iSignalType = .SignalOne ∨ woken.iTotalWaiting - 1 = 0 →
      woken.wait_leave.iReady = false) ∧
    (woken.iSignalType = .SignalAll → woken.iTotalWaiting - 1 ≠ 0 →
      woken.wait_leave.iReady = true) ∧
    woken.wait_leave.iSignalType = woken.iSignalType ∧
    (e.iReady = true → woken = e.wait_enter) ∧
    (∀ (e0 : event) (founds0 : List event) (w : wake), w.notified = false →
      ∃ e1, e0.signal_one.wait founds0 = some e1 ∧ e1.iReady = false ∧
        e1.iTotalWaiting = e0.iTotalWaiting ∧ (e1.wait_for w).1 = false) := by
  have hr := wait_until_ready_ready _ _ _ h
  obtain ⟨r, k, n⟩ := woken
  simp only at hr
  subst hr
  refine ⟨rfl, by simp [event.wait, h], ?_, ?_, ?_, ?_, ?_, ?_, ?_⟩
  · simp only [event.wait_leave]
    split <;> rfl
  · intro hn
    simp only at hn
    subst hn
    simp only [event.wait_leave]
    split <;> simp
  · intro hk
    simp [event.wait_leave, hk]
  · intro hk hn
    simp only at hk hn
    subst hk
    simp [event.wait_leave, hn]
  · simp only [event.wait_leave]
    split <;> rfl
  · intro he
    have := wait_until_ready_of_ready e.wait_enter founds (by simpa [event.wait_enter] using he)
    rw [this] at h
    exact (Option.some.inj h).symm
  · intro e0 founds0 w hw
    obtain ⟨r0, k0, n0⟩ := e0
    refine ⟨⟨false, .SignalOne, n0⟩, ?_, rfl, rfl, ?_⟩
    · simp [event.wait, event.signal_one, event.wait_enter, wait_until_ready_of_ready,
        event.wait_leave]
    · simp only [event.wait_for, event.wait_enter, hw]
      simp
      split <;> rfl

omit [i_cookie_jar_item T] in
theorem wait_auto_reset_witness :
    event.wait_until_ready (event.wait_enter ⟨false, .SignalAll, 1⟩) [⟨true, .SignalAll, 2⟩]
      = some ⟨true, .SignalAll, 2⟩ ∧
    event.wait ⟨false, .SignalAll, 1⟩ [⟨true, .SignalAll, 2⟩]
      = some (event.wait_leave ⟨true, .SignalAll, 2⟩) ∧
    (event.wait_leave ⟨true, .SignalAll, 2⟩).iReady = true ∧
    (event.wait_leave ⟨true, .SignalAll, 2⟩).iTotalWaiting = 1 :=
  ⟨by decide,
    (wait_auto_reset ⟨false, .SignalAll, 1⟩ [⟨true, .SignalAll, 2⟩] ⟨true, .SignalAll, 2⟩
      (by decide)).2.1,
    (wait_auto_reset ⟨false, .SignalAll, 1⟩ [⟨true, .SignalAll, 2⟩] ⟨true, .SignalAll, 2⟩
      (by decide)).2.2.2.2.2.1 rfl (by decide),
    (wait_auto_reset ⟨false, .SignalAll, 1⟩ [⟨true, .SignalAll, 2⟩] ⟨true, .SignalAll, 2⟩
      (by decide)).2.2.2.1 rfl⟩

omit [i_cookie_jar_item T] in
/-- C29: evaluation at the failing input. A lone waiter enters `wait(timeout)` on an
event that is not ready; `timed_wait` returns false (the time was reached), and
when the waiter holds the mutex again the event has been signalled by another
thread: the call returns false and resets the ready flag, although it timed out.
`wait()` on the same wake-up state with another waiter registered keeps the flag,
and so does `wait(timeout)` when another waiter remains. -/
theorem timed_wait_timeout_resets_ready :
    event.wait_for ⟨false, .SignalAll, 0⟩ ⟨false, ⟨true, .SignalAll, 1⟩⟩
      = (false, ⟨false, .SignalAll, 0⟩) ∧
    event.wait_for ⟨false, .SignalAll, 1⟩ ⟨false, ⟨true, .SignalAll, 2⟩⟩
      = (false, ⟨true, .SignalAll, 1⟩) ∧
    event.wait_leave ⟨true, .SignalAll, 2⟩ = ⟨true, .SignalAll, 1⟩ := by
  decide

omit [i_cookie_jar_item T] in
/-- C30: in each round of both `msg_wait` loops `wait(0)` comes first, so a round that
finds the event ready returns true whether or not a message is pending; a round
that finds it not ready, with the `timed_wait` of `wait(0)` timing out, returns
false when the queue has a message; the timed loop then returns false when the
elapsed time exceeds the timeout; otherwise the round sleeps and the loop goes on
with the next round. -/
theorem msg_wait_rounds (e : event) (w : wake) (have_message : Bool)
    (elapsed_ms aTimeout_ms : Nat) (r : msg_round) (rounds : List msg_round) :
    (e.iReady = true →
      e.msg_poll w have_message = .returned true (e.wait_for w).2 ∧
      e.msg_poll_timed w have_message elapsed_ms aTimeout_ms
        = .returned true (e.wait_for w).2) ∧
    (e.iReady = false → w.notified = false →
      e.msg_poll w true = .returned false (e.wait_for w).2 ∧
      e.msg_poll_timed w true elapsed_ms aTimeout_ms = .returned false (e.wait_for w).2 ∧
      e.msg_poll w false = .sleeps (e.wait_for w).2 ∧
      (aTimeout_ms < elapsed_ms →
        e.msg_poll_timed w false elapsed_ms aTimeout_ms = .returned false (e.wait_for w).2) ∧
      (elapsed_ms ≤ aTimeout_ms →
        e.msg_poll_timed w false elapsed_ms aTimeout_ms = .sleeps (e.wait_for w).2)) ∧
    (∀ e1, (r.others e).msg_poll r.wake r.have_message = .sleeps e1 →
      e.msg_wait (r :: rounds) = e1.msg_wait rounds) ∧
    (∀ result e1, (r.others e).msg_poll r.wake r.have_message = .returned result e1 →
      e.msg_wait (r :: rounds) = some (result, e1)) ∧
    (∀ e1, (r.others e).msg_poll_timed r.wake r.have_message r.elapsed_ms aTimeout_ms
        = .sleeps e1 →
      e.msg_wait_timed aTimeout_ms (r :: rounds) = e1.msg_wait_timed aTimeout_ms rounds) ∧
    (∀ result e1,
      (r.others e).msg_poll_timed r.wake r.have_message r.elapsed_ms aTimeout_ms
        = .returned result e1 →
      e.msg_wait_timed aTimeout_ms (r :: rounds) = some (result, e1)) := by
  have hready : e.iReady = true → (e.wait_for w).1 = true := by
    intro h
    simp only [event.wait_for, event.wait_enter, h]
    simp
    split <;> rfl
  have hnot : e.iReady = false → w.notified = false → (e.wait_for w).1 = false := by
    intro h hw
    simp only [event.wait_for, event.wait_enter, h, hw]
    simp
    split <;> rfl
  refine ⟨?_, ?_, ?_, ?_, ?_, ?_⟩
  · intro h
    simp [event.msg_poll, event.msg_poll_timed, hready h]
  · intro h hw
    refine ⟨?_, ?_, ?_, ?_, ?_⟩
    · simp [event.msg_poll, hnot h hw]
    · simp [event.msg_poll_timed, hnot h hw]
    · simp [event.msg_poll, hnot h hw]
    · intro ht
      simp [event.msg_poll_timed, hnot h hw, ht]
    · intro ht
      have : ¬ elapsed_ms > aTimeout_ms := by omega
      simp [event.msg_poll_timed, hnot h hw, this]
  · intro e1 h
    simp only [event.msg_wait, h]
  · intro result e1 h
    simp only [event.msg_wait, h]
  · intro e1 h
    simp only [event.msg_wait_timed, h]
  · intro result e1 h
    simp only [event.msg_wait_timed, h]

omit [i_cookie_jar_item T] in
theorem msg_wait_rounds_witness :
    (⟨true, .SignalOne, 0⟩ : event).iReady = true ∧
    event.msg_poll ⟨true, .SignalOne, 0⟩ ⟨false, ⟨true, .SignalOne, 1⟩⟩ true
      = .returned true
          (event.wait_for ⟨true, .SignalOne, 0⟩ ⟨false, ⟨true, .SignalOne, 1⟩⟩).2 ∧
    (⟨false, .SignalOne, 0⟩ : event).iReady = false ∧
    event.msg_poll ⟨false, .SignalOne, 0⟩ ⟨false, ⟨false, .SignalOne, 1⟩⟩ true
      = .returned false
          (event.wait_for ⟨false, .SignalOne, 0⟩ ⟨false, ⟨false, .SignalOne, 1⟩⟩).2 :=
  ⟨rfl,
    ((msg_wait_rounds ⟨true, .SignalOne, 0⟩ ⟨false, ⟨true, .SignalOne, 1⟩⟩ true 0 0
      ⟨id, ⟨false, ⟨true, .SignalOne, 1⟩⟩, true, 0⟩ []).1 rfl).1,
    rfl,
    ((msg_wait_rounds ⟨false, .SignalOne, 0⟩ ⟨false, ⟨false, .SignalOne, 1⟩⟩ true 0 0
      ⟨id, ⟨false, ⟨false, .SignalOne, 1⟩⟩, true, 0⟩ []).2.1 rfl rfl).1⟩

/-! ## Further claims on the registry and the timer -/

/-- C34: whenever `add` throws, the exception is `cookie_already_added`, the item's
cookie is live, and the state left is the state before the call: the jar, the
reverse-index table with its size, the free list and the counter are unchanged. -/
theorem add_failure_atomic (s s1 : cookie_jar T) (aItem : T) (e : failure)
    (h : s.add aItem = .throws e s1) :
    e = .cookie_already_added ∧ s1 = s ∧ s.contains (item_cookie aItem) = true ∧
    s1.iJar = s.iJar ∧ s1.iReverseIndices = s.iReverseIndices ∧
    s1.iReverseIndices.length = s.iReverseIndices.length ∧
    s1.iFreeCookies = s.iFreeCookies ∧ s1.iNextAvailableCookie = s.iNextAvailableCookie := by
  have hlt : item_cookie aItem < 4294967296 := i_cookie_jar_item.cookie_lt aItem
  have key : e = .cookie_already_added ∧ s1 = s ∧ s.contains (item_cookie aItem) = true := by
    by_cases hlen : s.iReverseIndices.length ≤ item_cookie aItem
    · exfalso
      simp only [cookie_jar.add, hlen, if_true] at h
      by_cases hw : item_cookie aItem + 1 < 4294967296
      · have hidx : (resize s.iReverseIndices ((item_cookie aItem + 1) % 4294967296)
            INVALID_REVERSE_INDEX)[item_cookie aItem]? = some INVALID_REVERSE_INDEX := by
          rw [Nat.mod_eq_of_lt hw]
          simp only [resize]
          rw [List.take_of_length_le (by omega), List.getElem?_append_right hlen,
            List.getElem?_replicate]
          have : item_cookie aItem - s.iReverseIndices.length
              < item_cookie aItem + 1 - s.iReverseIndices.length := by omega
          simp [this]
        rw [hidx] at h
        simp at h
      · have hz : (item_cookie aItem + 1) % 4294967296 = 0 := by omega
        rw [hz] at h
        simp [resize] at h
    · simp only [cookie_jar.add, hlen, if_false] at h
      cases hidx : s.iReverseIndices[item_cookie aItem]? with
      | none => rw [hidx] at h; cases h
      | some r =>
        rw [hidx] at h
        simp only at h
        split at h
        · rename_i hr
          cases h
          refine ⟨rfl, rfl, ?_⟩
          exact (contains_eq_true_iff s _).2 ⟨r, hidx, hr⟩
        · cases h
  obtain ⟨h1, h2, h3⟩ := key
  subst h2
  exact ⟨h1, rfl, h3, rfl, rfl, rfl, rfl, rfl⟩

theorem add_failure_atomic_witness :
    sample_registry.add (⟨1, 99⟩ : labelled) = .throws .cookie_already_added sample_registry ∧
    sample_registry.contains (item_cookie (⟨1, 99⟩ : labelled)) = true :=
  ⟨by decide,
    (add_failure_atomic sample_registry sample_registry ⟨1, 99⟩ .cookie_already_added
      (by decide)).2.2.1⟩

omit [i_cookie_jar_item T] in
/-- C35, as stated, fails in the branch where the underlying `cancel()` finds no wait
to cancel: for a waiting timer whose wait has expired before the handler has run,
`cancel` returns with `iCancelling` false and `iWaiting` still true. -/
theorem cancel_after_expiry_still_waiting :
    expired_timer.iCancelling = false ∧ expired_timer.iDestroying = false ∧
    expired_timer.iWaiting = true ∧ expired_timer.iTimerObject.pending = 0 ∧
    expired_timer.cancel idle_callback ⟨false, false⟩ 1
      = { ready_calls := 0, outcome := .returns expired_timer } := by
  decide

omit [i_cookie_jar_item T] in
/-- C35, amended: for a timer that is not cancelling and not being destroyed, when
`cancel` returns, `ready()` has not been called and `iCancelling` is false; `iWaiting`
is false if the timer was not waiting or if a wait was still pending (the pump
branch); if the timer was waiting and no wait was left to cancel, the timer is as
before the call, `iWaiting` still set. Called outside `ready()` with at least one
round of the pump allowed and no other handler destroying the timer, `cancel`
returns. -/
theorem cancel_flags (ready : timer → callback_outcome) (env : surroundings) (fuel : Nat)
    (t : timer) (hc : t.iCancelling = false) (hd : t.iDestroying = false) :
    (∀ n t1, t.cancel ready env fuel = { ready_calls := n, outcome := .returns t1 } →
      n = 0 ∧ t1.iCancelling = false ∧
      (t.iWaiting = false ∨ t.iTimerObject.pending ≠ 0 → t1.iWaiting = false) ∧
      (t.iWaiting = true → t.iTimerObject.pending = 0 → t1 = t)) ∧
    (t.iInReady = false → env.destroyed_in_io = false →
      ∃ t1, t.cancel ready env (fuel + 1) = { ready_calls := 0, outcome := .returns t1 }) := by
  refine ⟨?_, ?_⟩
  · intro n t1 h
    obtain ⟨⟨expiry, pending, posted⟩, dur, en, wa, ca, de, inr⟩ := t
    simp only at hc hd
    subst hc hd
    cases wa
    · simp only [timer.cancel] at h
      simp at h
      obtain ⟨h1, h2⟩ := h
      subst h1 h2
      simp
    · by_cases hp : pending = 0
      · subst hp
        simp [timer.cancel, deadline_timer.cancel] at h
        obtain ⟨h1, h2⟩ := h
        subst h1 h2
        simp
      · have hshape := cancel_loop_shape ready env fuel
          ⟨⟨expiry, 0, posted ++ List.replicate pending true⟩, dur, en, true, true, false, inr⟩
          rfl
        obtain ⟨g1, g2⟩ := hshape
        simp only [timer.cancel, deadline_timer.cancel] at h
        simp [hp] at h
        generalize timer.cancel_loop ready env fuel
          ⟨⟨expiry, 0, posted ++ List.replicate pending true⟩, dur, en, true, true, false, inr⟩
          = r at g1 g2 h
        obtain ⟨calls, out⟩ := r
        simp only at g1 g2 h
        rcases g2 with g2 | g2 | ⟨t2, g2, b1, b2, b3⟩
        · subst g2; simp at h
        · subst g2; simp at h
        · subst g2
          obtain ⟨_, _, c3, _⟩ := b3
          simp only at c3
          simp at h
          obtain ⟨h1, h2⟩ := h
          subst h1
          rw [c3] at h2
          simp at h2
          subst h2
          simp [g1, b1, hp]
  · intro hin he
    exact ⟨_, cancel_eq ready env fuel t hin he⟩

omit [i_cookie_jar_item T] in
theorem cancel_flags_witness :
    armed_timer.iCancelling = false ∧ armed_timer.iDestroying = false ∧
    armed_timer.iInReady = false ∧
    ∃ t1, armed_timer.cancel idle_callback ⟨false, false⟩ (0 + 1)
      = { ready_calls := 0, outcome := .returns t1 } :=
  ⟨rfl, rfl, rfl, (cancel_flags idle_callback ⟨false, false⟩ 0 armed_timer rfl rfl).2 rfl rfl⟩

omit [i_cookie_jar_item T] in
/-- C36: on a disabled timer `again()` starts with `enable(false)`, which returns with
the timer enabled, and goes on as `again()` on that timer; a disabled timer that is
neither waiting nor cancelling is left enabled and waiting, one wait pending for its
duration; and whenever `again()` returns, the timer is enabled and waiting. -/
theorem again_enables (t : timer) :
    (t.iEnabled = false →
      t.enable false = .returns { t with iEnabled := true } ∧
      t.again = timer.again { t with iEnabled := true }) ∧
    (t.iEnabled = false → t.iWaiting = false → t.iCancelling = false →
      t.again = .returns
        { t with
          iEnabled := true
          iWaiting := true
          iTimerObject :=
            { expiry := some t.iDuration_ms
              pending := 1
              posted := t.iTimerObject.posted ++ List.replicate t.iTimerObject.pending true } }) ∧
    (∀ t1, t.again = .returns t1 → t1.iEnabled = true ∧ t1.iWaiting = true) := by
  obtain ⟨⟨expiry, pending, posted⟩, dur, en, wa, ca, de, inr⟩ := t
  refine ⟨?_, ?_, ?_⟩
  · intro h
    simp only at h
    subst h
    simp [timer.enable, timer.again]
  · intro h1 h2 h3
    simp only at h1 h2 h3
    subst h1 h2 h3
    simp [timer.again, deadline_timer.expires_from_now, deadline_timer.cancel,
      deadline_timer.async_wait]
  · intro t1 h
    cases en <;> cases wa <;> cases ca <;> simp [timer.again] at h <;> subst h <;> simp

omit [i_cookie_jar_item T] in
theorem again_enables_witness :
    ({ sample_timer with iEnabled := false } : timer).iEnabled = false ∧
    timer.again { sample_timer with iEnabled := false } = .returns armed_timer :=
  ⟨rfl,
    (again_enables { sample_timer with iEnabled := false }).2.1 rfl rfl rfl⟩

/-! ## Claims on the event list and on concurrent waiters -/

omit [i_cookie_jar_item T] in
theorem wait_for_quiet (e : event) (h : e.iReady = false) :
    e.wait_for (wake.quiet e) = (false, e) := by
  obtain ⟨r, k, n⟩ := e
  simp only at h
  subst h
  simp only [event.wait_for, event.wait_enter, wake.quiet]
  simp

omit [i_cookie_jar_item T] in
theorem poll_events_first (wakes : Nat → wake) (k : Nat) (before after : List event)
    (e : event)
    (hfail : ∀ (j : Nat) (e1 : event), before[j]? = some e1 → (e1.wait_for (wakes (k + j))).1 = false)
    (hok : (e.wait_for (wakes (k + before.length))).1 = true) :
    ∃ left, left.length = before.length ∧
      (∀ (j : Nat) (e1 : event), before[j]? = some e1 → left[j]? = some (e1.wait_for (wakes (k + j))).2) ∧
      event_list.poll_events wakes k (before ++ e :: after)
        = (some (k + before.length),
            left ++ (e.wait_for (wakes (k + before.length))).2 :: after) := by
  induction before generalizing k with
  | nil =>
    refine ⟨[], rfl, ?_, ?_⟩
    · intro j e1 h
      simp at h
    · simp only [List.length_nil, Nat.add_zero] at hok
      simp [event_list.poll_events, hok]
  | cons b rest ih =>
    have hb : (b.wait_for (wakes k)).1 = false := by
      have := hfail 0 b (by simp)
      simpa using this
    have hrest : ∀ (j : Nat) (e1 : event), rest[j]? = some e1 →
        (e1.wait_for (wakes (k + 1 + j))).1 = false := by
      intro j e1 h
      have := hfail (j + 1) e1 (by simpa using h)
      rwa [show k + (j + 1) = k + 1 + j by omega] at this
    have hok1 : (e.wait_for (wakes (k + 1 + rest.length))).1 = true := by
      rwa [show k + (b :: rest).length = k + 1 + rest.length by simp; omega] at hok
    obtain ⟨left, h1, h2, h3⟩ := ih (k + 1) hrest hok1
    refine ⟨(b.wait_for (wakes k)).2 :: left, by simp [h1], ?_, ?_⟩
    · intro j e1 h
      cases j with
      | zero =>
        simp at h
        subst h
        simp
      | succ j =>
        have := h2 j e1 (by simpa using h)
        rw [show k + (j + 1) = k + 1 + j by omega]
        simpa using this
    · have hk : k + (b :: rest).length = k + 1 + rest.length := by
        simp only [List.length_cons]
        omega
      rw [hk, List.cons_append]
      simp only [event_list.poll_events, hb]
      rw [h3]
      simp

omit [i_cookie_jar_item T] in
theorem poll_events_none (wakes : Nat → wake) (k : Nat) (events : List event)
    (hfail : ∀ (j : Nat) (e1 : event), events[j]? = some e1 → (e1.wait_for (wakes (k + j))).1 = false) :
    ∃ left, left.length = events.length ∧
      (∀ (j : Nat) (e1 : event), events[j]? = some e1 → left[j]? = some (e1.wait_for (wakes (k + j))).2) ∧
      event_list.poll_events wakes k events = (none, left) := by
  induction events generalizing k with
  | nil =>
    refine ⟨[], rfl, ?_, rfl⟩
    intro j e1 h
    simp at h
  | cons b rest ih =>
    have hb : (b.wait_for (wakes k)).1 = false := by
      have := hfail 0 b (by simp)
      simpa using this
    have hrest : ∀ (j : Nat) (e1 : event), rest[j]? = some e1 →
        (e1.wait_for (wakes (k + 1 + j))).1 = false := by
      intro j e1 h
      have := hfail (j + 1) e1 (by simpa using h)
      rwa [show k + (j + 1) = k + 1 + j by omega] at this
    obtain ⟨left, h1, h2, h3⟩ := ih (k + 1) hrest
    refine ⟨(b.wait_for (wakes k)).2 :: left, by simp [h1], ?_, ?_⟩
    · intro j e1 h
      cases j with
      | zero =>
        simp at h
        subst h
        simp
      | succ j =>
        have := h2 j e1 (by simpa using h)
        rw [show k + (j + 1) = k + 1 + j by omega]
        simpa using this
    · simp only [event_list.poll_events, hb, h3]
      simp

omit [i_cookie_jar_item T] in
theorem quiet_unchanged (wakes : Nat → wake) (events left : List event)
    (hlen : left.length = events.length)
    (hleft : ∀ (j : Nat) (e1 : event), events[j]? = some e1 → left[j]? = some (e1.wait_for (wakes (0 + j))).2)
    (hquiet : ∀ (j : Nat) (e1 : event), events[j]? = some e1 → e1.iReady = false ∧ wakes j = wake.quiet e1) :
    left = events := by
  apply List.ext_getElem?
  intro j
  cases h : events[j]? with
  | none =>
    have : events.length ≤ j := by
      rcases Nat.lt_or_ge j events.length with hj | hj
      · rw [List.getElem?_eq_getElem hj] at h
        cases h
      · exact hj
    exact List.getElem?_eq_none (by omega)
  | some e1 =>
    have h1 := hleft j e1 h
    obtain ⟨h2, h3⟩ := hquiet j e1 h
    rw [h1, Nat.zero_add, h3, wait_for_quiet e1 h2]

omit [i_cookie_jar_item T] in
/-- C31: a round of each of the four `event_list` loops polls the events in list
order with `wait(0)`. If the `wait(0)` of an event succeeds and those of the events
before it fail, the round returns that event (by its position); the event is left as
its `wait(0)` leaves it, the events after it are not touched, and those before it
are as their failed `wait(0)` leaves them, which is unchanged when they were not
ready and nobody else touched them. If every `wait(0)` fails, the round returns the
message result when there is a queue with a message, else the waitable result when
there is a waitable that is ready, else it sleeps; a round that sleeps is followed
by the next round. -/
theorem event_list_round (wakes : Nat → wake) (before after iEvents : List event)
    (e : event) (have_message waitable_ready : Bool) (r : list_round)
    (rounds : List list_round) :
    ((∀ (j : Nat) (e1 : event), before[j]? = some e1 → (e1.wait_for (wakes j)).1 = false) →
      (e.wait_for (wakes before.length)).1 = true →
      ∃ left, left.length = before.length ∧
        (∀ (j : Nat) (e1 : event), before[j]? = some e1 → left[j]? = some (e1.wait_for (wakes j)).2) ∧
        ((∀ (j : Nat) (e1 : event), before[j]? = some e1 → e1.iReady = false ∧ wakes j = wake.quiet e1) →
          left = before) ∧
        event_list.wait_poll wakes (before ++ e :: after)
          = .returned (.wait_result_event before.length)
              (left ++ (e.wait_for (wakes before.length)).2 :: after) ∧
        event_list.wait_poll_waitable wakes (before ++ e :: after) waitable_ready
          = .returned (.wait_result_event before.length)
              (left ++ (e.wait_for (wakes before.length)).2 :: after) ∧
        event_list.msg_poll wakes (before ++ e :: after) have_message
          = .returned (.wait_result_event before.length)
              (left ++ (e.wait_for (wakes before.length)).2 :: after) ∧
        event_list.msg_poll_waitable wakes (before ++ e :: after) have_message waitable_ready
          = .returned (.wait_result_event before.length)
              (left ++ (e.wait_for (wakes before.length)).2 :: after)) ∧
    ((∀ (j : Nat) (e1 : event), iEvents[j]? = some e1 → (e1.wait_for (wakes j)).1 = false) →
      ∃ left, left.length = iEvents.length ∧
        (∀ (j : Nat) (e1 : event), iEvents[j]? = some e1 → left[j]? = some (e1.wait_for (wakes j)).2) ∧
        ((∀ (j : Nat) (e1 : event), iEvents[j]? = some e1 → e1.iReady = false ∧ wakes j = wake.quiet e1) →
          left = iEvents) ∧
        event_list.wait_poll wakes iEvents = .sleeps left ∧
        event_list.wait_poll_waitable wakes iEvents waitable_ready
          = (if waitable_ready = true then .returned .wait_result_waitable left
             else .sleeps left) ∧
        event_list.msg_poll wakes iEvents have_message
          = (if have_message = true then .returned .wait_result_message left
             else .sleeps left) ∧
        event_list.msg_poll_waitable wakes iEvents have_message waitable_ready
          = (if have_message = true then .returned .wait_result_message left
             else if waitable_ready = true then .returned .wait_result_waitable left
             else .sleeps left)) ∧
    (∀ events, event_list.wait_poll r.wakes (r.others iEvents) = .sleeps events →
      event_list.wait iEvents (r :: rounds) = event_list.wait events rounds) ∧
    (∀ events,
      event_list.wait_poll_waitable r.wakes (r.others iEvents) r.waitable_ready
        = .sleeps events →
      event_list.wait_waitable iEvents (r :: rounds)
        = event_list.wait_waitable events rounds) ∧
    (∀ events, event_list.msg_poll r.wakes (r.others iEvents) r.have_message = .sleeps events →
      event_list.msg_wait iEvents (r :: rounds) = event_list.msg_wait events rounds) ∧
    (∀ events,
      event_list.msg_poll_waitable r.wakes (r.others iEvents) r.have_message r.waitable_ready
        = .sleeps events →
      event_list.msg_wait_waitable iEvents (r :: rounds)
        = event_list.msg_wait_waitable events rounds) ∧
    (∀ result events,
      event_list.wait_poll r.wakes (r.others iEvents) = .returned result events →
      event_list.wait iEvents (r :: rounds) = some (result, events)) ∧
    (∀ result events,
      event_list.wait_poll_waitable r.wakes (r.others iEvents) r.waitable_ready
        = .returned result events →
      event_list.wait_waitable iEvents (r :: rounds) = some (result, events)) ∧
    (∀ result events,
      event_list.msg_poll r.wakes (r.others iEvents) r.have_message
        = .returned result events →
      event_list.msg_wait iEvents (r :: rounds) = some (result, events)) ∧
    (∀ result events,
      event_list.msg_poll_waitable r.wakes (r.others iEvents) r.have_message r.waitable_ready
        = .returned result events →
      event_list.msg_wait_waitable iEvents (r :: rounds) = some (result, events)) := by
  refine ⟨?_, ?_, ?_, ?_, ?_, ?_, ?_, ?_, ?_, ?_⟩
  · intro hfail hok
    obtain ⟨left, h1, h2, h3⟩ := poll_events_first wakes 0 before after e
      (by simpa using hfail) (by simpa using hok)
    simp only [Nat.zero_add] at h3
    refine ⟨left, h1, by simpa using h2, quiet_unchanged wakes before left h1 h2, ?_, ?_, ?_, ?_⟩
    · simp only [event_list.wait_poll, h3]
    · simp only [event_list.wait_poll_waitable, h3]
    · simp only [event_list.msg_poll, h3]
    · simp only [event_list.msg_poll_waitable, h3]
  · intro hfail
    obtain ⟨left, h1, h2, h3⟩ := poll_events_none wakes 0 iEvents (by simpa using hfail)
    refine ⟨left, h1, by simpa using h2, quiet_unchanged wakes iEvents left h1 h2, ?_, ?_, ?_, ?_⟩
    · simp only [event_list.wait_poll, h3]
    · simp only [event_list.wait_poll_waitable, h3]
    · simp only [event_list.msg_poll, h3]
    · simp only [event_list.msg_poll_waitable, h3]
  · intro events h
    simp only [event_list.wait, h]
  · intro events h
    simp only [event_list.wait_waitable, h]
  · intro events h
    simp only [event_list.msg_wait, h]
  · intro events h
    simp only [event_list.msg_wait_waitable, h]
  · intro result events h
    simp only [event_list.wait, h]
  · intro result events h
    simp only [event_list.wait_waitable, h]
  · intro result events h
    simp only [event_list.msg_wait, h]
  · intro result events h
    simp only [event_list.msg_wait_waitable, h]

omit [i_cookie_jar_item T] in
theorem event_list_round_witness :
    event_list.wait_poll (fun _ => wake.quiet ⟨false, .SignalOne, 0⟩)
        [⟨false, .SignalOne, 0⟩, ⟨true, .SignalOne, 0⟩, ⟨true, .SignalAll, 0⟩]
      = .returned (.wait_result_event 1)
          [⟨false, .SignalOne, 0⟩, ⟨false, .SignalOne, 0⟩, ⟨true, .SignalAll, 0⟩] := by
  obtain ⟨left, _, _, hq, hw, _⟩ :=
    (event_list_round (fun _ => wake.quiet ⟨false, .SignalOne, 0⟩)
      [⟨false, .SignalOne, 0⟩] [⟨true, .SignalAll, 0⟩] [] ⟨true, .SignalOne, 0⟩ false false
      ⟨id, fun _ => wake.quiet ⟨false, .SignalOne, 0⟩, false, false⟩ []).1
      (by
        intro j e1 h
        cases j with
        | zero =>
          simp at h
          subst h
          decide
        | succ j => simp at h)
      (by decide)
  have hleft : left = [⟨false, .SignalOne, 0⟩] := by
    apply hq
    intro j e1 h
    cases j with
    | zero =>
      simp at h
      subst h
      exact ⟨rfl, rfl⟩
    | succ j => simp at h
  rw [hleft] at hw
  exact hw

omit [i_cookie_jar_item T] in
theorem steps_append (w : waiters) (first second : List waiters_step) :
    w.steps (first ++ second) = (w.steps first).steps second := by
  induction first generalizing w with
  | nil => rfl
  | cons s rest ih => exact ih (w.step s)

omit [i_cookie_jar_item T] in
theorem wake_not_ready (w : waiters) (sched : List Nat) (h : w.shared.iReady = false) :
    w.steps (sched.map .wake) = w := by
  induction sched with
  | nil => rfl
  | cons i rest ih =>
    have hstep : w.wake i = w := by
      simp only [waiters.wake, h]
      split <;> simp
    simp only [List.map_cons, waiters.steps, waiters.step, hstep, ih]

omit [i_cookie_jar_item T] in
theorem all_signalled_wake (first second : Bool) (i : Nat) :
    (all_signalled first second).wake i
      = all_signalled (first || decide (i = 0)) (second || decide (i = 1)) := by
  match i with
  | 0 => cases first <;> cases second <;> decide
  | 1 => cases first <;> cases second <;> decide
  | n + 2 =>
    have h0 : decide (n + 2 = 0) = false := by simp
    have h1 : decide (n + 2 = 1) = false := by simp
    rw [h0, h1]
    cases first <;> cases second <;> simp [all_signalled, waiters.wake]

omit [i_cookie_jar_item T] in
theorem all_signalled_steps (first second : Bool) (sched : List Nat) :
    (all_signalled first second).steps (sched.map .wake)
      = all_signalled (first || decide (0 ∈ sched)) (second || decide (1 ∈ sched)) := by
  induction sched generalizing first second with
  | nil => simp [waiters.steps]
  | cons i rest ih =>
    simp only [List.map_cons, waiters.steps, waiters.step, all_signalled_wake, ih]
    congr 1
    · cases first <;> by_cases h : i = 0 <;> simp [h, eq_comm]
    · cases second <;> by_cases h : i = 1 <;> simp [h, eq_comm]

omit [i_cookie_jar_item T] in
theorem one_signalled_steps (sched : List Nat) :
    (0 ∉ sched ∧ 1 ∉ sched →
      waiters.steps ⟨⟨true, .SignalOne, 2⟩, [.blocked, .blocked]⟩ (sched.map .wake)
        = ⟨⟨true, .SignalOne, 2⟩, [.blocked, .blocked]⟩) ∧
    (0 ∈ sched ∨ 1 ∈ sched →
      waiters.steps ⟨⟨true, .SignalOne, 2⟩, [.blocked, .blocked]⟩ (sched.map .wake)
          = ⟨⟨false, .SignalOne, 1⟩, [.returned, .blocked]⟩ ∨
      waiters.steps ⟨⟨true, .SignalOne, 2⟩, [.blocked, .blocked]⟩ (sched.map .wake)
          = ⟨⟨false, .SignalOne, 1⟩, [.blocked, .returned]⟩) := by
  induction sched with
  | nil => simp [waiters.steps]
  | cons i rest ih =>
    match i with
    | 0 =>
      refine ⟨by simp, fun _ => Or.inl ?_⟩
      simp only [List.map_cons, waiters.steps]
      exact wake_not_ready _ rest rfl
    | 1 =>
      refine ⟨by simp, fun _ => Or.inr ?_⟩
      simp only [List.map_cons, waiters.steps]
      exact wake_not_ready _ rest rfl
    | n + 2 =>
      have hstep : waiters.step ⟨⟨true, .SignalOne, 2⟩, [.blocked, .blocked]⟩ (.wake (n + 2))
          = ⟨⟨true, .SignalOne, 2⟩, [.blocked, .blocked]⟩ := by
        simp [waiters.step, waiters.wake]
      simp only [List.map_cons, waiters.steps, hstep]
      refine ⟨fun h => ih.1 ?_, fun h => ih.2 ?_⟩
      · simpa using h
      · simpa using h

omit [i_cookie_jar_item T] in
/-- C32: two threads call `wait()` on a freshly constructed event and both block. After
one `signal_one()`, however the two threads are then woken (notified or not, in any
order, any number of times), both are still blocked as long as neither has woken,
and from the first wake-up on exactly one has returned, the other is blocked and the
event is not ready. After one `signal_all()` each thread has returned exactly when
it has woken at least once, so both return once both have woken, and the event is
then not ready with no waiter. -/
theorem two_blocked_waiters (aSignalType : signal_type) (sched : List Nat) :
    (waiters.start aSignalType).steps [.enter 0, .enter 1]
      = ⟨⟨false, aSignalType, 2⟩, [.blocked, .blocked]⟩ ∧
    (0 ∉ sched ∧ 1 ∉ sched →
      ((waiters.start aSignalType).steps
        ([.enter 0, .enter 1, .signal_one] ++ sched.map .wake)).threads
        = [.blocked, .blocked]) ∧
    (0 ∈ sched ∨ 1 ∈ sched →
      (waiters.start aSignalType).steps ([.enter 0, .enter 1, .signal_one] ++ sched.map .wake)
          = ⟨⟨false, .SignalOne, 1⟩, [.returned, .blocked]⟩ ∨
      (waiters.start aSignalType).steps ([.enter 0, .enter 1, .signal_one] ++ sched.map .wake)
          = ⟨⟨false, .SignalOne, 1⟩, [.blocked, .returned]⟩) ∧
    ((waiters.start aSignalType).steps
        ([.enter 0, .enter 1, .signal_all] ++ sched.map .wake)).threads
      = [if 0 ∈ sched then .returned else .blocked, if 1 ∈ sched then .returned else .blocked] ∧
    (0 ∈ sched → 1 ∈ sched →
      (waiters.start aSignalType).steps ([.enter 0, .enter 1, .signal_all] ++ sched.map .wake)
        = ⟨⟨false, .SignalAll, 0⟩, [.returned, .returned]⟩) := by
  have hone : (waiters.start aSignalType).steps [.enter 0, .enter 1, .signal_one]
      = ⟨⟨true, .SignalOne, 2⟩, [.blocked, .blocked]⟩ := by
    cases aSignalType <;> decide
  have hall : (waiters.start aSignalType).steps [.enter 0, .enter 1, .signal_all]
      = all_signalled false false := by
    cases aSignalType <;> decide
  refine ⟨by cases aSignalType <;> decide, ?_, ?_, ?_, ?_⟩
  · intro h
    rw [steps_append, hone, (one_signalled_steps sched).1 h]
  · intro h
    rw [steps_append, hone]
    exact (one_signalled_steps sched).2 h
  · rw [steps_append, hall, all_signalled_steps]
    by_cases h0 : 0 ∈ sched <;> by_cases h1 : 1 ∈ sched <;> simp [all_signalled, h0, h1]
  · intro h0 h1
    rw [steps_append, hall, all_signalled_steps]
    simp [all_signalled, h0, h1]

omit [i_cookie_jar_item T] in
theorem two_blocked_waiters_witness :
    (waiters.start .SignalAll).steps
        ([.enter 0, .enter 1, .signal_one] ++ [1, 0, 1].map .wake)
          = ⟨⟨false, .SignalOne, 1⟩, [.returned, .blocked]⟩ ∨
    (waiters.start .SignalAll).steps
        ([.enter 0, .enter 1, .signal_one] ++ [1, 0, 1].map .wake)
          = ⟨⟨false, .SignalOne, 1⟩, [.blocked, .returned]⟩ :=
  (two_blocked_waiters .SignalAll [1, 0, 1]).2.2.1 (by decide)

/-! ## Claims on the zip archive -/

omit [i_cookie_jar_item T] in
/-- C40: evaluation at the failing input. `extract` returns false without subscripting
`iDirEntries` when the archive is in the error state and when the index is greater
than the number of files; but for the index equal to the number of files (0 for the
archive without files, 1 for the archive with one file) the test
`aIndex > iFiles.size()` lets it through and `iDirEntries[aIndex]` is subscripted
past the end of the vector. -/
theorem extract_index_equal_to_size :
    (∀ extract_entry z aIndex, z.iError = true ∨ aIndex > z.iFiles.length →
      basic_zip.extract extract_entry z aIndex = .returns false z []) ∧
    basic_zip.constructed empty_archive = some ⟨empty_archive, [], [], false⟩ ∧
    (∀ extract_entry,
      basic_zip.extract extract_entry ⟨empty_archive, [], [], false⟩ 0 = .undefined) ∧
    basic_zip.constructed one_file_archive = some ⟨one_file_archive, [0], [[97]], false⟩ ∧
    (∀ extract_entry,
      basic_zip.extract extract_entry ⟨one_file_archive, [0], [[97]], false⟩ 1
        = .undefined) ∧
    (∀ extract_entry z, z.iError = false → z.iDirEntries.length = z.iFiles.length →
      basic_zip.extract extract_entry z z.iFiles.length = .undefined) := by
  refine ⟨?_, by decide, ?_, by decide, ?_, ?_⟩
  · intro extract_entry z aIndex h
    rcases h with h | h
    · simp [basic_zip.extract, h]
    · cases he : z.iError <;> simp [basic_zip.extract, he, h]
  · intro extract_entry
    rfl
  · intro extract_entry
    rfl
  · intro extract_entry z he hlen
    have hnone : z.iDirEntries[z.iFiles.length]? = none :=
      List.getElem?_eq_none (by omega)
    simp [basic_zip.extract, he, hnone]

/-! ## Claims on the string utilities -/

omit [i_cookie_jar_item T] in
/-- C37: evaluation at failing inputs. The pattern `*a` matches the text `aa` under
glob semantics (the text ends with `a`), and `*ab` matches `abab`, but
`wildcard_match` returns false for both: the last substring of a pattern that does
not end with `*` is looked for from the left, and the match is rejected unless that
first occurrence is the one at the end of the text. For the empty pattern `tokens`
yields no substring and `wildcard_match` returns true for the text `abc`, which the
empty pattern does not match. On the text `ba` the pattern `*a` is matched by
both. -/
theorem wildcard_match_last_substring :
    tokens ['*', 'a'] ['*'] [] 0 true false = some ([(1, 2)], 2) ∧
    wildcard_match ['a', 'a'] ['*', 'a'] = some false ∧
    glob_matches ['*', 'a'] ['a', 'a'] = true ∧
    wildcard_match ['a', 'b', 'a', 'b'] ['*', 'a', 'b'] = some false ∧
    glob_matches ['*', 'a', 'b'] ['a', 'b', 'a', 'b'] = true ∧
    wildcard_match ['a', 'b', 'c'] [] = some true ∧
    glob_matches [] ['a', 'b', 'c'] = false ∧
    wildcard_match ['b', 'a'] ['*', 'a'] = some true ∧
    glob_matches ['*', 'a'] ['b', 'a'] = true := by
  decide

omit [i_cookie_jar_item T] in
theorem find_first_of_le {α : Type} [DecidableEq α] (s delims : List α) :
    find_first_of s delims ≤ s.length := by
  induction s with
  | nil => simp [find_first_of]
  | cons x xs ih =>
    simp only [find_first_of]
    split <;> simp
    exact ih

omit [i_cookie_jar_item T] in
theorem find_first_of_take {α : Type} [DecidableEq α] (s delims : List α) :
    ∀ x ∈ s.take (find_first_of s delims), x ∉ delims := by
  induction s with
  | nil => simp [find_first_of]
  | cons y ys ih =>
    simp only [find_first_of]
    split
    · simp
    · rename_i hy
      intro x hx
      simp only [List.take_succ_cons, List.mem_cons] at hx
      rcases hx with hx | hx
      · subst hx; exact hy
      · exact ih x hx

omit [i_cookie_jar_item T] in
theorem find_first_of_hit {α : Type} [DecidableEq α] (s delims : List α)
    (h : find_first_of s delims < s.length) :
    ∃ d, d ∈ delims ∧
      s = s.take (find_first_of s delims) ++ d :: s.drop (find_first_of s delims + 1) := by
  induction s with
  | nil => simp at h
  | cons y ys ih =>
    simp only [find_first_of] at h ⊢
    split
    · rename_i hy
      exact ⟨y, hy, by simp⟩
    · rename_i hy
      rw [if_neg hy] at h
      obtain ⟨d, hd, heq⟩ := ih (by simpa using h)
      refine ⟨d, hd, ?_⟩
      simp only [List.take_succ_cons, List.drop_succ_cons, List.cons_append]
      rw [← heq]

omit [i_cookie_jar_item T] in
theorem maximal_runs_of_none {α : Type} [DecidableEq α] (s delims : List α)
    (h : find_first_of s delims = s.length) :
    maximal_runs delims s = if s = [] then [] else [s] := by
  have hnone : ∀ x ∈ s, ¬ (decide (x ∈ delims) = true) := by
    intro x hx
    have := find_first_of_take s delims x (by rw [h, List.take_length]; exact hx)
    simpa using this
  simp only [maximal_runs]
  rw [List.splitOnP_eq_single (fun x => decide (x ∈ delims)) s hnone]
  cases s <;> simp

omit [i_cookie_jar_item T] in
theorem maximal_runs_of_hit {α : Type} [DecidableEq α] (s delims : List α)
    (h : find_first_of s delims < s.length) :
    maximal_runs delims s
      = (if find_first_of s delims = 0 then [] else [s.take (find_first_of s delims)])
        ++ maximal_runs delims (s.drop (find_first_of s delims + 1)) := by
  obtain ⟨d, hd, heq⟩ := find_first_of_hit s delims h
  have hnone : ∀ x ∈ s.take (find_first_of s delims), ¬ (decide (x ∈ delims) = true) := by
    intro x hx
    have := find_first_of_take s delims x hx
    simpa using this
  have hsplit := List.splitOnP_first (fun x => decide (x ∈ delims)) _ hnone d (by simpa using hd)
    (s.drop (find_first_of s delims + 1))
  rw [← heq] at hsplit
  simp only [maximal_runs]
  rw [hsplit, List.filter_cons]
  by_cases hk : find_first_of s delims = 0
  · simp [hk]
  · have hne : s.take (find_first_of s delims) ≠ [] := by
      intro hnil
      have := congrArg List.length hnil
      rw [List.length_take, List.length_nil] at this
      omega
    have : (s.take (find_first_of s delims)).isEmpty = false := by
      cases hs : s.take (find_first_of s delims) with
      | nil => exact absurd hs hne
      | cons _ _ => rfl
    simp [hk, this]

omit [i_cookie_jar_item T] in
theorem tokens_loop_runs {α : Type} [DecidableEq α] (aLine aDelimeter : List α) (fuel : Nat) :
    ∀ (b tokens : Nat) (aTokens : List (Nat × Nat)), b ≤ aLine.length →
      aLine.length ≤ fuel + b →
      ∃ spans,
        tokens_loop aLine aDelimeter 0 true false fuel b
            (next_delimiter aLine aDelimeter false b) tokens aTokens
          = some (aTokens ++ spans, aLine.length) ∧
        spans.map (token_text aLine) = maximal_runs aDelimeter (aLine.drop b) := by
  induction fuel with
  | zero =>
    intro b tokens aTokens hb hfuel
    have hbl : b = aLine.length := by omega
    have hdrop : aLine.drop b = [] := by rw [hbl]; simp
    refine ⟨[], ?_, ?_⟩
    · simp [tokens_loop, next_delimiter, hdrop, find_first_of, tokens_last, hbl]
    · simp [hdrop, maximal_runs, List.splitOnP_nil]
  | succ fuel ih =>
    intro b tokens aTokens hb hfuel
    have hle := find_first_of_le (aLine.drop b) aDelimeter
    have hlen : (aLine.drop b).length = aLine.length - b := by simp
    by_cases he : b + find_first_of (aLine.drop b) aDelimeter = aLine.length
    · have hnone : find_first_of (aLine.drop b) aDelimeter = (aLine.drop b).length := by omega
      by_cases hk : find_first_of (aLine.drop b) aDelimeter = 0
      · have hdrop : aLine.drop b = [] := by
          apply List.eq_nil_of_length_eq_zero
          omega
        refine ⟨[], ?_, ?_⟩
        · simp only [tokens_loop, next_delimiter, Bool.false_eq_true, if_false, he]
          have hbl : b = aLine.length := by omega
          simp [tokens_last, hk, hbl]
        · simp [hdrop, maximal_runs, List.splitOnP_nil]
      · refine ⟨[(b, aLine.length)], ?_, ?_⟩
        · simp only [tokens_loop, next_delimiter, Bool.false_eq_true, if_false, he]
          have : b ≠ aLine.length := by omega
          simp [tokens_last, this]
        · rw [maximal_runs_of_none _ _ hnone]
          have hne : aLine.drop b ≠ [] := by
            intro hnil
            apply hk
            rw [hnil]
            rfl
          simp only [List.map_cons, List.map_nil, token_text, hne, if_false]
          try rw [List.take_of_length_le (by omega)]
    · have hhit : find_first_of (aLine.drop b) aDelimeter < (aLine.drop b).length := by omega
      have hb1 : b + find_first_of (aLine.drop b) aDelimeter + 1 ≤ aLine.length := by omega
      have hruns := maximal_runs_of_hit _ _ hhit
      have hdd : (aLine.drop b).drop (find_first_of (aLine.drop b) aDelimeter + 1)
          = aLine.drop (b + find_first_of (aLine.drop b) aDelimeter + 1) := by
        rw [List.drop_drop]
        congr 1
      rw [hdd] at hruns
      by_cases hk : find_first_of (aLine.drop b) aDelimeter = 0
      · obtain ⟨spans, h1, h2⟩ :=
          ih (b + find_first_of (aLine.drop b) aDelimeter + 1) tokens aTokens hb1 (by omega)
        refine ⟨spans, ?_, ?_⟩
        · simp only [tokens_loop, next_delimiter, Bool.false_eq_true, if_false] at h1 ⊢
          rw [if_pos ⟨he, Or.inl trivial⟩]
          simp only [hk, Nat.add_zero] at h1 ⊢
          simpa using h1
        · rw [h2, hruns]
          simp [hk]
      · obtain ⟨spans, h1, h2⟩ :=
          ih (b + find_first_of (aLine.drop b) aDelimeter + 1) (tokens + 1)
            (aTokens ++ [(b, b + find_first_of (aLine.drop b) aDelimeter)]) hb1 (by omega)
        refine ⟨(b, b + find_first_of (aLine.drop b) aDelimeter) :: spans, ?_, ?_⟩
        · simp only [tokens_loop, next_delimiter, Bool.false_eq_true, if_false] at h1 ⊢
          rw [if_pos ⟨he, Or.inl trivial⟩]
          have hbe : b ≠ b + find_first_of (aLine.drop b) aDelimeter := by omega
          simp only [hbe, false_and, if_false, ne_eq, not_false_eq_true, if_true]
          rw [h1]
          simp
        · rw [List.map_cons, h2, hruns]
          simp [hk, token_text]

omit [i_cookie_jar_item T] in
theorem matches_at_length {α : Type} (p : α → α → Bool) (s needle : List α)
    (h : matches_at p s needle = true) : needle.length ≤ s.length := by
  induction needle generalizing s with
  | nil => simp
  | cons y ys ih =>
    cases s with
    | nil => simp [matches_at] at h
    | cons x xs =>
      simp only [matches_at, Bool.and_eq_true] at h
      have := ih xs h.2
      simp only [List.length_cons]
      omega

omit [i_cookie_jar_item T] in
theorem search_le {α : Type} (p : α → α → Bool) (s needle : List α) :
    search p s needle ≤ s.length := by
  induction s with
  | nil => simp [search]
  | cons x xs ih =>
    simp only [search]
    split <;> simp
    exact ih

omit [i_cookie_jar_item T] in
theorem search_hit {α : Type} (p : α → α → Bool) (s needle : List α)
    (h : search p s needle < s.length) : search p s needle + needle.length ≤ s.length := by
  induction s with
  | nil => simp at h
  | cons x xs ih =>
    simp only [search] at h ⊢
    split
    · rename_i hm
      have := matches_at_length p _ _ hm
      omega
    · rename_i hm
      rw [if_neg hm] at h
      have := ih (by simpa using h)
      simp only [List.length_cons]
      omega

omit [i_cookie_jar_item T] in
theorem next_delimiter_bounds {α : Type} [DecidableEq α] (aLine aDelimeter : List α)
    (aDelimeterIsSubsequence : Bool) (b : Nat) (hd : aDelimeter ≠ []) (hb : b ≤ aLine.length) :
    b ≤ next_delimiter aLine aDelimeter aDelimeterIsSubsequence b ∧
    next_delimiter aLine aDelimeter aDelimeterIsSubsequence b ≤ aLine.length ∧
    (next_delimiter aLine aDelimeter aDelimeterIsSubsequence b ≠ aLine.length →
      next_delimiter aLine aDelimeter aDelimeterIsSubsequence b
        + (if aDelimeterIsSubsequence = true then aDelimeter.length else 1) ≤ aLine.length) ∧
    0 < (if aDelimeterIsSubsequence = true then aDelimeter.length else 1) := by
  have hlen : (aLine.drop b).length = aLine.length - b := by simp
  have hpos : 0 < aDelimeter.length := List.length_pos.2 hd
  cases aDelimeterIsSubsequence with
  | false =>
    have h1 := find_first_of_le (aLine.drop b) aDelimeter
    simp only [next_delimiter, Bool.false_eq_true, if_false]
    refine ⟨by omega, by omega, fun _ => by omega, by omega⟩
  | true =>
    have h1 := search_le (fun x y => decide (x = y)) (aLine.drop b) aDelimeter
    simp only [next_delimiter, if_true]
    refine ⟨by omega, by omega, fun hne => ?_, hpos⟩
    have h2 := search_hit (fun x y => decide (x = y)) (aLine.drop b) aDelimeter (by omega)
    omega

omit [i_cookie_jar_item T] in
theorem tokens_loop_total {α : Type} [DecidableEq α] (aLine aDelimeter : List α)
    (aMaxTokens : Nat) (aSkipEmptyTokens aDelimeterIsSubsequence : Bool)
    (hd : aDelimeter ≠ []) (fuel : Nat) :
    ∀ (b tokens : Nat) (aTokens : List (Nat × Nat)), b ≤ aLine.length →
      aLine.length ≤ fuel + b →
      ∃ spans pos,
        tokens_loop aLine aDelimeter aMaxTokens aSkipEmptyTokens aDelimeterIsSubsequence fuel b
            (next_delimiter aLine aDelimeter aDelimeterIsSubsequence b) tokens aTokens
          = some (aTokens ++ spans, pos) ∧
        (0 < aMaxTokens → tokens ≤ aMaxTokens → tokens + spans.length ≤ aMaxTokens) := by
  induction fuel with
  | zero =>
    intro b tokens aTokens hb hfuel
    obtain ⟨h1, h2, _, _⟩ :=
      next_delimiter_bounds aLine aDelimeter aDelimeterIsSubsequence b hd hb
    have he : next_delimiter aLine aDelimeter aDelimeterIsSubsequence b = aLine.length := by
      omega
    have hbl : b = aLine.length := by omega
    refine ⟨[], b, ?_, fun _ h => by simpa using h⟩
    subst hbl
    simp [tokens_loop, he, tokens_last]
  | succ fuel ih =>
    intro b tokens aTokens hb hfuel
    obtain ⟨h1, h2, h3, h4⟩ :=
      next_delimiter_bounds aLine aDelimeter aDelimeterIsSubsequence b hd hb
    generalize next_delimiter aLine aDelimeter aDelimeterIsSubsequence b = e at h1 h2 h3
    by_cases hcond : e ≠ aLine.length ∧ (aMaxTokens = 0 ∨ tokens < aMaxTokens)
    · have hstep := h3 hcond.1
      simp only [tokens_loop, if_pos hcond]
      by_cases hempty : b = e ∧ aSkipEmptyTokens = false
      · obtain ⟨spans, pos, g1, g2⟩ :=
          ih (e + (if aDelimeterIsSubsequence = true then aDelimeter.length else 1))
            (tokens + 1) (aTokens ++ [(b, b)]) hstep (by omega)
        refine ⟨(b, b) :: spans, pos, ?_, ?_⟩
        · rw [if_pos hempty]
          simp only at g1 ⊢
          rw [g1]
          simp
        · intro hmax hle
          have := g2 hmax (by omega)
          simp only [List.length_cons]
          omega
      · by_cases hne : b ≠ e
        · obtain ⟨spans, pos, g1, g2⟩ :=
            ih (e + (if aDelimeterIsSubsequence = true then aDelimeter.length else 1))
              (tokens + 1) (aTokens ++ [(b, e)]) hstep (by omega)
          refine ⟨(b, e) :: spans, pos, ?_, ?_⟩
          · rw [if_neg hempty, if_pos hne]
            simp only at g1 ⊢
            rw [g1]
            simp
          · intro hmax hle
            have := g2 hmax (by omega)
            simp only [List.length_cons]
            omega
        · obtain ⟨spans, pos, g1, g2⟩ :=
            ih (e + (if aDelimeterIsSubsequence = true then aDelimeter.length else 1))
              tokens aTokens hstep (by omega)
          refine ⟨spans, pos, ?_, g2⟩
          rw [if_neg hempty, if_neg hne]
          exact g1
    · simp only [tokens_loop, if_neg hcond]
      by_cases hlast : b ≠ e ∧ (aMaxTokens = 0 ∨ tokens < aMaxTokens)
      · refine ⟨[(b, e)], e, by simp [tokens_last, hlast], ?_⟩
        intro hmax hle
        simp only [List.length_cons, List.length_nil]
        omega
      · refine ⟨[], b, by simp only [tokens_last, if_neg hlast, List.append_nil], ?_⟩
        intro _ hle
        simpa using hle

omit [i_cookie_jar_item T] in
/-- C39: with a non-empty set of delimiters, no limit on the tokens, empty tokens
skipped and the delimiters taken one by one, `tokens` returns, appends to the
container the maximal non-empty runs of elements that are not delimiters, in order,
and returns the end of the line. With no delimiter and a non-empty line it appends
the whole line as one token, whatever the other arguments. With a limit
`aMaxTokens > 0` it returns and appends at most `aMaxTokens` tokens, whatever the
other arguments. -/
theorem tokens_spec {α : Type} [DecidableEq α] (aLine aDelimeter : List α)
    (aTokens : List (Nat × Nat)) (aMaxTokens : Nat)
    (aSkipEmptyTokens aDelimeterIsSubsequence : Bool) :
    (aDelimeter ≠ [] →
      ∃ spans, tokens aLine aDelimeter aTokens 0 true false
          = some (aTokens ++ spans, aLine.length) ∧
        spans.map (token_text aLine) = maximal_runs aDelimeter aLine) ∧
    (aLine ≠ [] →
      tokens aLine [] aTokens aMaxTokens aSkipEmptyTokens aDelimeterIsSubsequence
        = some (aTokens ++ [(0, aLine.length)], aLine.length) ∧
      token_text aLine (0, aLine.length) = aLine) ∧
    (0 < aMaxTokens →
      ∃ spans pos,
        tokens aLine aDelimeter aTokens aMaxTokens aSkipEmptyTokens aDelimeterIsSubsequence
          = some (aTokens ++ spans, pos) ∧
        spans.length ≤ aMaxTokens) := by
  refine ⟨?_, ?_, ?_⟩
  · intro hd
    by_cases hl : aLine = []
    · subst hl
      refine ⟨[], by simp [tokens], ?_⟩
      simp [maximal_runs, List.splitOnP_nil]
    · obtain ⟨spans, h1, h2⟩ :=
        tokens_loop_runs aLine aDelimeter aLine.length 0 0 aTokens (by omega) (by omega)
      refine ⟨spans, ?_, by simpa using h2⟩
      simp only [tokens, if_neg hl, if_neg hd]
      exact h1
  · intro hl
    refine ⟨by simp [tokens, hl], ?_⟩
    simp [token_text]
  · intro hmax
    by_cases hl : aLine = []
    · exact ⟨[], 0, by simp [tokens, hl], by simp⟩
    · by_cases hd : aDelimeter = []
      · refine ⟨[(0, aLine.length)], aLine.length, by simp [tokens, hl, hd], ?_⟩
        simp only [List.length_cons, List.length_nil]
        omega
      · obtain ⟨spans, pos, h1, h2⟩ :=
          tokens_loop_total aLine aDelimeter aMaxTokens aSkipEmptyTokens aDelimeterIsSubsequence
            hd aLine.length 0 0 aTokens (by omega) (by omega)
        refine ⟨spans, pos, ?_, ?_⟩
        · simp only [tokens, if_neg hl, if_neg hd]
          exact h1
        · have := h2 hmax (by omega)
          omega

omit [i_cookie_jar_item T] in
theorem tokens_spec_witness :
    ∃ spans, tokens [1, 0, 0, 2, 0, 3, 0] [0] [] 0 true false
        = some ([] ++ spans, [1, 0, 0, 2, 0, 3, 0].length) ∧
      spans.map (token_text [1, 0, 0, 2, 0, 3, 0]) = maximal_runs [0] [1, 0, 0, 2, 0, 3, 0] :=
  (tokens_spec [1, 0, 0, 2, 0, 3, 0] [0] [] 0 true false).1 (by decide)

omit [i_cookie_jar_item T] in
theorem next_wide_bits_length (aUnicodeChar aCount : Nat) (rest rest1 : List Nat) (value : Nat)
    (h : next_wide_bits aUnicodeChar aCount rest = some (value, rest1)) :
    rest1.length ≤ rest.length := by
  induction aCount generalizing aUnicodeChar rest with
  | zero =>
    simp only [next_wide_bits, Option.some.injEq, Prod.mk.injEq] at h
    rw [h.2]
  | succ n ih =>
    cases rest with
    | nil => simp [next_wide_bits] at h
    | cons nch tail =>
      simp only [next_wide_bits] at h
      split at h
      · have := ih _ _ h
        simp only [List.length_cons]
        omega
      · cases h

omit [i_cookie_jar_item T] in
theorem utf8_next_length (mbtowc : Nat → Option Nat) (nch : Nat) (rest : List Nat) :
    (utf8_next mbtowc nch rest).2.length ≤ rest.length := by
  have key : ∀ d : Option (Nat × List Nat),
      (∀ v r1, d = some (v, r1) → r1.length ≤ rest.length) →
      (match d with
        | some (uch, rest1) => (uch, rest1)
        | none =>
          match mbtowc nch with
          | some wch => (wch, rest)
          | none => (nch, rest)).2.length ≤ rest.length := by
    intro d hd
    cases d with
    | none => cases mbtowc nch <;> simp
    | some pr =>
      obtain ⟨v, r1⟩ := pr
      exact hd v r1 rfl
  unfold utf8_next
  split
  · simp
  · apply key
    intro v r1 h
    split_ifs at h
    all_goals exact next_wide_bits_length _ _ _ _ _ h

omit [i_cookie_jar_item T] in
theorem utf8_to_utf32_loop_fuel (mbtowc : Nat → Option Nat) (fuel1 : Nat) :
    ∀ (fuel2 : Nat) (aString : List Nat), aString.length ≤ fuel1 → aString.length ≤ fuel2 →
      utf8_to_utf32_loop mbtowc fuel1 aString = utf8_to_utf32_loop mbtowc fuel2 aString := by
  induction fuel1 with
  | zero =>
    intro fuel2 aString h1 _
    have : aString = [] := List.eq_nil_of_length_eq_zero (by omega)
    subst this
    cases fuel2 <;> simp [utf8_to_utf32_loop]
  | succ fuel1 ih =>
    intro fuel2 aString h1 h2
    cases aString with
    | nil => cases fuel2 <;> simp [utf8_to_utf32_loop]
    | cons nch rest =>
      cases fuel2 with
      | zero => simp at h2
      | succ fuel2 =>
        have hlen := utf8_next_length mbtowc nch rest
        simp only [List.length_cons] at h1 h2
        simp only [utf8_to_utf32_loop]
        rw [ih fuel2 _ (by omega) (by omega)]

omit [i_cookie_jar_item T] in
theorem utf8_to_utf32_cons (mbtowc : Nat → Option Nat) (nch : Nat) (rest : List Nat) :
    utf8_to_utf32 mbtowc (nch :: rest)
      = (utf8_next mbtowc nch rest).1 :: utf8_to_utf32 mbtowc (utf8_next mbtowc nch rest).2 := by
  have hlen := utf8_next_length mbtowc nch rest
  simp only [utf8_to_utf32, List.length_cons, utf8_to_utf32_loop]
  rw [utf8_to_utf32_loop_fuel mbtowc rest.length _ _ hlen (le_refl _)]

omit [i_cookie_jar_item T] in
theorem trail_byte : ∀ x < 64,
    ((x ||| 0x80) % 256) &&& 0xC0 = 0x80 ∧ ((x ||| 0x80) % 256) &&& 0x3F = x := by
  decide

omit [i_cookie_jar_item T] in
theorem lead_byte_two : ∀ x < 32,
    ((x ||| 0xC0) % 256) &&& 0x80 ≠ 0 ∧ ((x ||| 0xC0) % 256) &&& 0xE0 = 0xC0 ∧
    ((x ||| 0xC0) % 256) &&& 0x1F = x := by
  decide

omit [i_cookie_jar_item T] in
theorem lead_byte_three : ∀ x < 16,
    ((x ||| 0xE0) % 256) &&& 0x80 ≠ 0 ∧ ((x ||| 0xE0) % 256) &&& 0xE0 ≠ 0xC0 ∧
    ((x ||| 0xE0) % 256) &&& 0xF0 = 0xE0 ∧ ((x ||| 0xE0) % 256) &&& 0x0F = x := by
  decide

omit [i_cookie_jar_item T] in
theorem lead_byte_four : ∀ x < 8,
    ((x ||| 0xF0) % 256) &&& 0x80 ≠ 0 ∧ ((x ||| 0xF0) % 256) &&& 0xE0 ≠ 0xC0 ∧
    ((x ||| 0xF0) % 256) &&& 0xF0 ≠ 0xE0 ∧ ((x ||| 0xF0) % 256) &&& 0xF8 = 0xF0 ∧
    ((x ||| 0xF0) % 256) &&& 0x07 = x := by
  decide

omit [i_cookie_jar_item T] in
theorem ascii_byte : ∀ x < 128, (x % 256) &&& 0x80 = 0 ∧ (x % 256) &&& 0x7F = x := by
  decide

omit [i_cookie_jar_item T] in
theorem next_wide_bits_trail (aUnicodeChar aCount x : Nat) (rest : List Nat) (hx : x < 64)
    (hu : aUnicodeChar * 64 + x < 4294967296) :
    next_wide_bits aUnicodeChar (aCount + 1) (((x ||| 0x80) % 256) :: rest)
      = next_wide_bits (aUnicodeChar * 64 + x) aCount rest := by
  obtain ⟨h1, h2⟩ := trail_byte x hx
  simp only [next_wide_bits, h1, if_true, h2]
  congr 1
  rw [Nat.shiftLeft_eq, Nat.mod_eq_of_lt (by omega)]
  have := Nat.mul_add_lt_is_or (show x < 2 ^ 6 by omega) aUnicodeChar
  rw [Nat.mul_comm]
  exact this.symm

omit [i_cookie_jar_item T] in
theorem and_low_bits (x : Nat) :
    x &&& 0x3F = x % 64 ∧ x &&& 0x1F = x % 32 ∧ x &&& 0x0F = x % 16 ∧ x &&& 0x07 = x % 8 :=
  ⟨Nat.and_pow_two_sub_one_eq_mod x 6, Nat.and_pow_two_sub_one_eq_mod x 5,
    Nat.and_pow_two_sub_one_eq_mod x 4, Nat.and_pow_two_sub_one_eq_mod x 3⟩

omit [i_cookie_jar_item T] in
theorem utf8_next_one (mbtowc : Nat → Option Nat) (x : Nat) (rest : List Nat) (hx : x < 128) :
    utf8_next mbtowc (x % 256) rest = (x, rest) := by
  obtain ⟨h1, h2⟩ := ascii_byte x hx
  simp only [utf8_next, h1, if_true, h2]

omit [i_cookie_jar_item T] in
theorem utf8_next_two (mbtowc : Nat → Option Nat) (x1 x0 : Nat) (rest : List Nat)
    (h1 : x1 < 32) (h0 : x0 < 64) :
    utf8_next mbtowc ((x1 ||| 0xC0) % 256) (((x0 ||| 0x80) % 256) :: rest)
      = (x1 * 64 + x0, rest) := by
  obtain ⟨a1, a2, a3⟩ := lead_byte_two x1 h1
  simp only [utf8_next, if_neg a1, a2, if_true, a3]
  rw [next_wide_bits_trail x1 0 x0 rest h0 (by omega)]
  simp [next_wide_bits]

omit [i_cookie_jar_item T] in
theorem utf8_next_three (mbtowc : Nat → Option Nat) (x2 x1 x0 : Nat) (rest : List Nat)
    (h2 : x2 < 16) (h1 : x1 < 64) (h0 : x0 < 64) :
    utf8_next mbtowc ((x2 ||| 0xE0) % 256)
        (((x1 ||| 0x80) % 256) :: ((x0 ||| 0x80) % 256) :: rest)
      = ((x2 * 64 + x1) * 64 + x0, rest) := by
  obtain ⟨a1, a2, a3, a4⟩ := lead_byte_three x2 h2
  simp only [utf8_next, if_neg a1, if_neg a2, a3, if_true, a4]
  rw [next_wide_bits_trail x2 1 x1 _ h1 (by omega),
    next_wide_bits_trail (x2 * 64 + x1) 0 x0 rest h0 (by omega)]
  simp [next_wide_bits]

omit [i_cookie_jar_item T] in
theorem utf8_next_four (mbtowc : Nat → Option Nat) (x3 x2 x1 x0 : Nat) (rest : List Nat)
    (h3 : x3 < 8) (h2 : x2 < 64) (h1 : x1 < 64) (h0 : x0 < 64) :
    utf8_next mbtowc ((x3 ||| 0xF0) % 256)
        (((x2 ||| 0x80) % 256) :: ((x1 ||| 0x80) % 256) :: ((x0 ||| 0x80) % 256) :: rest)
      = (((x3 * 64 + x2) * 64 + x1) * 64 + x0, rest) := by
  obtain ⟨a1, a2, a3, a4, a5⟩ := lead_byte_four x3 h3
  simp only [utf8_next, if_neg a1, if_neg a2, if_neg a3, a4, if_true, a5]
  rw [next_wide_bits_trail x3 2 x2 _ h2 (by omega),
    next_wide_bits_trail (x3 * 64 + x2) 1 x1 _ h1 (by omega),
    next_wide_bits_trail ((x3 * 64 + x2) * 64 + x1) 0 x0 rest h0 (by omega)]
  simp [next_wide_bits]

omit [i_cookie_jar_item T] in
theorem append_utf8_eq (aString : List Nat) (aCharacter : Nat) :
    append_utf8 aString aCharacter
      = ((append_utf8 [] aCharacter).1, aString ++ (append_utf8 [] aCharacter).2) := by
  simp only [append_utf8]
  split_ifs <;> simp

omit [i_cookie_jar_item T] in
theorem utf8_to_utf32_encoded (mbtowc : Nat → Option Nat) (aCharacter : Nat) (rest : List Nat)
    (h : aCharacter ≤ 0x1FFFFF) :
    utf8_to_utf32 mbtowc ((append_utf8 [] aCharacter).2 ++ rest)
      = aCharacter :: utf8_to_utf32 mbtowc rest := by
  obtain ⟨m6, m5, m4, m3⟩ := and_low_bits aCharacter
  have s6 := Nat.shiftRight_eq_div_pow aCharacter 6
  have s12 := Nat.shiftRight_eq_div_pow aCharacter 12
  have s18 := Nat.shiftRight_eq_div_pow aCharacter 18
  simp only [append_utf8]
  split_ifs with c1 c2 c3
  · simp only [List.nil_append, List.singleton_append]
    rw [utf8_to_utf32_cons, utf8_next_one mbtowc aCharacter rest (by omega)]
  · simp only [List.nil_append, List.singleton_append, List.cons_append]
    rw [utf8_to_utf32_cons, (and_low_bits (aCharacter >>> 6)).2.1, m6, s6,
      utf8_next_two mbtowc _ _ rest (Nat.mod_lt _ (by omega)) (Nat.mod_lt _ (by omega))]
    simp only
    congr 1
    omega
  · simp only [List.nil_append, List.singleton_append, List.cons_append]
    rw [utf8_to_utf32_cons, (and_low_bits (aCharacter >>> 12)).2.2.1,
      (and_low_bits (aCharacter >>> 6)).1, m6, s6, s12,
      utf8_next_three mbtowc _ _ _ rest (Nat.mod_lt _ (by omega)) (Nat.mod_lt _ (by omega))
        (Nat.mod_lt _ (by omega))]
    simp only
    congr 1
    omega
  · simp only [List.nil_append, List.singleton_append, List.cons_append]
    rw [utf8_to_utf32_cons, (and_low_bits (aCharacter >>> 18)).2.2.2,
      (and_low_bits (aCharacter >>> 12)).1, (and_low_bits (aCharacter >>> 6)).1, m6, s6, s12,
      s18,
      utf8_next_four mbtowc _ _ _ _ rest (Nat.mod_lt _ (by omega)) (Nat.mod_lt _ (by omega))
        (Nat.mod_lt _ (by omega)) (Nat.mod_lt _ (by omega))]
    simp only
    congr 1
    omega

omit [i_cookie_jar_item T] in
theorem appended_utf8_from (aString : List Nat) (aCharacters : List Nat) :
    aCharacters.foldl (fun s c => (append_utf8 s c).2) aString
      = aString ++ (aCharacters.map (fun c => (append_utf8 [] c).2)).flatten := by
  induction aCharacters generalizing aString with
  | nil => simp
  | cons c rest ih =>
    simp only [List.foldl_cons, List.map_cons, List.flatten_cons]
    rw [ih, append_utf8_eq]
    simp

omit [i_cookie_jar_item T] in
/-- C38: for every sequence of code points, each at most `0x1FFFFF`, the string built
by appending them in order to the empty string with `append_utf8` is decoded by
`utf8_to_utf32` to that sequence, in every locale; and every call of `append_utf8`
returns the number of bytes it appends to the string, 1 for a value up to `0x7F`,
2 up to `0x7FF`, 3 up to `0xFFFF` and 4 above. -/
theorem utf8_round_trip (mbtowc : Nat → Option Nat) (aCharacters : List Nat)
    (h : ∀ c ∈ aCharacters, c ≤ 0x1FFFFF) :
    utf8_to_utf32 mbtowc (appended_utf8 aCharacters) = aCharacters ∧
    (∀ aString aCharacter,
      (append_utf8 aString aCharacter).2.length
        = aString.length + (append_utf8 aString aCharacter).1 ∧
      aString <+: (append_utf8 aString aCharacter).2 ∧
      (append_utf8 aString aCharacter).1
        = (if aCharacter ≤ 0x7F then 1 else if aCharacter ≤ 0x7FF then 2
           else if aCharacter ≤ 0xFFFF then 3 else 4)) := by
  refine ⟨?_, ?_⟩
  · simp only [appended_utf8]
    rw [appended_utf8_from, List.nil_append]
    induction aCharacters with
    | nil => simp [utf8_to_utf32, utf8_to_utf32_loop]
    | cons c rest ih =>
      simp only [List.map_cons, List.flatten_cons]
      rw [utf8_to_utf32_encoded mbtowc c _ (h c (by simp)),
        ih (fun x hx => h x (List.mem_cons_of_mem _ hx))]
  · intro aString aCharacter
    rw [append_utf8_eq]
    refine ⟨?_, by simp, ?_⟩
    · simp only [append_utf8]
      split_ifs <;> simp
    · simp only [append_utf8]
      split_ifs <;> rfl

omit [i_cookie_jar_item T] in
theorem utf8_round_trip_witness :
    utf8_to_utf32 (fun _ => none) (appended_utf8 [0x41, 0x7FF, 0xD800, 0x1FFFFF])
      = [0x41, 0x7FF, 0xD800, 0x1FFFFF] :=
  (utf8_round_trip (fun _ => none) [0x41, 0x7FF, 0xD800, 0x1FFFFF] (by decide)).1

/-! ## Claim on disciplined use of the registry -/

theorem contains_after_add {s : cookie_jar T} (h : invariant s) (aItem : T)
    (hc : item_cookie aItem ≠ INVALID_COOKIE)
    (hn : s.contains (item_cookie aItem) = false) (d : Nat)
    (hd : cookie_jar.contains
      { s with
        iJar := s.iJar ++ [aItem]
        iReverseIndices :=
          (grow s.iReverseIndices (item_cookie aItem)).set (item_cookie aItem)
            s.iJar.length } d = true) :
    d = item_cookie aItem ∨ s.contains d = true := by
  have hinv := invariant_add h aItem hc hn
  obtain ⟨x, hx⟩ := (contains_iff_returns hinv d).1 hd
  rw [lookup_add h aItem hc hn d] at hx
  by_cases hdc : d = item_cookie aItem
  · exact Or.inl hdc
  · rw [if_neg hdc] at hx
    exact Or.inr ((contains_iff_returns h d).2 ⟨x, hx⟩)

theorem contains_after_remove {s : cookie_jar T} (h : invariant s) (c r : Nat) (back : T)
    (frees : List Nat)
    (hr : s.iReverseIndices[c]? = some r) (hrv : r ≠ INVALID_REVERSE_INDEX)
    (hback : s.iJar.getLast? = some back) (d : Nat)
    (hd : cookie_jar.contains
      { s with
        iFreeCookies := frees
        iJar := (s.iJar.set r back).dropLast
        iReverseIndices :=
          (s.iReverseIndices.set (item_cookie back) r).set c INVALID_REVERSE_INDEX } d = true) :
    d ≠ c ∧ s.contains d = true := by
  have hinv := invariant_remove h c r back frees hr hrv hback
  obtain ⟨x, hx⟩ := (contains_iff_returns hinv d).1 hd
  rw [lookup_remove h c r back frees hr hrv hback d] at hx
  by_cases hdc : d = c
  · rw [if_pos hdc] at hx
    cases hx
  · rw [if_neg hdc] at hx
    exact ⟨hdc, (contains_iff_returns h d).2 ⟨x, hx⟩⟩

theorem disciplined_start : disciplined_invariant (tracked.start : tracked T) where
  registry_invariant := invariant_constructed
  free_nodup := by simp [tracked.start, cookie_jar.constructed]
  free_fresh := by simp [tracked.start, cookie_jar.constructed]
  free_range := by simp [tracked.start, cookie_jar.constructed]
  outstanding_range := by simp [tracked.start]
  live_outstanding := by
    intro c hc
    simp [tracked.start, cookie_jar.constructed, cookie_jar.contains] at hc
  counter_lt := by simp [tracked.start, cookie_jar.constructed, INVALID_COOKIE]

theorem disciplined_next_cookie (w : tracked T) (h : disciplined_invariant w) :
    (∀ c s, w.registry.next_cookie = .returns c s →
      c ∉ w.outstanding ∧
      disciplined_invariant { registry := s, outstanding := c :: w.outstanding }) ∧
    (∀ e s, w.registry.next_cookie = .throws e s →
      e = .cookies_exhausted ∧ w.registry.iFreeCookies = [] ∧
      w.registry.iNextAvailableCookie + 1 = INVALID_COOKIE) ∧
    w.registry.next_cookie ≠ .undefined := by
  obtain ⟨⟨counter, free, jar, indices⟩, outstanding⟩ := w
  have hlt := h.counter_lt
  simp only [INVALID_COOKIE] at hlt
  cases hlast : free.getLast? with
  | some c =>
    have hfree : free.dropLast ++ [c] = free := List.dropLast_append_getLast? c hlast
    have hnd := h.free_nodup
    simp only at hnd
    rw [← hfree] at hnd
    have hcmem : c ∈ free := by rw [← hfree]; simp
    have hsub : ∀ x ∈ free.dropLast, x ∈ free := fun x hx => by
      rw [← hfree]; exact List.mem_append_left _ hx
    have hnd1 : free.dropLast.Nodup := (List.nodup_append.1 hnd).1
    have hcnot : c ∉ free.dropLast := by
      intro hc
      exact (List.nodup_append.1 hnd).2.2 hc (by simp)
    refine ⟨?_, ?_, ?_⟩
    · intro c1 s hs
      simp only [cookie_jar.next_cookie, hlast, outcome.returns.injEq] at hs
      obtain ⟨h1, h2⟩ := hs
      subst h1 h2
      refine ⟨h.free_fresh c hcmem, ?_⟩
      exact
        { registry_invariant := invariant_of_same_jar h.registry_invariant rfl rfl
          free_nodup := hnd1
          free_fresh := by
            intro x hx hmem
            simp only [List.mem_cons] at hmem
            rcases hmem with hmem | hmem
            · subst hmem; exact hcnot hx
            · exact h.free_fresh x (hsub x hx) hmem
          free_range := fun x hx => h.free_range x (hsub x hx)
          outstanding_range := by
            intro x hx
            simp only [List.mem_cons] at hx
            rcases hx with hx | hx
            · subst hx; exact h.free_range x hcmem
            · exact h.outstanding_range x hx
          live_outstanding := fun x hx => List.mem_cons_of_mem _ (h.live_outstanding x hx)
          counter_lt := h.counter_lt }
    · intro e s hs
      simp [cookie_jar.next_cookie, hlast] at hs
    · simp [cookie_jar.next_cookie, hlast]
  | none =>
    have hnil : free = [] := List.getLast?_eq_none_iff.1 hlast
    subst hnil
    have hmod : (counter + 1) % 4294967296 = counter + 1 := Nat.mod_eq_of_lt (by omega)
    refine ⟨?_, ?_, ?_⟩
    · intro c1 s hs
      simp only [cookie_jar.next_cookie, List.getLast?_nil, hmod] at hs
      split at hs
      · cases hs
      · rename_i hne
        simp only [outcome.returns.injEq] at hs
        obtain ⟨h1, h2⟩ := hs
        subst h1 h2
        simp only [INVALID_COOKIE] at hne
        refine ⟨?_, ?_⟩
        · intro hmem
          have := (h.outstanding_range _ hmem).2
          simp only at this
          omega
        · exact
            { registry_invariant := invariant_of_same_jar h.registry_invariant rfl rfl
              free_nodup := List.nodup_nil
              free_fresh := by intro x hx; simp at hx
              free_range := by intro x hx; simp at hx
              outstanding_range := by
                intro x hx
                simp only [List.mem_cons] at hx
                rcases hx with hx | hx
                · subst hx; simp
                · have := h.outstanding_range x hx
                  simp only at this ⊢
                  omega
              live_outstanding := fun x hx => List.mem_cons_of_mem _ (h.live_outstanding x hx)
              counter_lt := by
                simp only [INVALID_COOKIE]
                omega }
    · intro e s hs
      simp only [cookie_jar.next_cookie, List.getLast?_nil, hmod] at hs
      split at hs
      · rename_i heq
        simp only [outcome.throws.injEq] at hs
        exact ⟨hs.1.symm, rfl, heq⟩
      · cases hs
    · simp only [cookie_jar.next_cookie, List.getLast?_nil, hmod]
      split <;> simp

theorem disciplined_add (w : tracked T) (h : disciplined_invariant w) (aItem : T)
    (hout : item_cookie aItem ∈ w.outstanding) :
    ∃ s, (w.registry.add aItem).state? = some s ∧
      tracked.step w (.add aItem) = some { registry := s, outstanding := w.outstanding } ∧
      disciplined_invariant { registry := s, outstanding := w.outstanding } := by
  have hrange := h.outstanding_range _ hout
  have hlt := h.counter_lt
  have hc : item_cookie aItem ≠ INVALID_COOKIE := by omega
  have hadd := add_eq w.registry aItem hc
  by_cases hlive : w.registry.contains (item_cookie aItem) = true
  · rw [if_pos hlive] at hadd
    refine ⟨w.registry, by rw [hadd]; rfl, ?_, ?_⟩
    · simp only [tracked.step, if_pos hout, hadd]
    · exact
        { registry_invariant := h.registry_invariant
          free_nodup := h.free_nodup
          free_fresh := h.free_fresh
          free_range := h.free_range
          outstanding_range := h.outstanding_range
          live_outstanding := h.live_outstanding
          counter_lt := h.counter_lt }
  · rw [if_neg hlive] at hadd
    have hn : w.registry.contains (item_cookie aItem) = false := by
      simpa using hlive
    refine ⟨_, by rw [hadd]; rfl, ?_, ?_⟩
    · simp only [tracked.step, if_pos hout, hadd]
    · exact
        { registry_invariant := invariant_add h.registry_invariant aItem hc hn
          free_nodup := h.free_nodup
          free_fresh := h.free_fresh
          free_range := h.free_range
          outstanding_range := h.outstanding_range
          live_outstanding := by
            intro d hd
            rcases contains_after_add h.registry_invariant aItem hc hn d hd with hd1 | hd1
            · rw [hd1]; exact hout
            · exact h.live_outstanding d hd1
          counter_lt := h.counter_lt }

theorem disciplined_remove (w : tracked T) (h : disciplined_invariant w) (aCookie : Nat)
    (hlive : w.registry.contains aCookie = true) :
    ∃ r s, w.registry.remove aCookie = .returns r s ∧
      tracked.step w (.remove aCookie)
        = some { registry := s, outstanding := w.outstanding.filter (fun c => c != aCookie) } ∧
      disciplined_invariant
        { registry := s, outstanding := w.outstanding.filter (fun c => c != aCookie) } := by
  obtain ⟨r, back, hr, hrv, _, hback, _, _, hrem⟩ :=
    remove_eq w.registry aCookie h.registry_invariant hlive
  have hout := h.live_outstanding aCookie hlive
  have hnotfree : aCookie ∉ w.registry.iFreeCookies := fun hmem => h.free_fresh _ hmem hout
  refine ⟨r, _, hrem, ?_, ?_⟩
  · simp only [tracked.step, hlive, if_true, hrem]
  · exact
      { registry_invariant :=
          invariant_remove h.registry_invariant aCookie r back _ hr hrv hback
        free_nodup := by
          simp only
          rw [List.nodup_append]
          refine ⟨h.free_nodup, List.nodup_singleton _, ?_⟩
          intro x hx hx1
          simp only [List.mem_singleton] at hx1
          subst hx1
          exact hnotfree hx
        free_fresh := by
          intro x hx hmem
          simp only [List.mem_append, List.mem_singleton] at hx
          simp only [List.mem_filter, bne_iff_ne, ne_eq] at hmem
          rcases hx with hx | hx
          · exact h.free_fresh x hx hmem.1
          · exact hmem.2 hx
        free_range := by
          intro x hx
          simp only [List.mem_append, List.mem_singleton] at hx
          rcases hx with hx | hx
          · exact h.free_range x hx
          · subst hx; exact h.outstanding_range _ hout
        outstanding_range := by
          intro x hx
          simp only [List.mem_filter] at hx
          exact h.outstanding_range x hx.1
        live_outstanding := by
          intro d hd
          obtain ⟨hne, hd1⟩ :=
            contains_after_remove h.registry_invariant aCookie r back _ hr hrv hback d hd
          simp only [List.mem_filter, bne_iff_ne, ne_eq]
          exact ⟨h.live_outstanding d hd1, hne⟩
        counter_lt := h.counter_lt }

theorem disciplined_step (w w1 : tracked T) (h : disciplined_invariant w) (op : operation T)
    (hs : w.step op = some w1) : disciplined_invariant w1 := by
  cases op with
  | next_cookie =>
    simp only [tracked.step] at hs
    cases hn : w.registry.next_cookie with
    | returns c s =>
      rw [hn] at hs
      simp only [Option.some.injEq] at hs
      subst hs
      exact ((disciplined_next_cookie w h).1 c s hn).2
    | throws e s => rw [hn] at hs; cases hs
    | undefined => rw [hn] at hs; cases hs
  | add aItem =>
    by_cases hout : item_cookie aItem ∈ w.outstanding
    · obtain ⟨s, _, h2, h3⟩ := disciplined_add w h aItem hout
      rw [h2] at hs
      simp only [Option.some.injEq] at hs
      subst hs
      exact h3
    · simp [tracked.step, hout] at hs
  | remove aCookie =>
    by_cases hlive : w.registry.contains aCookie = true
    · obtain ⟨r, s, _, h2, h3⟩ := disciplined_remove w h aCookie hlive
      rw [h2] at hs
      simp only [Option.some.injEq] at hs
      subst hs
      exact h3
    · simp [tracked.step, hlive] at hs
  | return_cookie c => simp [tracked.step] at hs
  | clear => simp [tracked.step] at hs

theorem disciplined_run (ops : List (operation T)) (w w1 : tracked T)
    (h : disciplined_invariant w) (hr : w.run ops = some w1) : disciplined_invariant w1 := by
  induction ops generalizing w with
  | nil =>
    simp only [tracked.run, Option.some.injEq] at hr
    subst hr
    exact h
  | cons op rest ih =>
    simp only [tracked.run] at hr
    cases hs : w.step op with
    | none => rw [hs] at hr; cases hr
    | some w2 =>
      rw [hs] at hr
      exact ih w2 (disciplined_step w w2 h op hs) hr

/-- C33: after any sequence of disciplined calls from the empty registry that has not
run into `cookies_exhausted`, the free list has no duplicates and each of its
cookies is not live, not outstanding, and lies between 1 and the counter; every
live cookie is outstanding; and `next_cookie`, when it returns, returns a cookie
that is neither outstanding nor live. In such a state a disciplined `add` returns or
throws `cookie_already_added`, a disciplined `remove` returns, and `next_cookie`
returns unless it throws `cookies_exhausted`. -/
theorem disciplined_next_cookie_fresh (ops : List (operation T)) (w : tracked T)
    (hrun : tracked.run tracked.start ops = some w) :
    w.registry.iFreeCookies.Nodup ∧
    (∀ c ∈ w.registry.iFreeCookies,
      w.registry.contains c = false ∧ c ∉ w.outstanding ∧ 1 ≤ c ∧
      c ≤ w.registry.iNextAvailableCookie) ∧
    (∀ c, w.registry.contains c = true → c ∈ w.outstanding) ∧
    (∀ c s, w.registry.next_cookie = .returns c s →
      c ∉ w.outstanding ∧ w.registry.contains c = false) ∧
    (∀ aItem, item_cookie aItem ∈ w.outstanding → (w.step (.add aItem)).isSome = true) ∧
    (∀ aCookie, w.registry.contains aCookie = true →
      (w.step (.remove aCookie)).isSome = true) ∧
    ((w.step .next_cookie).isSome = true ∨
      ∃ s, w.registry.next_cookie = .throws .cookies_exhausted s) := by
  have h := disciplined_run ops tracked.start w disciplined_start hrun
  have hnotlive : ∀ c, c ∉ w.outstanding → w.registry.contains c = false := by
    intro c hc
    cases hlive : w.registry.contains c with
    | false => rfl
    | true => exact absurd (h.live_outstanding c hlive) hc
  refine ⟨h.free_nodup, ?_, h.live_outstanding, ?_, ?_, ?_, ?_⟩
  · intro c hc
    exact ⟨hnotlive c (h.free_fresh c hc), h.free_fresh c hc, h.free_range c hc⟩
  · intro c s hs
    have := ((disciplined_next_cookie w h).1 c s hs).1
    exact ⟨this, hnotlive c this⟩
  · intro aItem hout
    obtain ⟨s, _, h2, _⟩ := disciplined_add w h aItem hout
    rw [h2]
    rfl
  · intro aCookie hlive
    obtain ⟨r, s, _, h2, _⟩ := disciplined_remove w h aCookie hlive
    rw [h2]
    rfl
  · cases hn : w.registry.next_cookie with
    | returns c s =>
      left
      simp [tracked.step, hn]
    | throws e s =>
      right
      obtain ⟨he, _, _⟩ := (disciplined_next_cookie w h).2.1 e s hn
      subst he
      exact ⟨s, rfl⟩
    | undefined => exact absurd hn (disciplined_next_cookie w h).2.2

theorem disciplined_next_cookie_fresh_witness :
    tracked.run (tracked.start : tracked labelled)
        [.next_cookie, .next_cookie, .add ⟨1, 10⟩, .add ⟨2, 20⟩, .remove 1]
      = some ⟨⟨2, [1], [⟨2, 20⟩], [4294967295, 4294967295, 0]⟩, [2]⟩ ∧
    ∀ c s,
      cookie_jar.next_cookie
          (⟨2, [1], [⟨2, 20⟩], [4294967295, 4294967295, 0]⟩ : cookie_jar labelled)
        = .returns c s →
      c ∉ [2] ∧
      cookie_jar.contains
          (⟨2, [1], [⟨2, 20⟩], [4294967295, 4294967295, 0]⟩ : cookie_jar labelled) c
        = false :=
  ⟨by decide,
    (disciplined_next_cookie_fresh
      ([.next_cookie, .next_cookie, .add ⟨1, 10⟩, .add ⟨2, 20⟩, .remove 1] :
        List (operation labelled))
      ⟨⟨2, [1], [⟨2, 20⟩], [4294967295, 4294967295, 0]⟩, [2]⟩ (by decide)).2.2.2.1⟩

end neolib
